import Mathlib

/-!
# Hash-indexed account tables: chaining, linear probing, quadratic probing

A shallow embedding of the three C++ programs `Chaining.cpp`, `LinearProbing.cpp`
and `QuadraticProbing.cpp`, followed by theorems about them.

Modelling conventions.

* `std::hash<std::string>` is implementation-defined; every operation takes it as the
  parameter `hashFunc : String → Nat` (its `size_t` value). `hashFunction` reduces it
  modulo `capacity`, as the source does.
* `std::vector` is a `List`; an index that is read is looked up with `[i]?`.
* `int` balances are mathematical integers (`Int`): signed overflow is undefined
  behaviour in C++, so the model speaks about runs in which balances do not overflow.
* An iterator into a chain (`std::list`) is the position of the element in the chain;
  `end()` is the length of the chain.
-/

/-! ## Shared pieces -/

/-- The value `std::sort(balances.rbegin(), balances.rend())` leaves in the vector:
the elements in non-increasing order. -/
def sortDescending (balances : List Int) : List Int :=
  balances.insertionSort (fun a b => b ≤ a)

/-- Conversion of an `int` to the unsigned 64-bit `size_t`, as C++ performs it when an
`int` is compared with, or passed as, a `size_t`. -/
def toSizeT (k : Int) : Nat :=
  (k % 2 ^ 64).toNat

/-- The tail of `getTopBalances`: `if (balances.size() > k) balances.resize(k);`
with `k` converted to `size_t` in both places. -/
def truncateTo (balances : List Int) (k : Int) : List Int :=
  if balances.length > toSizeT k then balances.take (toSizeT k) else balances

/-- What the contract asks of a top-`k` result over the live balances `live`: it has
`min k n` elements (`n` the number of live balances), is in non-increasing order, is the
first `min k n` elements of every non-increasing arrangement of `live` (and one
exists), is contained in `live` as a multiset, and every omitted live balance is at
most every returned one. -/
def TopKSpec (live result : List Int) (k : Nat) : Prop :=
  result.length = min k live.length ∧
  result.Sorted (fun a b => b ≤ a) ∧
  (∃ L : List Int, L.Perm live ∧ L.Sorted (fun a b => b ≤ a)) ∧
  (∀ L : List Int, L.Perm live → L.Sorted (fun a b => b ≤ a) →
    result = L.take (min k live.length)) ∧
  (result : Multiset Int) ≤ (live : Multiset Int) ∧
  (∀ x ∈ (live : Multiset Int) - (result : Multiset Int), ∀ y ∈ result, x ≤ y)

/-! ## Separate chaining (`Chaining.cpp`) -/

namespace Chaining

/-- The class `BankAccount` of `Chaining.cpp`. -/
structure BankAccount where
  id : String
  balance : Int
deriving DecidableEq

/-- The class `BankingSystem` of `Chaining.cpp`: a vector of chains, `capacity`, `size`. -/
structure BankingSystem where
  table : List (List BankAccount)
  capacity : Nat
  size : Int
deriving DecidableEq

/-- The constructor `BankingSystem(int cap)`: `cap` empty chains, `size = 0`. -/
def BankingSystem.init (cap : Nat) : BankingSystem :=
  { table := List.replicate cap [], capacity := cap, size := 0 }

/-- The chain `table[index]`. -/
def chainAt (s : BankingSystem) (index : Nat) : List BankAccount :=
  s.table.getD index []

/-- The source's `hashFunction`: `hashFunc(id) % capacity`. -/
def hashFunction (hashFunc : String → Nat) (s : BankingSystem) (id : String) : Nat :=
  hashFunc id % s.capacity

/-- The source's `findAccount`: `std::find_if` over `table[index]`, as the position of
the first account whose id matches; the chain's length stands for `end()`. -/
def findAccount (s : BankingSystem) (id : String) (index : Nat) : Nat :=
  (chainAt s index).findIdx (fun account => account.id == id)

/-- The source's `createAccount`: appends a record when the id is not in its chain;
does nothing otherwise. -/
def createAccount (hashFunc : String → Nat) (s : BankingSystem) (id : String)
    (initialBalance : Int) : BankingSystem :=
  let index := hashFunction hashFunc s id
  let it := findAccount s id index
  if it = (chainAt s index).length then
    { s with
      table := s.table.set index (chainAt s index ++ [⟨id, initialBalance⟩])
      size := s.size + 1 }
  else s

/-- The source's `getBalance`. -/
def getBalance (hashFunc : String → Nat) (s : BankingSystem) (id : String) : Int :=
  let index := hashFunction hashFunc s id
  let it := findAccount s id index
  if it ≠ (chainAt s index).length then
    match (chainAt s index)[it]? with
    | some account => account.balance
    | none => -1
  else -1

/-- The source's `addTransaction`. -/
def addTransaction (hashFunc : String → Nat) (s : BankingSystem) (id : String)
    (amount : Int) : BankingSystem :=
  let index := hashFunction hashFunc s id
  let it := findAccount s id index
  if it = (chainAt s index).length then
    if amount ≥ 0 then createAccount hashFunc s id amount else s
  else
    match (chainAt s index)[it]? with
    | some account =>
      if account.balance + amount ≥ 0 then
        { s with
          table := s.table.set index
            ((chainAt s index).set it { account with balance := account.balance + amount }) }
      else s
    | none => s

/-- The collection loop of `getTopBalances`: every balance of every chain is pushed
back, chain by chain. -/
def collectBalances (s : BankingSystem) : List Int :=
  s.table.foldl
    (fun balances chain => chain.foldl (fun bs account => bs ++ [account.balance]) balances) []

/-- The source's `getTopBalances`. -/
def getTopBalances (s : BankingSystem) (k : Int) : List Int :=
  truncateTo (sortDescending (collectBalances s)) k

/-- The source's `accountExists`. -/
def accountExists (hashFunc : String → Nat) (s : BankingSystem) (id : String) : Bool :=
  let index := hashFunction hashFunc s id
  decide (findAccount s id index ≠ (chainAt s index).length)

/-- The source's `totalAccounts`. -/
def totalAccounts (s : BankingSystem) : Int :=
  s.size

/-- The source's `deleteAccount`: the new state and the returned flag. -/
def deleteAccount (hashFunc : String → Nat) (s : BankingSystem) (id : String) :
    BankingSystem × Bool :=
  let index := hashFunction hashFunc s id
  let it := findAccount s id index
  if it ≠ (chainAt s index).length then
    ({ s with
       table := s.table.set index ((chainAt s index).eraseIdx it)
       size := s.size - 1 }, true)
  else (s, false)

/-- The constructor's guarantee that every operation keeps: the vector has `capacity`
chains and `capacity` is positive. -/
def Sized (s : BankingSystem) : Prop :=
  s.table.length = s.capacity ∧ 0 < s.capacity

/-- Number of records in the whole table whose id is `id`. -/
def recordCount (s : BankingSystem) (id : String) : Nat :=
  (s.table.map (fun chain => chain.countP (fun account => account.id == id))).sum

/-- The records of the table other than those of `id`, chain by chain. -/
def otherRecords (s : BankingSystem) (id : String) : List (List BankAccount) :=
  s.table.map (fun chain => chain.filter (fun account => account.id != id))

/-- Well-formed tables: sized, every record lies in the bucket of its id, and no chain
holds an id twice. -/
def WF (hashFunc : String → Nat) (s : BankingSystem) : Prop :=
  Sized s ∧
  (∀ i chain, s.table[i]? = some chain → ∀ account ∈ chain,
      hashFunc account.id % s.capacity = i) ∧
  (∀ chain ∈ s.table, (chain.map (fun account => account.id)).Nodup)

/-- The account a lookup of `id` ends on: the first record of the bucket with that id. -/
def lookup (hashFunc : String → Nat) (s : BankingSystem) (id : String) : Option BankAccount :=
  (chainAt s (hashFunction hashFunc s id)).find? (fun account => account.id == id)

/-- The balances of the live records (those present in a chain), chain by chain. -/
def liveBalances (s : BankingSystem) : List Int :=
  s.table.flatten.map (fun account => account.balance)

/-- The states the public interface can produce from a freshly constructed table. -/
inductive Reachable (hashFunc : String → Nat) (cap : Nat) : BankingSystem → Prop
  | fresh : Reachable hashFunc cap (BankingSystem.init cap)
  | create (s : BankingSystem) (id : String) (b : Int) :
      Reachable hashFunc cap s → Reachable hashFunc cap (createAccount hashFunc s id b)
  | transact (s : BankingSystem) (id : String) (amount : Int) :
      Reachable hashFunc cap s → Reachable hashFunc cap (addTransaction hashFunc s id amount)
  | delete (s : BankingSystem) (id : String) :
      Reachable hashFunc cap s → Reachable hashFunc cap (deleteAccount hashFunc s id).1

/-- The ids of all records of the table, chain by chain. -/
def allIds (s : BankingSystem) : List String :=
  s.table.flatten.map (fun account => account.id)

/-- The counter `size` is the total length of the chains. -/
def SizeOK (s : BankingSystem) : Prop :=
  s.size = ((s.table.map List.length).sum : Nat)

end Chaining

/-! ## Linear probing (`LinearProbing.cpp`) -/

namespace LinearProbing

/-- The class `BankDatabase`: a vector of `(id, balance)` pairs, `size`, `capacity`.
A slot whose id is the empty string is an empty slot. -/
structure BankDatabase where
  table : List (String × Int)
  size : Int
  capacity : Nat
deriving DecidableEq

/-- The constructor `BankDatabase(int cap)`: `cap` slots `("", 0)`, `size = 0`. -/
def BankDatabase.init (cap : Nat) : BankDatabase :=
  { table := List.replicate cap ("", 0), size := 0, capacity := cap }

/-- The source's `hashFunction`: `hasher(id) % capacity`. -/
def hashFunction (hashFunc : String → Nat) (s : BankDatabase) (id : String) : Nat :=
  hashFunc id % s.capacity

/-- The `while` loop of `linearProbe`, started at `i`, run for at most `fuel` tests of
its condition. `none` when the fuel runs out or a slot outside the vector is read. -/
def linearProbeLoop (table : List (String × Int)) (capacity : Nat) (id : String) :
    Nat → Nat → Option Nat
  | 0, _ => none
  | fuel + 1, i =>
    match table[i]? with
    | none => none
    | some entry =>
      if entry.1 ≠ "" ∧ entry.1 ≠ id then
        linearProbeLoop table capacity id fuel ((i + 1) % capacity)
      else some i

/-- The source's `linearProbe`. The loop's only variable is `i`, which returns to its
start after `capacity` steps, so `capacity` tests decide the loop: when none of them
exits, no later one does and the C++ loop does not terminate (`none`). -/
def linearProbe (s : BankDatabase) (hashValue : Nat) (id : String) : Option Nat :=
  linearProbeLoop s.table s.capacity id s.capacity hashValue

/-- The source's `createAccount`; `none` when `linearProbe` does not return. -/
def createAccount (hashFunc : String → Nat) (s : BankDatabase) (id : String)
    (initialBalance : Int) : Option BankDatabase := do
  let hashValue := hashFunction hashFunc s id
  let index ← linearProbe s hashValue id
  let entry ← s.table[index]?
  if entry.1 = "" then
    some { s with table := s.table.set index (id, initialBalance), size := s.size + 1 }
  else
    some { s with table := s.table.set index (entry.1, initialBalance) }

/-- The collection loop of `getTopKBalances`: the balance of every slot with a
non-empty id is pushed back, in slot order. -/
def collectBalances (s : BankDatabase) : List Int :=
  s.table.foldl
    (fun balances entry => if entry.1 ≠ "" then balances ++ [entry.2] else balances) []

/-- The source's `getTopKBalances`. -/
def getTopKBalances (s : BankDatabase) (k : Int) : List Int :=
  truncateTo (sortDescending (collectBalances s)) k

/-- The source's `getBalance`. -/
def getBalance (hashFunc : String → Nat) (s : BankDatabase) (id : String) : Option Int := do
  let hashValue := hashFunction hashFunc s id
  let index ← linearProbe s hashValue id
  let entry ← s.table[index]?
  if entry.1 = id then some entry.2 else some (-1)

/-- The source's `addTransaction`: no test of the amount or of the resulting balance. -/
def addTransaction (hashFunc : String → Nat) (s : BankDatabase) (id : String)
    (amount : Int) : Option BankDatabase := do
  let hashValue := hashFunction hashFunc s id
  let index ← linearProbe s hashValue id
  let entry ← s.table[index]?
  if entry.1 = "" then
    some { s with table := s.table.set index (id, amount), size := s.size + 1 }
  else
    some { s with table := s.table.set index (entry.1, entry.2 + amount) }

/-- The source's `accountExists`. -/
def accountExists (hashFunc : String → Nat) (s : BankDatabase) (id : String) :
    Option Bool := do
  let hashValue := hashFunction hashFunc s id
  let index ← linearProbe s hashValue id
  let entry ← s.table[index]?
  some (decide (entry.1 = id))

/-- The source's `totalAccounts`. -/
def totalAccounts (s : BankDatabase) : Int :=
  s.size

/-- The source's `deleteAccount`: the slot is reset to `("", 0)`. -/
def deleteAccount (hashFunc : String → Nat) (s : BankDatabase) (id : String) :
    Option (BankDatabase × Bool) := do
  let hashValue := hashFunction hashFunc s id
  let index ← linearProbe s hashValue id
  let entry ← s.table[index]?
  if entry.1 = id then
    some ({ s with table := s.table.set index ("", 0), size := s.size - 1 }, true)
  else
    some (s, false)

/-- The constructor's guarantee that every operation keeps. -/
def Sized (s : BankDatabase) : Prop :=
  s.table.length = s.capacity ∧ 0 < s.capacity

/-- The balances of the live slots (non-empty id), in slot order. -/
def liveBalances (s : BankDatabase) : List Int :=
  (s.table.filter (fun entry => entry.1 ≠ "")).map (fun entry => entry.2)

/-- The delete-under-collision scenario: in a fresh table of capacity `cap`, create `a`,
`b`, `c` in this order, then delete `b`. The resulting state. -/
def collisionScenario (hashFunc : String → Nat) (cap : Nat) (a b c : String)
    (x y z : Int) : Option BankDatabase := do
  let s1 ← createAccount hashFunc (BankDatabase.init cap) a x
  let s2 ← createAccount hashFunc s1 b y
  let s3 ← createAccount hashFunc s2 c z
  let r ← deleteAccount hashFunc s3 b
  some r.1

end LinearProbing

/-! ## Quadratic probing (`QuadraticProbing.cpp`) -/

namespace QuadraticProbing

/-- The class `BankAccount` of `QuadraticProbing.cpp`. -/
structure BankAccount where
  id : String
  balance : Int
  active : Bool
deriving DecidableEq

/-- The default constructor `BankAccount()`. -/
def BankAccount.blank : BankAccount :=
  { id := "", balance := 0, active := false }

/-- The class `BankingSystem` of `QuadraticProbing.cpp`. -/
structure BankingSystem where
  table : List BankAccount
  capacity : Nat
  size : Int
deriving DecidableEq

/-- The constructor `BankingSystem(int cap)`. -/
def BankingSystem.init (cap : Nat) : BankingSystem :=
  { table := List.replicate cap BankAccount.blank, capacity := cap, size := 0 }

/-- Two's-complement wrap-around of a 32-bit `int` result. -/
def wrap32 (x : Int) : Int :=
  (x + 2 ^ 31) % 2 ^ 32 - 2 ^ 31

/-- The read `table[index]` with an `int` index; `none` outside the vector. -/
def slotAt (table : List BankAccount) (index : Int) : Option BankAccount :=
  if 0 ≤ index then table[index.toNat]? else none

/-- The source's `hashFunction`: `hashFunc(id) % capacity`. -/
def hashFunction (hashFunc : String → Nat) (s : BankingSystem) (id : String) : Nat :=
  hashFunc id % s.capacity

/-- The `while` loop of `findSlot` from the state `(index, i)`, for at most `fuel` tests
of its condition. `int` arithmetic wraps at 32 bits and `%` truncates, as in C++.
`none` when a slot outside the vector is read (or the fuel runs out). -/
def findSlotLoop (table : List BankAccount) (capacity : Int) (id : String) :
    Nat → Int → Int → Option Int
  | 0, _, _ => none
  | fuel + 1, index, i =>
    match slotAt table index with
    | none => none
    | some account =>
      if account.active = true ∧ account.id ≠ id then
        let i1 := wrap32 (i + 1)
        let index1 := Int.tmod (wrap32 (index + wrap32 (i1 * i1))) capacity
        if i1 ≥ capacity then some (-1) else findSlotLoop table capacity id fuel index1 i1
      else some index

/-- The source's `findSlot`. The loop counter `i` grows by one per round and the loop
returns `-1` once `i >= capacity`, so `capacity` tests of the condition suffice. -/
def findSlot (hashFunc : String → Nat) (s : BankingSystem) (id : String) : Option Int :=
  findSlotLoop s.table s.capacity id s.capacity (hashFunction hashFunc s id) 0

/-- The source's `createAccount`; `none` when a slot outside the vector is read. -/
def createAccount (hashFunc : String → Nat) (s : BankingSystem) (id : String)
    (initialBalance : Int) : Option BankingSystem := do
  let index ← findSlot hashFunc s id
  if index ≠ -1 then
    let account ← slotAt s.table index
    if account.active = false then
      some { s with
             table := s.table.set index.toNat { id := id, balance := initialBalance, active := true }
             size := s.size + 1 }
    else some s
  else some s

/-- The source's `getBalance`. -/
def getBalance (hashFunc : String → Nat) (s : BankingSystem) (id : String) : Option Int := do
  let index ← findSlot hashFunc s id
  if index ≠ -1 then
    let account ← slotAt s.table index
    if account.active = true then some account.balance else some (-1)
  else some (-1)

/-- The source's `addTransaction`. -/
def addTransaction (hashFunc : String → Nat) (s : BankingSystem) (id : String)
    (amount : Int) : Option BankingSystem := do
  let index ← findSlot hashFunc s id
  if index ≠ -1 then
    let account ← slotAt s.table index
    if account.active = false then
      if amount ≥ 0 then
        some { s with
               table := s.table.set index.toNat { id := id, balance := amount, active := true }
               size := s.size + 1 }
      else some s
    else
      if account.balance + amount ≥ 0 then
        some { s with
               table := s.table.set index.toNat
                 { account with balance := account.balance + amount } }
      else some s
  else some s

/-- The collection loop of `getTopBalances`: the balance of every active slot is pushed
back, in slot order. -/
def collectBalances (s : BankingSystem) : List Int :=
  s.table.foldl
    (fun balances account =>
      if account.active = true then balances ++ [account.balance] else balances) []

/-- The source's `getTopBalances`. -/
def getTopBalances (s : BankingSystem) (k : Int) : List Int :=
  truncateTo (sortDescending (collectBalances s)) k

/-- The source's `accountExists`. -/
def accountExists (hashFunc : String → Nat) (s : BankingSystem) (id : String) :
    Option Bool := do
  let index ← findSlot hashFunc s id
  if index ≠ -1 then
    let account ← slotAt s.table index
    some account.active
  else some false

/-- The source's `totalAccounts`. -/
def totalAccounts (s : BankingSystem) : Int :=
  s.size

/-- The source's `deleteAccount`: only the `active` flag of the slot is cleared. -/
def deleteAccount (hashFunc : String → Nat) (s : BankingSystem) (id : String) :
    Option (BankingSystem × Bool) := do
  let index ← findSlot hashFunc s id
  if index ≠ -1 then
    let account ← slotAt s.table index
    if account.active = true then
      some ({ s with
              table := s.table.set index.toNat { account with active := false }
              size := s.size - 1 }, true)
    else some (s, false)
  else some (s, false)

/-- The balances of the live slots (`active == true`), in slot order. -/
def liveBalances (s : BankingSystem) : List Int :=
  (s.table.filter (fun account => account.active)).map (fun account => account.balance)

/-- Two creates in a fresh table of capacity `cap`: first `d`, then `j`. -/
def twoCreates (hashFunc : String → Nat) (cap : Nat) (d j : String) (x y : Int) :
    Option BankingSystem := do
  let s1 ← createAccount hashFunc (BankingSystem.init cap) d x
  createAccount hashFunc s1 j y

/-- The indices the loop of `findSlot` uses to read the table, in order: the loop of
`findSlotLoop` with every read `table[index]` recorded. -/
def findSlotReads (table : List BankAccount) (capacity : Int) (id : String) :
    Nat → Int → Int → List Int
  | 0, _, _ => []
  | fuel + 1, index, i =>
    index ::
      (match slotAt table index with
      | none => []
      | some account =>
        if account.active = true ∧ account.id ≠ id then
          let i1 := wrap32 (i + 1)
          let index1 := Int.tmod (wrap32 (index + wrap32 (i1 * i1))) capacity
          if i1 ≥ capacity then [] else findSlotReads table capacity id fuel index1 i1
        else [])

/-- The slots `findSlot(id)` examines, in order. -/
def findSlotTrace (hashFunc : String → Nat) (s : BankingSystem) (id : String) : List Int :=
  findSlotReads s.table s.capacity id s.capacity (hashFunction hashFunc s id) 0

/-- The sum of squares `1^2 + 2^2 + ... + n^2`. -/
def sumSquares : Nat → Nat
  | 0 => 0
  | n + 1 => sumSquares n + (n + 1) * (n + 1)

/-- The constructor's guarantee that every operation keeps. -/
def Sized (s : BankingSystem) : Prop :=
  s.table.length = s.capacity ∧ 0 < s.capacity

/-- The number of slots with `active == true`. -/
def activeCount (s : BankingSystem) : Nat :=
  s.table.countP (fun account => account.active)

/-- The states the public interface can produce from a freshly constructed table; a
call that does not return a state (a read outside the vector) produces none. -/
inductive Reachable (hashFunc : String → Nat) (cap : Nat) : BankingSystem → Prop
  | fresh : Reachable hashFunc cap (BankingSystem.init cap)
  | create (s t : BankingSystem) (id : String) (b : Int) :
      Reachable hashFunc cap s → createAccount hashFunc s id b = some t →
      Reachable hashFunc cap t
  | transact (s t : BankingSystem) (id : String) (amount : Int) :
      Reachable hashFunc cap s → addTransaction hashFunc s id amount = some t →
      Reachable hashFunc cap t
  | delete (s t : BankingSystem) (id : String) (found : Bool) :
      Reachable hashFunc cap s → deleteAccount hashFunc s id = some (t, found) →
      Reachable hashFunc cap t

/-- Create `d`, create `j`, delete `d`, create `j` again, in a fresh table of capacity
`cap`. The resulting state. -/
def recreateScenario (hashFunc : String → Nat) (cap : Nat) (d j : String) (x y z : Int) :
    Option BankingSystem := do
  let s2 ← twoCreates hashFunc cap d j x y
  let r ← deleteAccount hashFunc s2 d
  createAccount hashFunc r.1 j z

/-- A table of `cap` slots that are all active and hold the id "x". -/
def fullTable (cap : Nat) : BankingSystem :=
  { table := List.replicate cap { id := "x", balance := 0, active := true },
    capacity := cap, size := cap }

/-- The state invariant of the quadratic variant: the vector has `capacity` slots and
`size` counts the active ones. -/
def SizeInv (s : BankingSystem) : Prop :=
  s.table.length = s.capacity ∧ s.size = (activeCount s : Nat)

end QuadraticProbing

/-! # Theorems -/

namespace Chaining

/-! ### Chain-level facts -/

theorem getElem?_findIdx (p : α → Bool) (l : List α) :
    l[l.findIdx p]? = l.find? p := by
  induction l with
  | nil => simp
  | cons a l ih =>
    by_cases h : p a
    · simp [List.findIdx_cons, h]
    · simp [List.findIdx_cons, h, ih]

theorem findIdx_ne_length_iff (p : α → Bool) (l : List α) :
    l.findIdx p ≠ l.length ↔ (l.find? p).isSome = true := by
  rw [← getElem?_findIdx]
  constructor
  · intro h
    have : l.findIdx p < l.length := lt_of_le_of_ne (List.findIdx_le_length p) h
    simp [this]
  · intro h hlen
    simp [hlen] at h

theorem chainAt_set (s : BankingSystem) (i j : Nat) (c : List BankAccount) (size : Int)
    (hi : i < s.table.length) :
    chainAt { s with table := s.table.set i c, size := size } j
      = if i = j then c else chainAt s j := by
  unfold chainAt
  by_cases h : i = j
  · subst h; simp [List.getD_eq_getElem?_getD, hi]
  · simp [List.getD_eq_getElem?_getD, List.getElem?_set, h]

theorem hashFunction_lt (hashFunc : String → Nat) (s : BankingSystem) (id : String)
    (hs : Sized s) : hashFunction hashFunc s id < s.table.length := by
  unfold hashFunction
  rw [hs.1]
  exact Nat.mod_lt _ hs.2

theorem accountExists_eq (hashFunc : String → Nat) (s : BankingSystem) (id : String) :
    accountExists hashFunc s id = (lookup hashFunc s id).isSome := by
  unfold accountExists lookup findAccount
  rw [Bool.eq_iff_iff]
  simp only [decide_eq_true_eq]
  exact findIdx_ne_length_iff _ _

theorem getBalance_eq (hashFunc : String → Nat) (s : BankingSystem) (id : String) :
    getBalance hashFunc s id
      = match lookup hashFunc s id with
        | some account => account.balance
        | none => -1 := by
  unfold getBalance lookup findAccount
  simp only [getElem?_findIdx]
  split
  · rfl
  · rename_i h
    rw [not_not] at h
    have := (findIdx_ne_length_iff (fun account : BankAccount => account.id == id)
      (chainAt s (hashFunction hashFunc s id))).not.mp (by simpa using h)
    cases hf : List.find? (fun account => account.id == id)
        (chainAt s (hashFunction hashFunc s id)) with
    | none => rfl
    | some a => simp [hf] at this

theorem lookup_eq_none_iff (hashFunc : String → Nat) (s : BankingSystem) (id : String) :
    lookup hashFunc s id = none ↔
      findAccount s id (hashFunction hashFunc s id)
        = (chainAt s (hashFunction hashFunc s id)).length := by
  unfold lookup findAccount
  have h := findIdx_ne_length_iff (fun account : BankAccount => account.id == id)
    (chainAt s (hashFunction hashFunc s id))
  cases hf : List.find? (fun account => account.id == id)
      (chainAt s (hashFunction hashFunc s id)) with
  | none =>
    rw [hf] at h
    simpa using h
  | some a =>
    rw [hf] at h
    simpa using h

theorem chainAt_otherRecords (s : BankingSystem) (id : String) (i : Nat) :
    (otherRecords s id).getD i [] = (chainAt s i).filter (fun account => account.id != id) := by
  unfold otherRecords chainAt
  simp only [List.getD_eq_getElem?_getD, List.getElem?_map]
  cases s.table[i]? <;> simp

theorem find?_filter_ne (c : List BankAccount) (id j : String) (hj : j ≠ id) :
    (c.filter (fun account => account.id != id)).find? (fun account => account.id == j)
      = c.find? (fun account => account.id == j) := by
  rw [List.find?_filter]
  congr 1
  funext a
  by_cases h : a.id = j
  · simp [h, hj]
  · simp [h]

/-- Lookups of another id see only the records `otherRecords` keeps. -/
theorem lookup_of_otherRecords (hashFunc : String → Nat) (s t : BankingSystem) (id j : String)
    (hcap : t.capacity = s.capacity) (hoth : otherRecords t id = otherRecords s id)
    (hj : j ≠ id) : lookup hashFunc t j = lookup hashFunc s j := by
  unfold lookup hashFunction
  rw [hcap, ← find?_filter_ne _ id j hj, ← find?_filter_ne (chainAt s _) id j hj,
    ← chainAt_otherRecords, ← chainAt_otherRecords, hoth]

theorem otherRecords_set (s : BankingSystem) (id : String) (i : Nat)
    (c : List BankAccount) (size : Int)
    (hc : c.filter (fun account => account.id != id)
      = (chainAt s i).filter (fun account => account.id != id)) :
    otherRecords { s with table := s.table.set i c, size := size } id = otherRecords s id := by
  unfold otherRecords
  simp only [List.map_set]
  apply List.ext_getElem?
  intro n
  rw [List.getElem?_set]
  split
  · rename_i h
    subst h
    split
    · rename_i hlt
      rw [List.length_map] at hlt
      rw [hc]
      unfold chainAt
      simp [List.getD_eq_getElem?_getD, hlt]
    · rename_i hlt
      rw [List.getElem?_eq_none (by omega)]
  · rfl

theorem createAccount_of_absent (hashFunc : String → Nat) (s : BankingSystem) (id : String)
    (b : Int) (h : lookup hashFunc s id = none) :
    createAccount hashFunc s id b =
      { s with
        table := s.table.set (hashFunction hashFunc s id)
          (chainAt s (hashFunction hashFunc s id) ++ [⟨id, b⟩])
        size := s.size + 1 } := by
  unfold createAccount
  simp only [(lookup_eq_none_iff hashFunc s id).mp h, if_true]

theorem createAccount_of_present (hashFunc : String → Nat) (s : BankingSystem) (id : String)
    (b : Int) (h : lookup hashFunc s id ≠ none) :
    createAccount hashFunc s id b = s := by
  unfold createAccount
  simp only [mt (lookup_eq_none_iff hashFunc s id).mpr h, if_false]

theorem lookup_createAccount_self (hashFunc : String → Nat) (s : BankingSystem) (id : String)
    (b : Int) (hs : Sized s) (h : lookup hashFunc s id = none) :
    lookup hashFunc (createAccount hashFunc s id b) id = some ⟨id, b⟩ := by
  rw [createAccount_of_absent hashFunc s id b h]
  unfold lookup at h ⊢
  have hidx : hashFunction hashFunc { s with
        table := s.table.set (hashFunction hashFunc s id)
          (chainAt s (hashFunction hashFunc s id) ++ [⟨id, b⟩])
        size := s.size + 1 } id = hashFunction hashFunc s id := rfl
  rw [hidx, chainAt_set _ _ _ _ _ (hashFunction_lt hashFunc s id hs), if_pos rfl,
    List.find?_append, h]
  simp

theorem otherRecords_createAccount (hashFunc : String → Nat) (s : BankingSystem)
    (id : String) (b : Int) :
    otherRecords (createAccount hashFunc s id b) id = otherRecords s id := by
  by_cases h : lookup hashFunc s id = none
  · rw [createAccount_of_absent hashFunc s id b h]
    apply otherRecords_set
    simp
  · rw [createAccount_of_present hashFunc s id b h]

theorem capacity_createAccount (hashFunc : String → Nat) (s : BankingSystem)
    (id : String) (b : Int) :
    (createAccount hashFunc s id b).capacity = s.capacity := by
  unfold createAccount
  simp only []
  split <;> rfl

/-! ### Updating or erasing the record a lookup found -/

theorem find?_set_findIdx (p : α → Bool) (l : List α) (a : α) (ha : p a = true)
    (hlt : l.findIdx p < l.length) : (l.set (l.findIdx p) a).find? p = some a := by
  induction l with
  | nil => simp at hlt
  | cons x l ih =>
    by_cases hx : p x
    · simp [List.findIdx_cons, hx, ha]
    · have hlt2 : l.findIdx p < l.length := by
        simpa [List.findIdx_cons, hx] using hlt
      simp [List.findIdx_cons, hx, ih hlt2]

theorem filter_set_findIdx (p q : α → Bool) (l : List α) (a : α) (ha : q a = false)
    (hpq : ∀ x, p x = true → q x = false) :
    (l.set (l.findIdx p) a).filter q = l.filter q := by
  induction l with
  | nil => simp
  | cons x l ih =>
    by_cases hx : p x
    · simp [List.findIdx_cons, hx, List.filter_cons, ha, hpq x hx]
    · simp [List.findIdx_cons, hx, List.filter_cons, ih]

theorem filter_eraseIdx_findIdx (p q : α → Bool) (l : List α)
    (hpq : ∀ x, p x = true → q x = false) :
    (l.eraseIdx (l.findIdx p)).filter q = l.filter q := by
  induction l with
  | nil => simp
  | cons x l ih =>
    by_cases hx : p x
    · simp [List.findIdx_cons, hx, List.filter_cons, hpq x hx]
    · simp [List.findIdx_cons, hx, List.filter_cons, ih]

theorem find?_eraseIdx_findIdx (l : List BankAccount) (id : String)
    (hnd : (l.map (fun account => account.id)).Nodup) :
    (l.eraseIdx (l.findIdx (fun account => account.id == id))).find?
      (fun account => account.id == id) = none := by
  induction l with
  | nil => simp
  | cons x l ih =>
    rw [List.map_cons, List.nodup_cons] at hnd
    by_cases hx : x.id = id
    · subst hx
      simp only [List.findIdx_cons, beq_self_eq_true, cond_true, List.eraseIdx_cons_zero]
      rw [List.find?_eq_none]
      intro y hy hyx
      exact hnd.1 (List.mem_map.mpr ⟨y, hy, by simpa using hyx⟩)
    · have hb : (x.id == id) = false := by simpa using hx
      simp only [List.findIdx_cons, hb, cond_false, List.eraseIdx_cons_succ, List.find?_cons]
      exact ih hnd.2

theorem map_id_set (l : List BankAccount) (i : Nat) (a a2 : BankAccount)
    (hi : l[i]? = some a) (hid : a2.id = a.id) :
    (l.set i a2).map (fun account => account.id) = l.map (fun account => account.id) := by
  induction l generalizing i with
  | nil => simp
  | cons x l ih =>
    cases i with
    | zero =>
      simp at hi
      simp [hi, hid]
    | succ i =>
      simp at hi
      simp [ih i hi]

theorem mem_set_id (l : List BankAccount) (i : Nat) (a a2 : BankAccount)
    (hi : l[i]? = some a) (hid : a2.id = a.id) (x : BankAccount) (hx : x ∈ l.set i a2) :
    ∃ y ∈ l, y.id = x.id := by
  have h1 : x.id ∈ (l.set i a2).map (fun account => account.id) :=
    List.mem_map.mpr ⟨x, hx, rfl⟩
  rw [map_id_set l i a a2 hi hid] at h1
  obtain ⟨y, hy, hyx⟩ := List.mem_map.mp h1
  exact ⟨y, hy, hyx⟩

/-! ### The three mutators, case by case -/

theorem lookup_eq_some_getElem? (hashFunc : String → Nat) (s : BankingSystem) (id : String)
    (a : BankAccount) (h : lookup hashFunc s id = some a) :
    findAccount s id (hashFunction hashFunc s id)
        ≠ (chainAt s (hashFunction hashFunc s id)).length ∧
      (chainAt s (hashFunction hashFunc s id))[findAccount s id
        (hashFunction hashFunc s id)]? = some a := by
  constructor
  · intro hlen
    rw [(lookup_eq_none_iff hashFunc s id).mpr hlen] at h
    cases h
  · unfold findAccount
    rw [getElem?_findIdx]
    exact h

theorem addTransaction_of_absent (hashFunc : String → Nat) (s : BankingSystem) (id : String)
    (amount : Int) (h : lookup hashFunc s id = none) :
    addTransaction hashFunc s id amount
      = if amount ≥ 0 then createAccount hashFunc s id amount else s := by
  unfold addTransaction
  simp only [(lookup_eq_none_iff hashFunc s id).mp h, if_true]

theorem addTransaction_of_present (hashFunc : String → Nat) (s : BankingSystem) (id : String)
    (amount : Int) (a : BankAccount) (h : lookup hashFunc s id = some a) :
    addTransaction hashFunc s id amount
      = if a.balance + amount ≥ 0 then
          { s with
            table := s.table.set (hashFunction hashFunc s id)
              ((chainAt s (hashFunction hashFunc s id)).set
                (findAccount s id (hashFunction hashFunc s id))
                { a with balance := a.balance + amount }) }
        else s := by
  obtain ⟨h1, h2⟩ := lookup_eq_some_getElem? hashFunc s id a h
  unfold addTransaction
  simp only [h1, if_false, h2]

theorem deleteAccount_of_absent (hashFunc : String → Nat) (s : BankingSystem) (id : String)
    (h : lookup hashFunc s id = none) :
    deleteAccount hashFunc s id = (s, false) := by
  unfold deleteAccount
  simp [(lookup_eq_none_iff hashFunc s id).mp h]

theorem deleteAccount_of_present (hashFunc : String → Nat) (s : BankingSystem) (id : String)
    (h : lookup hashFunc s id ≠ none) :
    deleteAccount hashFunc s id
      = ({ s with
           table := s.table.set (hashFunction hashFunc s id)
             ((chainAt s (hashFunction hashFunc s id)).eraseIdx
               (findAccount s id (hashFunction hashFunc s id)))
           size := s.size - 1 }, true) := by
  unfold deleteAccount
  simp [mt (lookup_eq_none_iff hashFunc s id).mpr h]

theorem lookup_id (hashFunc : String → Nat) (s : BankingSystem) (id : String)
    (a : BankAccount) (h : lookup hashFunc s id = some a) : a.id = id := by
  have := List.find?_some h
  simpa using this

/-! ### Well-formedness -/

theorem chainAt_eq_of_getElem? (s : BankingSystem) (i : Nat) (c : List BankAccount)
    (h : s.table[i]? = some c) : chainAt s i = c := by
  unfold chainAt
  simp [List.getD_eq_getElem?_getD, h]

theorem WF_place {hashFunc : String → Nat} {s : BankingSystem} (hwf : WF hashFunc s) (i : Nat)
    (a : BankAccount) (ha : a ∈ chainAt s i) : hashFunc a.id % s.capacity = i := by
  cases hc : s.table[i]? with
  | none =>
    unfold chainAt at ha
    simp [List.getD_eq_getElem?_getD, hc] at ha
  | some c =>
    rw [chainAt_eq_of_getElem? s i c hc] at ha
    exact hwf.2.1 i c hc a ha

theorem WF_nodup {hashFunc : String → Nat} {s : BankingSystem} (hwf : WF hashFunc s) (i : Nat) :
    ((chainAt s i).map (fun account => account.id)).Nodup := by
  cases hc : s.table[i]? with
  | none =>
    unfold chainAt
    simp [List.getD_eq_getElem?_getD, hc]
  | some c =>
    rw [chainAt_eq_of_getElem? s i c hc]
    exact hwf.2.2 c (List.mem_iff_getElem?.mpr ⟨i, hc⟩)

theorem WF_set (hashFunc : String → Nat) (s : BankingSystem) (i : Nat)
    (c : List BankAccount) (size : Int) (hwf : WF hashFunc s)
    (hplace : ∀ a ∈ c, hashFunc a.id % s.capacity = i)
    (hnd : (c.map (fun account => account.id)).Nodup) :
    WF hashFunc { s with table := s.table.set i c, size := size } := by
  refine ⟨⟨?_, hwf.1.2⟩, ?_, ?_⟩
  · simpa using hwf.1.1
  · intro j chain hj a ha
    simp only [List.getElem?_set] at hj
    split at hj
    · rename_i hij
      subst hij
      split at hj
      · cases hj
        exact hplace a ha
      · cases hj
    · exact hwf.2.1 j chain hj a ha
  · intro chain hmem
    rcases List.mem_or_eq_of_mem_set hmem with h | h
    · exact hwf.2.2 chain h
    · subst h
      exact hnd

theorem WF_init (hashFunc : String → Nat) (cap : Nat) (hcap : 0 < cap) :
    WF hashFunc (BankingSystem.init cap) := by
  refine ⟨⟨by simp [BankingSystem.init], hcap⟩, ?_, ?_⟩
  · intro i chain hi a ha
    simp only [BankingSystem.init, List.getElem?_replicate] at hi
    split at hi
    · cases hi
      cases ha
    · cases hi
  · intro chain hmem
    simp only [BankingSystem.init] at hmem
    rw [List.eq_of_mem_replicate hmem]
    exact List.nodup_nil

theorem WF_createAccount (hashFunc : String → Nat) (s : BankingSystem) (id : String)
    (b : Int) (hwf : WF hashFunc s) : WF hashFunc (createAccount hashFunc s id b) := by
  by_cases h : lookup hashFunc s id = none
  · rw [createAccount_of_absent hashFunc s id b h]
    apply WF_set hashFunc s _ _ _ hwf
    · intro a ha
      rcases List.mem_append.mp ha with h1 | h1
      · exact WF_place hwf _ a h1
      · rw [List.mem_singleton] at h1
        subst h1
        rfl
    · rw [List.map_append, List.map_cons, List.map_nil]
      apply List.Nodup.append (WF_nodup hwf _) (List.nodup_singleton _)
      intro x hx1 hx2
      rw [List.mem_singleton] at hx2
      subst hx2
      obtain ⟨y, hy, hyx⟩ := List.mem_map.mp hx1
      unfold lookup at h
      rw [List.find?_eq_none] at h
      exact h y hy (by simpa using hyx)
  · rw [createAccount_of_present hashFunc s id b h]
    exact hwf

theorem WF_addTransaction (hashFunc : String → Nat) (s : BankingSystem) (id : String)
    (amount : Int) (hwf : WF hashFunc s) : WF hashFunc (addTransaction hashFunc s id amount) := by
  cases h : lookup hashFunc s id with
  | none =>
    rw [addTransaction_of_absent hashFunc s id amount h]
    split
    · exact WF_createAccount hashFunc s id amount hwf
    · exact hwf
  | some a =>
    rw [addTransaction_of_present hashFunc s id amount a h]
    obtain ⟨_, h2⟩ := lookup_eq_some_getElem? hashFunc s id a h
    split
    · apply WF_set hashFunc s _ _ s.size hwf
      · intro x hx
        obtain ⟨y, hy, hyx⟩ := mem_set_id _ _ a { a with balance := a.balance + amount } h2 rfl x hx
        rw [← hyx]
        exact WF_place hwf _ y hy
      · rw [map_id_set _ _ a { a with balance := a.balance + amount } h2 rfl]
        exact WF_nodup hwf _
    · exact hwf

theorem WF_deleteAccount (hashFunc : String → Nat) (s : BankingSystem) (id : String)
    (hwf : WF hashFunc s) : WF hashFunc (deleteAccount hashFunc s id).1 := by
  by_cases h : lookup hashFunc s id = none
  · rw [deleteAccount_of_absent hashFunc s id h]
    exact hwf
  · rw [deleteAccount_of_present hashFunc s id h]
    apply WF_set hashFunc s _ _ _ hwf
    · intro x hx
      exact WF_place hwf _ x ((List.eraseIdx_sublist _ _).subset hx)
    · exact List.Nodup.sublist ((List.eraseIdx_sublist _ _).map _) (WF_nodup hwf _)

/-! ### Counting the records of an id -/

theorem sum_eq_getD_of_zero (L : List Nat) (h : Nat)
    (hz : ∀ i x, i ≠ h → L[i]? = some x → x = 0) : L.sum = L.getD h 0 := by
  induction L generalizing h with
  | nil => simp
  | cons y L ih =>
    cases h with
    | zero =>
      have hL : L.sum = 0 := by
        apply List.sum_eq_zero
        intro x hx
        obtain ⟨n, hn⟩ := List.getElem?_of_mem hx
        exact hz (n + 1) x (by omega) (by simpa using hn)
      simp [hL]
    | succ h =>
      have hy : y = 0 := hz 0 y (by omega) (by simp)
      have := ih h (fun i x hi hx => hz (i + 1) x (by omega) (by simpa using hx))
      simp [hy, this]

theorem recordCount_eq (hashFunc : String → Nat) (s : BankingSystem) (id : String)
    (hwf : WF hashFunc s) :
    recordCount s id
      = (chainAt s (hashFunction hashFunc s id)).countP (fun account => account.id == id) := by
  unfold recordCount
  rw [sum_eq_getD_of_zero _ (hashFunction hashFunc s id)]
  · unfold chainAt
    simp only [List.getD_eq_getElem?_getD, List.getElem?_map]
    cases s.table[hashFunction hashFunc s id]? <;> simp
  · intro i x hi hx
    rw [List.getElem?_map] at hx
    cases hc : s.table[i]? with
    | none => simp [hc] at hx
    | some c =>
      simp only [hc, Option.map_some', Option.some.injEq] at hx
      rw [← hx, List.countP_eq_zero]
      intro a ha hid
      apply hi
      rw [← hwf.2.1 i c hc a ha]
      have : a.id = id := by simpa using hid
      rw [this]
      rfl

theorem countP_id_le_one (c : List BankAccount) (id : String)
    (hnd : (c.map (fun account => account.id)).Nodup) :
    c.countP (fun account => account.id == id) ≤ 1 := by
  have h1 : c.countP (fun account => account.id == id)
      = (c.map (fun account => account.id)).count id := by
    rw [List.count, List.countP_map]
    rfl
  rw [h1]
  exact List.nodup_iff_count_le_one.mp hnd id

theorem recordCount_of_lookup (hashFunc : String → Nat) (s : BankingSystem) (id : String)
    (a : BankAccount) (hwf : WF hashFunc s) (h : lookup hashFunc s id = some a) :
    recordCount s id = 1 := by
  rw [recordCount_eq hashFunc s id hwf]
  apply le_antisymm (countP_id_le_one _ _ (WF_nodup hwf _))
  rw [Nat.succ_le_iff, List.countP_pos_iff]
  unfold lookup at h
  have h2 := List.find?_some h
  exact ⟨a, List.mem_of_find?_eq_some h, h2⟩

/-! ### Effects on lookups -/

theorem observe_of_lookup_eq (hashFunc : String → Nat) (s t : BankingSystem) (j : String)
    (h : lookup hashFunc t j = lookup hashFunc s j) :
    accountExists hashFunc t j = accountExists hashFunc s j ∧
      getBalance hashFunc t j = getBalance hashFunc s j := by
  rw [accountExists_eq, accountExists_eq, getBalance_eq, getBalance_eq, h]
  exact ⟨rfl, rfl⟩

theorem lookup_eq_none_of_not_exists (hashFunc : String → Nat) (s : BankingSystem)
    (id : String) (h : accountExists hashFunc s id = false) : lookup hashFunc s id = none := by
  rw [accountExists_eq] at h
  cases hl : lookup hashFunc s id with
  | none => rfl
  | some a => simp [hl] at h

theorem lookup_eq_some_of_exists (hashFunc : String → Nat) (s : BankingSystem)
    (id : String) (h : accountExists hashFunc s id = true) :
    ∃ a, lookup hashFunc s id = some a ∧ a.id = id ∧ a.balance = getBalance hashFunc s id := by
  rw [accountExists_eq] at h
  cases hl : lookup hashFunc s id with
  | none => simp [hl] at h
  | some a =>
    refine ⟨a, rfl, lookup_id hashFunc s id a hl, ?_⟩
    rw [getBalance_eq, hl]

theorem lookup_init (hashFunc : String → Nat) (cap : Nat) (id : String) :
    lookup hashFunc (BankingSystem.init cap) id = none := by
  unfold lookup chainAt BankingSystem.init
  simp only [List.getD_eq_getElem?_getD, List.getElem?_replicate]
  split <;> rfl

theorem lookup_update_self (hashFunc : String → Nat) (s : BankingSystem) (id : String)
    (a : BankAccount) (b : Int) (hs : Sized s) (h : lookup hashFunc s id = some a) :
    lookup hashFunc { s with
        table := s.table.set (hashFunction hashFunc s id)
          ((chainAt s (hashFunction hashFunc s id)).set
            (findAccount s id (hashFunction hashFunc s id)) { a with balance := b }) } id
      = some { a with balance := b } := by
  obtain ⟨h1, _⟩ := lookup_eq_some_getElem? hashFunc s id a h
  have hid := lookup_id hashFunc s id a h
  unfold lookup
  have hc := chainAt_set s (hashFunction hashFunc s id) (hashFunction hashFunc s id)
    ((chainAt s (hashFunction hashFunc s id)).set
      (findAccount s id (hashFunction hashFunc s id)) { a with balance := b }) s.size
    (hashFunction_lt hashFunc s id hs)
  rw [if_pos rfl] at hc
  have hidx : hashFunction hashFunc { s with
        table := s.table.set (hashFunction hashFunc s id)
          ((chainAt s (hashFunction hashFunc s id)).set
            (findAccount s id (hashFunction hashFunc s id)) { a with balance := b }) } id
      = hashFunction hashFunc s id := rfl
  rw [hidx, hc]
  unfold findAccount at h1 ⊢
  apply find?_set_findIdx
  · simpa using hid
  · exact lt_of_le_of_ne (List.findIdx_le_length _) h1

theorem otherRecords_addTransaction (hashFunc : String → Nat) (s : BankingSystem)
    (id : String) (amount : Int) :
    otherRecords (addTransaction hashFunc s id amount) id = otherRecords s id := by
  cases h : lookup hashFunc s id with
  | none =>
    rw [addTransaction_of_absent hashFunc s id amount h]
    split
    · exact otherRecords_createAccount hashFunc s id amount
    · rfl
  | some a =>
    rw [addTransaction_of_present hashFunc s id amount a h]
    have hid := lookup_id hashFunc s id a h
    split
    · apply otherRecords_set s id _ _ s.size
      unfold findAccount
      apply filter_set_findIdx
      · simpa using hid
      · intro x hx
        simpa using hx
    · rfl

theorem capacity_addTransaction (hashFunc : String → Nat) (s : BankingSystem)
    (id : String) (amount : Int) :
    (addTransaction hashFunc s id amount).capacity = s.capacity := by
  cases h : lookup hashFunc s id with
  | none =>
    rw [addTransaction_of_absent hashFunc s id amount h]
    split
    · exact capacity_createAccount hashFunc s id amount
    · rfl
  | some a =>
    rw [addTransaction_of_present hashFunc s id amount a h]
    split <;> rfl

theorem otherRecords_deleteAccount (hashFunc : String → Nat) (s : BankingSystem)
    (id : String) :
    otherRecords (deleteAccount hashFunc s id).1 id = otherRecords s id := by
  by_cases h : lookup hashFunc s id = none
  · rw [deleteAccount_of_absent hashFunc s id h]
  · rw [deleteAccount_of_present hashFunc s id h]
    apply otherRecords_set
    unfold findAccount
    apply filter_eraseIdx_findIdx
    intro x hx
    simpa using hx

theorem capacity_deleteAccount (hashFunc : String → Nat) (s : BankingSystem)
    (id : String) :
    (deleteAccount hashFunc s id).1.capacity = s.capacity := by
  by_cases h : lookup hashFunc s id = none
  · rw [deleteAccount_of_absent hashFunc s id h]
  · rw [deleteAccount_of_present hashFunc s id h]

theorem lookup_deleteAccount_self (hashFunc : String → Nat) (s : BankingSystem)
    (id : String) (hwf : WF hashFunc s) :
    lookup hashFunc (deleteAccount hashFunc s id).1 id = none := by
  by_cases h : lookup hashFunc s id = none
  · rw [deleteAccount_of_absent hashFunc s id h]
    exact h
  · rw [deleteAccount_of_present hashFunc s id h]
    unfold lookup
    have hidx : hashFunction hashFunc { s with
        table := s.table.set (hashFunction hashFunc s id)
          ((chainAt s (hashFunction hashFunc s id)).eraseIdx
            (findAccount s id (hashFunction hashFunc s id)))
        size := s.size - 1 } id = hashFunction hashFunc s id := rfl
    rw [hidx, chainAt_set _ _ _ _ _ (hashFunction_lt hashFunc s id hwf.1), if_pos rfl]
    unfold findAccount
    exact find?_eraseIdx_findIdx _ id (WF_nodup hwf _)

theorem createAccount_absent_observe (hashFunc : String → Nat) (s : BankingSystem)
    (id : String) (b : Int) (hs : Sized s) (hnone : lookup hashFunc s id = none) :
    getBalance hashFunc (createAccount hashFunc s id b) id = b ∧
      accountExists hashFunc (createAccount hashFunc s id b) id = true ∧
      totalAccounts (createAccount hashFunc s id b) = totalAccounts s + 1 := by
  have hl := lookup_createAccount_self hashFunc s id b hs hnone
  refine ⟨?_, ?_, ?_⟩
  · rw [getBalance_eq, hl]
  · rw [accountExists_eq, hl]
    rfl
  · rw [createAccount_of_absent hashFunc s id b hnone]
    rfl

/-- Every state the interface can reach from a fresh table of positive capacity is
well-formed. -/
theorem reachable_WF (hashFunc : String → Nat) (cap : Nat) (s : BankingSystem)
    (hcap : 0 < cap) (h : Reachable hashFunc cap s) : WF hashFunc s := by
  induction h with
  | fresh => exact WF_init hashFunc cap hcap
  | create s id b _ ih => exact WF_createAccount hashFunc s id b ih
  | transact s id amount _ ih => exact WF_addTransaction hashFunc s id amount ih
  | delete s id _ ih => exact WF_deleteAccount hashFunc s id ih

/-! ### Claims about the chaining variant -/

/-- C1. Chaining round trip: in a table with `capacity > 0`, creating an id that
`accountExists` reports absent makes `getBalance` return the initial balance, makes
`accountExists` true and raises `totalAccounts` by exactly one. -/
theorem C1_create_roundtrip (hashFunc : String → Nat) (s : BankingSystem) (id : String)
    (b : Int) (hs : Sized s) (habs : accountExists hashFunc s id = false) :
    getBalance hashFunc (createAccount hashFunc s id b) id = b ∧
      accountExists hashFunc (createAccount hashFunc s id b) id = true ∧
      totalAccounts (createAccount hashFunc s id b) = totalAccounts s + 1 := by
  exact createAccount_absent_observe hashFunc s id b hs
    (lookup_eq_none_of_not_exists hashFunc s id habs)

/-- C1 at a concrete table: capacity 3, string length as hash, one account stored. -/
theorem C1_create_roundtrip_witness :
    Sized (createAccount String.length (BankingSystem.init 3) "b" 7) ∧
    accountExists String.length (createAccount String.length (BankingSystem.init 3) "b" 7) "a"
      = false ∧
    getBalance String.length
      (createAccount String.length
        (createAccount String.length (BankingSystem.init 3) "b" 7) "a" 5) "a" = 5 ∧
    accountExists String.length
      (createAccount String.length
        (createAccount String.length (BankingSystem.init 3) "b" 7) "a" 5) "a" = true ∧
    totalAccounts
      (createAccount String.length
        (createAccount String.length (BankingSystem.init 3) "b" 7) "a" 5)
      = totalAccounts (createAccount String.length (BankingSystem.init 3) "b" 7) + 1 :=
  ⟨⟨by decide, by decide⟩, by decide,
    C1_create_roundtrip String.length
      (createAccount String.length (BankingSystem.init 3) "b" 7) "a" 5
      ⟨by decide, by decide⟩ (by decide)⟩

/-- C2 at the failing input: in a fresh table of capacity 1 (every hash function selects
bucket 0), `createAccount("a", 1)` then `createAccount("a", 2)` leaves `getBalance("a")`
at 1, not at 2. -/
theorem C2_counterexample :
    (∀ hashFunc : String → Nat,
      getBalance hashFunc
        (createAccount hashFunc (createAccount hashFunc (BankingSystem.init 1) "a" 1) "a" 2)
        "a" = 1) ∧ (1 : Int) ≠ 2 := by
  refine ⟨?_, by decide⟩
  intro hashFunc
  have hs : Sized (BankingSystem.init 1) := ⟨rfl, Nat.one_pos⟩
  have h1 := lookup_createAccount_self hashFunc (BankingSystem.init 1) "a" 1 hs
    (lookup_init hashFunc 1 "a")
  rw [createAccount_of_present hashFunc _ "a" 2 (by rw [h1]; simp), getBalance_eq, h1]

/-- C2, as the code behaves. In a well-formed table, `createAccount(id, b1)` followed by
`createAccount(id, b2)`: exactly one record holds `id` and `totalAccounts` is unchanged
by the second call, but the second call changes nothing at all: `getBalance(id)` is the
balance `id` had after the first call (its old balance when it existed before, `b1`
otherwise), not `b2`. The chaining `createAccount` has no branch for an existing id. -/
theorem C2_create_existing_keeps_balance (hashFunc : String → Nat) (s : BankingSystem)
    (id : String) (b1 b2 : Int) (hwf : WF hashFunc s) :
    createAccount hashFunc (createAccount hashFunc s id b1) id b2
        = createAccount hashFunc s id b1 ∧
      recordCount (createAccount hashFunc (createAccount hashFunc s id b1) id b2) id = 1 ∧
      totalAccounts (createAccount hashFunc (createAccount hashFunc s id b1) id b2)
        = totalAccounts (createAccount hashFunc s id b1) ∧
      getBalance hashFunc (createAccount hashFunc (createAccount hashFunc s id b1) id b2) id
        = (if accountExists hashFunc s id = true then getBalance hashFunc s id else b1) := by
  have hwf1 := WF_createAccount hashFunc s id b1 hwf
  have key : ∃ a, lookup hashFunc (createAccount hashFunc s id b1) id = some a ∧
      a.balance = (if accountExists hashFunc s id = true then getBalance hashFunc s id
        else b1) := by
    cases hex : accountExists hashFunc s id with
    | false =>
      exact ⟨⟨id, b1⟩, lookup_createAccount_self hashFunc s id b1 hwf.1
        (lookup_eq_none_of_not_exists hashFunc s id hex), by simp⟩
    | true =>
      obtain ⟨a, ha, _, hbal⟩ := lookup_eq_some_of_exists hashFunc s id hex
      refine ⟨a, ?_, by simpa using hbal⟩
      rw [createAccount_of_present hashFunc s id b1 (by rw [ha]; simp)]
      exact ha
  obtain ⟨a, ha, hbal⟩ := key
  have hsame : createAccount hashFunc (createAccount hashFunc s id b1) id b2
      = createAccount hashFunc s id b1 :=
    createAccount_of_present hashFunc _ id b2 (by rw [ha]; simp)
  rw [hsame]
  refine ⟨rfl, recordCount_of_lookup hashFunc _ id a hwf1 ha, rfl, ?_⟩
  rw [getBalance_eq, ha]
  exact hbal

/-- C2 at a fresh table of capacity 2 with string length as hash: after
`createAccount("a", 1)` and `createAccount("a", 2)` the balance of "a" is 1. -/
theorem C2_create_existing_keeps_balance_witness :
    WF String.length (BankingSystem.init 2) ∧
    recordCount (createAccount String.length
      (createAccount String.length (BankingSystem.init 2) "a" 1) "a" 2) "a" = 1 ∧
    getBalance String.length (createAccount String.length
      (createAccount String.length (BankingSystem.init 2) "a" 1) "a" 2) "a" = 1 :=
  ⟨WF_init String.length 2 (by decide),
    (C2_create_existing_keeps_balance String.length (BankingSystem.init 2) "a" 1 2
      (WF_init String.length 2 (by decide))).2.1,
    (C2_create_existing_keeps_balance String.length (BankingSystem.init 2) "a" 1 2
      (WF_init String.length 2 (by decide))).2.2.2⟩

/-- C3. Chaining `addTransaction(id, amount)` on exact integers, in a sized table.
Absent id and `amount >= 0`: the record `(id, amount)` is appended to the bucket of
`id` and `size` grows by one. Absent id and `amount < 0`: the state is unchanged and
`accountExists(id)` stays false. Present id with balance `b`: the balance becomes
`b + amount` when `b + amount >= 0`, the state is unchanged otherwise, and `size` is
unchanged. In every case the records of all other ids, and what `accountExists` and
`getBalance` report for them, are unchanged. -/
theorem C3_addTransaction (hashFunc : String → Nat) (s : BankingSystem) (id : String)
    (amount : Int) (hs : Sized s) :
    (accountExists hashFunc s id = false → amount ≥ 0 →
      (addTransaction hashFunc s id amount).table
          = s.table.set (hashFunction hashFunc s id)
              (chainAt s (hashFunction hashFunc s id) ++ [⟨id, amount⟩]) ∧
        getBalance hashFunc (addTransaction hashFunc s id amount) id = amount ∧
        accountExists hashFunc (addTransaction hashFunc s id amount) id = true ∧
        totalAccounts (addTransaction hashFunc s id amount) = totalAccounts s + 1) ∧
    (accountExists hashFunc s id = false → amount < 0 →
      addTransaction hashFunc s id amount = s ∧
        accountExists hashFunc (addTransaction hashFunc s id amount) id = false) ∧
    (accountExists hashFunc s id = true →
      (getBalance hashFunc s id + amount ≥ 0 →
        getBalance hashFunc (addTransaction hashFunc s id amount) id
          = getBalance hashFunc s id + amount) ∧
      (getBalance hashFunc s id + amount < 0 →
        addTransaction hashFunc s id amount = s) ∧
      accountExists hashFunc (addTransaction hashFunc s id amount) id = true ∧
      totalAccounts (addTransaction hashFunc s id amount) = totalAccounts s) ∧
    otherRecords (addTransaction hashFunc s id amount) id = otherRecords s id ∧
    (∀ j, j ≠ id →
      accountExists hashFunc (addTransaction hashFunc s id amount) j
          = accountExists hashFunc s j ∧
        getBalance hashFunc (addTransaction hashFunc s id amount) j
          = getBalance hashFunc s j) := by
  refine ⟨?_, ?_, ?_, otherRecords_addTransaction hashFunc s id amount, ?_⟩
  · intro habs hpos
    have hnone := lookup_eq_none_of_not_exists hashFunc s id habs
    rw [addTransaction_of_absent hashFunc s id amount hnone, if_pos hpos]
    obtain ⟨h1, h2, h3⟩ := createAccount_absent_observe hashFunc s id amount hs hnone
    refine ⟨?_, h1, h2, h3⟩
    rw [createAccount_of_absent hashFunc s id amount hnone]
  · intro habs hneg
    have hnone := lookup_eq_none_of_not_exists hashFunc s id habs
    rw [addTransaction_of_absent hashFunc s id amount hnone, if_neg (not_le.mpr hneg)]
    exact ⟨rfl, habs⟩
  · intro hex
    obtain ⟨a, ha, _, hbal⟩ := lookup_eq_some_of_exists hashFunc s id hex
    rw [addTransaction_of_present hashFunc s id amount a ha, ← hbal]
    refine ⟨?_, ?_, ?_, ?_⟩
    · intro hge
      rw [if_pos hge, getBalance_eq, lookup_update_self hashFunc s id a _ hs ha]
    · intro hlt
      rw [if_neg (not_le.mpr hlt)]
    · split
      · rw [accountExists_eq, lookup_update_self hashFunc s id a _ hs ha]
        rfl
      · exact hex
    · split <;> rfl
  · intro j hj
    exact observe_of_lookup_eq hashFunc s _ j
      (lookup_of_otherRecords hashFunc s _ id j (capacity_addTransaction hashFunc s id amount)
        (otherRecords_addTransaction hashFunc s id amount) hj)

/-- C3 at concrete inputs: capacity 2, string length as hash, account "a" with balance
10 stored; a withdrawal, an overdraft, a deposit to a new id and a withdrawal from a
missing id. -/
theorem C3_addTransaction_witness :
    Sized (createAccount String.length (BankingSystem.init 2) "a" 10) ∧
    getBalance String.length
      (addTransaction String.length
        (createAccount String.length (BankingSystem.init 2) "a" 10) "a" (-3)) "a" = 7 ∧
    addTransaction String.length
        (createAccount String.length (BankingSystem.init 2) "a" 10) "a" (-11)
      = createAccount String.length (BankingSystem.init 2) "a" 10 ∧
    getBalance String.length
      (addTransaction String.length
        (createAccount String.length (BankingSystem.init 2) "a" 10) "bb" 4) "bb" = 4 ∧
    addTransaction String.length
        (createAccount String.length (BankingSystem.init 2) "a" 10) "bb" (-4)
      = createAccount String.length (BankingSystem.init 2) "a" 10 :=
  ⟨⟨by decide, by decide⟩,
    ((C3_addTransaction String.length
      (createAccount String.length (BankingSystem.init 2) "a" 10) "a" (-3)
      ⟨by decide, by decide⟩).2.2.1 (by decide)).1 (by decide),
    ((C3_addTransaction String.length
      (createAccount String.length (BankingSystem.init 2) "a" 10) "a" (-11)
      ⟨by decide, by decide⟩).2.2.1 (by decide)).2.1 (by decide),
    ((C3_addTransaction String.length
      (createAccount String.length (BankingSystem.init 2) "a" 10) "bb" 4
      ⟨by decide, by decide⟩).1 (by decide) (by decide)).2.1,
    ((C3_addTransaction String.length
      (createAccount String.length (BankingSystem.init 2) "a" 10) "bb" (-4)
      ⟨by decide, by decide⟩).2.1 (by decide) (by decide)).1⟩

/-- C8. Chaining `deleteAccount(id)` in a well-formed table: the returned flag is the
value `accountExists(id)` had before the call; when it is true, `accountExists(id)` is
false afterwards and `size` went down by one; when it is false the state is unchanged;
in both cases the records of every other id, and what `accountExists` and `getBalance`
report for them, are unchanged. -/
theorem C8_deleteAccount (hashFunc : String → Nat) (s : BankingSystem) (id : String)
    (hwf : WF hashFunc s) :
    (deleteAccount hashFunc s id).2 = accountExists hashFunc s id ∧
    ((deleteAccount hashFunc s id).2 = true →
      accountExists hashFunc (deleteAccount hashFunc s id).1 id = false ∧
        totalAccounts (deleteAccount hashFunc s id).1 = totalAccounts s - 1) ∧
    ((deleteAccount hashFunc s id).2 = false → (deleteAccount hashFunc s id).1 = s) ∧
    otherRecords (deleteAccount hashFunc s id).1 id = otherRecords s id ∧
    (∀ j, j ≠ id →
      accountExists hashFunc (deleteAccount hashFunc s id).1 j = accountExists hashFunc s j ∧
        getBalance hashFunc (deleteAccount hashFunc s id).1 j = getBalance hashFunc s j) := by
  refine ⟨?_, ?_, ?_, otherRecords_deleteAccount hashFunc s id, ?_⟩
  · by_cases h : lookup hashFunc s id = none
    · rw [deleteAccount_of_absent hashFunc s id h, accountExists_eq, h]
      rfl
    · rw [deleteAccount_of_present hashFunc s id h, accountExists_eq]
      cases hl : lookup hashFunc s id with
      | none => exact absurd hl h
      | some a => rfl
  · intro hret
    refine ⟨?_, ?_⟩
    · rw [accountExists_eq, lookup_deleteAccount_self hashFunc s id hwf]
      rfl
    · by_cases h : lookup hashFunc s id = none
      · rw [deleteAccount_of_absent hashFunc s id h] at hret
        cases hret
      · rw [deleteAccount_of_present hashFunc s id h]
        rfl
  · intro hret
    by_cases h : lookup hashFunc s id = none
    · rw [deleteAccount_of_absent hashFunc s id h]
    · rw [deleteAccount_of_present hashFunc s id h] at hret
      cases hret
  · intro j hj
    exact observe_of_lookup_eq hashFunc s _ j
      (lookup_of_otherRecords hashFunc s _ id j (capacity_deleteAccount hashFunc s id)
        (otherRecords_deleteAccount hashFunc s id) hj)

/-- C8 at a concrete table: capacity 1, ids "a" and "b" chained in bucket 0,
`deleteAccount("a")`. -/
theorem C8_deleteAccount_witness :
    WF String.length
      (createAccount String.length
        (createAccount String.length (BankingSystem.init 1) "a" 10) "b" 20) ∧
    (deleteAccount String.length
      (createAccount String.length
        (createAccount String.length (BankingSystem.init 1) "a" 10) "b" 20) "a").2 = true ∧
    getBalance String.length
      (deleteAccount String.length
        (createAccount String.length
          (createAccount String.length (BankingSystem.init 1) "a" 10) "b" 20) "a").1 "b"
      = 20 :=
  ⟨WF_createAccount _ _ _ _ (WF_createAccount _ _ _ _ (WF_init _ 1 (by decide))),
    (C8_deleteAccount String.length
      (createAccount String.length
        (createAccount String.length (BankingSystem.init 1) "a" 10) "b" 20) "a"
      (WF_createAccount _ _ _ _ (WF_createAccount _ _ _ _ (WF_init _ 1 (by decide))))).1,
    ((C8_deleteAccount String.length
      (createAccount String.length
        (createAccount String.length (BankingSystem.init 1) "a" 10) "b" 20) "a"
      (WF_createAccount _ _ _ _ (WF_createAccount _ _ _ _ (WF_init _ 1 (by decide))))).2.2.2.2
      "b" (by decide)).2⟩

end Chaining

namespace LinearProbing

/-! ### The probe loop -/

theorem linearProbeLoop_stop (table : List (String × Int)) (capacity : Nat) (id : String)
    (fuel i : Nat) (entry : String × Int) (h : table[i]? = some entry)
    (hstop : entry.1 = "" ∨ entry.1 = id) :
    linearProbeLoop table capacity id (fuel + 1) i = some i := by
  unfold linearProbeLoop
  rw [h]
  simp only
  rw [if_neg]
  rintro ⟨h1, h2⟩
  rcases hstop with h3 | h3
  · exact h1 h3
  · exact h2 h3

theorem linearProbeLoop_step (table : List (String × Int)) (capacity : Nat) (id : String)
    (fuel i : Nat) (entry : String × Int) (h : table[i]? = some entry)
    (h1 : entry.1 ≠ "") (h2 : entry.1 ≠ id) :
    linearProbeLoop table capacity id (fuel + 1) i
      = linearProbeLoop table capacity id fuel ((i + 1) % capacity) := by
  conv => lhs; unfold linearProbeLoop
  rw [h]
  simp only
  rw [if_pos ⟨h1, h2⟩]

/-- The loop returns the first slot, `d` steps after the start in cyclic order, that is
empty or holds `id`, when the fuel exceeds `d`. -/
theorem linearProbeLoop_first (table : List (String × Int)) (capacity : Nat) (id : String) :
    ∀ (d fuel i : Nat), d < fuel → i < capacity →
      (∀ d2, d2 < d → ∃ e, table[(i + d2) % capacity]? = some e ∧ e.1 ≠ "" ∧ e.1 ≠ id) →
      (∃ e, table[(i + d) % capacity]? = some e ∧ (e.1 = "" ∨ e.1 = id)) →
      linearProbeLoop table capacity id fuel i = some ((i + d) % capacity) := by
  intro d
  induction d with
  | zero =>
    intro fuel i hf hi _ hstop
    obtain ⟨f, rfl⟩ : ∃ f, fuel = f + 1 := ⟨fuel - 1, by omega⟩
    have e0 : (i + 0) % capacity = i := Nat.mod_eq_of_lt hi
    rw [e0] at hstop ⊢
    obtain ⟨e, he, hs⟩ := hstop
    exact linearProbeLoop_stop table capacity id f i e he hs
  | succ d ih =>
    intro fuel i hf hi hgo hstop
    obtain ⟨f, rfl⟩ : ∃ f, fuel = f + 1 := ⟨fuel - 1, by omega⟩
    obtain ⟨e0, he0, h1, h2⟩ := hgo 0 (Nat.succ_pos d)
    have hi0 : (i + 0) % capacity = i := Nat.mod_eq_of_lt hi
    rw [hi0] at he0
    rw [linearProbeLoop_step table capacity id f i e0 he0 h1 h2]
    have hcap : 0 < capacity := by omega
    have key : ∀ n, ((i + 1) % capacity + n) % capacity = (i + (n + 1)) % capacity := by
      intro n
      rw [Nat.mod_add_mod]
      congr 1
      omega
    rw [ih f ((i + 1) % capacity) (by omega) (Nat.mod_lt _ hcap), key]
    · intro d2 hd2
      rw [key]
      exact hgo (d2 + 1) (by omega)
    · rw [key]
      exact hstop

/-- Every slot index is reached from every start within `capacity` steps. -/
theorem exists_offset (capacity i j : Nat) (hi : i < capacity) (hj : j < capacity) :
    ∃ d, d < capacity ∧ (i + d) % capacity = j := by
  by_cases h : i ≤ j
  · exact ⟨j - i, by omega, by rw [Nat.add_sub_cancel' h, Nat.mod_eq_of_lt hj]⟩
  · refine ⟨capacity - i + j, by omega, ?_⟩
    have : i + (capacity - i + j) = j + capacity := by omega
    rw [this, Nat.add_mod_right, Nat.mod_eq_of_lt hj]

/-- Termination of the probe: when some slot is empty or holds `id`, `linearProbe`
returns the first such slot in cyclic order from the start. -/
theorem linearProbe_terminates (s : BankDatabase) (id : String) (start : Nat)
    (hs : Sized s) (hstart : start < s.capacity)
    (hex : ∃ e ∈ s.table, e.1 = "" ∨ e.1 = id) :
    ∃ d e, d < s.capacity ∧
      linearProbe s start id = some ((start + d) % s.capacity) ∧
      s.table[(start + d) % s.capacity]? = some e ∧ (e.1 = "" ∨ e.1 = id) ∧
      ∀ d2, d2 < d → ∃ e2, s.table[(start + d2) % s.capacity]? = some e2 ∧
        e2.1 ≠ "" ∧ e2.1 ≠ id := by
  have hslot : ∀ n, ∃ e, s.table[n % s.capacity]? = some e := by
    intro n
    have hlt : n % s.capacity < s.table.length := by
      rw [hs.1]
      exact Nat.mod_lt _ hs.2
    exact ⟨s.table[n % s.capacity], List.getElem?_eq_getElem hlt⟩
  have hsome : ∃ d, d < s.capacity ∧
      ∃ e, s.table[(start + d) % s.capacity]? = some e ∧ (e.1 = "" ∨ e.1 = id) := by
    obtain ⟨e, hmem, he⟩ := hex
    obtain ⟨j, hj⟩ := List.getElem?_of_mem hmem
    have hjlt : j < s.capacity := by
      rw [← hs.1]
      exact (List.getElem?_eq_some_iff.mp hj).1
    obtain ⟨d, hd, hdj⟩ := exists_offset s.capacity start j hstart hjlt
    exact ⟨d, hd, e, by rw [hdj]; exact hj, he⟩
  classical
  let d := Nat.find hsome
  have hd : d < s.capacity ∧
      ∃ e, s.table[(start + d) % s.capacity]? = some e ∧ (e.1 = "" ∨ e.1 = id) :=
    Nat.find_spec hsome
  have hmin : ∀ d2, d2 < d → ∃ e2, s.table[(start + d2) % s.capacity]? = some e2 ∧
      e2.1 ≠ "" ∧ e2.1 ≠ id := by
    intro d2 hd2
    obtain ⟨e2, he2⟩ := hslot (start + d2)
    refine ⟨e2, he2, ?_⟩
    have hnot := Nat.find_min hsome hd2
    constructor
    · intro h
      exact hnot ⟨by omega, e2, he2, Or.inl h⟩
    · intro h
      exact hnot ⟨by omega, e2, he2, Or.inr h⟩
  obtain ⟨e, he, hstop⟩ := hd.2
  refine ⟨d, e, hd.1, ?_, he, hstop, hmin⟩
  exact linearProbeLoop_first s.table s.capacity id d s.capacity start hd.1 hstart hmin
    ⟨e, he, hstop⟩

/-- The probe reads only the ids of the slots. -/
theorem linearProbeLoop_congr (t1 t2 : List (String × Int)) (capacity : Nat) (id : String)
    (hkeys : t1.map Prod.fst = t2.map Prod.fst) :
    ∀ (fuel i : Nat), linearProbeLoop t1 capacity id fuel i
      = linearProbeLoop t2 capacity id fuel i := by
  intro fuel
  induction fuel with
  | zero => intro i; rfl
  | succ f ih =>
    intro i
    have hk : t1[i]?.map Prod.fst = t2[i]?.map Prod.fst := by
      rw [← List.getElem?_map, ← List.getElem?_map, hkeys]
    unfold linearProbeLoop
    cases h1 : t1[i]? with
    | none =>
      cases h2 : t2[i]? with
      | none => rfl
      | some e2 => simp [h1, h2] at hk
    | some e1 =>
      cases h2 : t2[i]? with
      | none => simp [h1, h2] at hk
      | some e2 =>
        have he : e1.1 = e2.1 := by simpa [h1, h2] using hk
        simp only [he, ih]

theorem map_fst_set_same (t : List (String × Int)) (i : Nat) (e : String × Int) (b : Int)
    (h : t[i]? = some e) : (t.set i (e.1, b)).map Prod.fst = t.map Prod.fst := by
  induction t generalizing i with
  | nil => simp
  | cons x t ih =>
    cases i with
    | zero =>
      simp at h
      simp [h]
    | succ i =>
      simp at h
      simp [ih i h]

/-! ### The fuel of `linearProbe` -/

theorem linearProbeLoop_more_fuel (table : List (String × Int)) (capacity : Nat) (id : String)
    (extra : Nat) :
    ∀ (fuel i r : Nat), linearProbeLoop table capacity id fuel i = some r →
      linearProbeLoop table capacity id (fuel + extra) i = some r := by
  intro fuel
  induction fuel with
  | zero =>
    intro i r h
    simp [linearProbeLoop] at h
  | succ f ih =>
    intro i r h
    rw [Nat.add_right_comm]
    unfold linearProbeLoop at h ⊢
    cases hs : table[i]? with
    | none => simp [hs] at h
    | some e =>
      simp only [hs] at h ⊢
      split
      · rename_i hgo
        rw [if_pos hgo] at h
        exact ih _ r h
      · rename_i hstop
        rw [if_neg hstop] at h
        exact h

theorem linearProbeLoop_all_busy (table : List (String × Int)) (capacity : Nat) (id : String)
    (hlen : table.length = capacity) (hbusy : ∀ e ∈ table, e.1 ≠ "" ∧ e.1 ≠ id) :
    ∀ (fuel i : Nat), i < capacity → linearProbeLoop table capacity id fuel i = none := by
  intro fuel
  induction fuel with
  | zero => intro i _; rfl
  | succ f ih =>
    intro i hi
    have hlt : i < table.length := by rw [hlen]; exact hi
    have hs : table[i]? = some table[i] := List.getElem?_eq_getElem hlt
    obtain ⟨h1, h2⟩ := hbusy table[i] (List.getElem_mem hlt)
    rw [linearProbeLoop_step table capacity id f i table[i] hs h1 h2]
    exact ih _ (Nat.mod_lt _ (by omega))

/-- The fuel `capacity` decides the loop: when `linearProbe` is `none` in a sized table,
the loop finds no exit with any amount of fuel (the C++ loop runs forever); when it is
`some r`, every larger fuel gives `r` as well (`linearProbeLoop_more_fuel`). -/
theorem linearProbe_none_forever (s : BankDatabase) (id : String) (start : Nat)
    (hs : Sized s) (hstart : start < s.capacity) (h : linearProbe s start id = none) :
    ∀ fuel, linearProbeLoop s.table s.capacity id fuel start = none := by
  intro fuel
  by_cases hex : ∃ e ∈ s.table, e.1 = "" ∨ e.1 = id
  · obtain ⟨d, e, _, hp, _⟩ := linearProbe_terminates s id start hs hstart hex
    rw [hp] at h
    cases h
  · apply linearProbeLoop_all_busy s.table s.capacity id hs.1 _ fuel start hstart
    intro e he
    constructor
    · intro h1
      exact hex ⟨e, he, Or.inl h1⟩
    · intro h1
      exact hex ⟨e, he, Or.inr h1⟩

/-! ### The operations in terms of the probed slot -/

theorem accountExists_of_probe (hashFunc : String → Nat) (s : BankDatabase) (id : String)
    (index : Nat) (e : String × Int)
    (hp : linearProbe s (hashFunction hashFunc s id) id = some index)
    (he : s.table[index]? = some e) :
    accountExists hashFunc s id = some (decide (e.1 = id)) := by
  unfold accountExists
  simp [hp, he]

theorem getBalance_of_probe (hashFunc : String → Nat) (s : BankDatabase) (id : String)
    (index : Nat) (e : String × Int)
    (hp : linearProbe s (hashFunction hashFunc s id) id = some index)
    (he : s.table[index]? = some e) :
    getBalance hashFunc s id = some (if e.1 = id then e.2 else -1) := by
  unfold getBalance
  simp only [hp, he, Option.bind_eq_bind, Option.some_bind]
  split <;> rfl

theorem addTransaction_of_probe (hashFunc : String → Nat) (s : BankDatabase) (id : String)
    (amount : Int) (index : Nat) (e : String × Int)
    (hp : linearProbe s (hashFunction hashFunc s id) id = some index)
    (he : s.table[index]? = some e) :
    addTransaction hashFunc s id amount
      = some (if e.1 = "" then
          { s with table := s.table.set index (id, amount), size := s.size + 1 }
        else { s with table := s.table.set index (e.1, e.2 + amount) }) := by
  unfold addTransaction
  simp only [hp, he, Option.bind_eq_bind, Option.some_bind]
  split <;> rfl

theorem createAccount_of_probe (hashFunc : String → Nat) (s : BankDatabase) (id : String)
    (b : Int) (index : Nat) (e : String × Int)
    (hp : linearProbe s (hashFunction hashFunc s id) id = some index)
    (he : s.table[index]? = some e) :
    createAccount hashFunc s id b
      = some (if e.1 = "" then
          { s with table := s.table.set index (id, b), size := s.size + 1 }
        else { s with table := s.table.set index (e.1, b) }) := by
  unfold createAccount
  simp only [hp, he, Option.bind_eq_bind, Option.some_bind]
  split <;> rfl

theorem deleteAccount_of_probe (hashFunc : String → Nat) (s : BankDatabase) (id : String)
    (index : Nat) (e : String × Int)
    (hp : linearProbe s (hashFunction hashFunc s id) id = some index)
    (he : s.table[index]? = some e) :
    deleteAccount hashFunc s id
      = some (if e.1 = id then
          ({ s with table := s.table.set index ("", 0), size := s.size - 1 }, true)
        else (s, false)) := by
  unfold deleteAccount
  simp only [hp, he, Option.bind_eq_bind, Option.some_bind]
  split <;> rfl

/-- What `accountExists(id) = true` says about the table: the probe returns a slot that
holds `id`. -/
theorem probe_of_accountExists (hashFunc : String → Nat) (s : BankDatabase) (id : String)
    (h : accountExists hashFunc s id = some true) :
    ∃ index e, linearProbe s (hashFunction hashFunc s id) id = some index ∧
      s.table[index]? = some e ∧ e.1 = id := by
  unfold accountExists at h
  cases hp : linearProbe s (hashFunction hashFunc s id) id with
  | none => simp [hp] at h
  | some index =>
    cases he : s.table[index]? with
    | none => simp [hp, he] at h
    | some e =>
      refine ⟨index, e, rfl, he, ?_⟩
      simpa [hp, he] using h

/-- Rewriting the balance of the probed slot does not move any probe. -/
theorem linearProbe_set_balance (s : BankDatabase) (index : Nat) (e : String × Int)
    (b : Int) (size : Int) (he : s.table[index]? = some e) (start : Nat) (id : String) :
    linearProbe { s with table := s.table.set index (e.1, b), size := size } start id
      = linearProbe s start id := by
  unfold linearProbe
  exact linearProbeLoop_congr _ _ _ _ (map_fst_set_same s.table index e b he) _ _

/-- A transaction on a stored id adds the amount to its balance, whatever the sign of
the result. -/
theorem addTransaction_stored (hashFunc : String → Nat) (s : BankDatabase) (k : String)
    (b amount : Int) (hk : k ≠ "") (hex : accountExists hashFunc s k = some true)
    (hb : getBalance hashFunc s k = some b) :
    ∃ t, addTransaction hashFunc s k amount = some t ∧
      getBalance hashFunc t k = some (b + amount) ∧
      accountExists hashFunc t k = some true ∧
      totalAccounts t = totalAccounts s := by
  obtain ⟨index, e, hp, he, hid⟩ := probe_of_accountExists hashFunc s k hex
  rw [getBalance_of_probe hashFunc s k index e hp he, if_pos hid] at hb
  have hbal : e.2 = b := by simpa using hb
  have hne : e.1 ≠ "" := by rw [hid]; exact hk
  refine ⟨{ s with table := s.table.set index (e.1, e.2 + amount) }, ?_, ?_, ?_, rfl⟩
  · rw [addTransaction_of_probe hashFunc s k amount index e hp he, if_neg hne]
  · have hp2 : linearProbe { s with table := s.table.set index (e.1, e.2 + amount) }
        (hashFunction hashFunc { s with table := s.table.set index (e.1, e.2 + amount) } k) k
        = some index := by
      rw [← hp]
      exact linearProbe_set_balance s index e (e.2 + amount) s.size he _ k
    have he2 : ({ s with table := s.table.set index (e.1, e.2 + amount) } : BankDatabase).table[index]?
        = some (e.1, e.2 + amount) := by
      have hlt : index < s.table.length := (List.getElem?_eq_some_iff.mp he).1
      simp [List.getElem?_set, hlt]
    rw [getBalance_of_probe hashFunc _ k index _ hp2 he2, if_pos hid, hbal]
  · have hp2 : linearProbe { s with table := s.table.set index (e.1, e.2 + amount) }
        (hashFunction hashFunc { s with table := s.table.set index (e.1, e.2 + amount) } k) k
        = some index := by
      rw [← hp]
      exact linearProbe_set_balance s index e (e.2 + amount) s.size he _ k
    have he2 : ({ s with table := s.table.set index (e.1, e.2 + amount) } : BankDatabase).table[index]?
        = some (e.1, e.2 + amount) := by
      have hlt : index < s.table.length := (List.getElem?_eq_some_iff.mp he).1
      simp [List.getElem?_set, hlt]
    rw [accountExists_of_probe hashFunc _ k index _ hp2 he2]
    simp [hid]

/-- With capacity 1 the hash function plays no part: every id is sent to slot 0. -/
theorem hashFunction_capacity_one (hashFunc : String → Nat) (s : BankDatabase) (id : String)
    (h : s.capacity = 1) : hashFunction hashFunc s id = 0 := by
  unfold hashFunction
  rw [h, Nat.mod_one]

/-- Storing `id` in the empty slot the probe for `id` returned: later probes for `id`
return the same slot. -/
theorem linearProbe_after_insert (s : BankDatabase) (id : String) (start d : Nat)
    (b : Int) (size : Int) (e : String × Int) (hd : d < s.capacity)
    (hstart : start < s.capacity)
    (he : s.table[(start + d) % s.capacity]? = some e) (hempty : e.1 = "")
    (hmin : ∀ d2, d2 < d → ∃ e2, s.table[(start + d2) % s.capacity]? = some e2 ∧
        e2.1 ≠ "" ∧ e2.1 ≠ id) :
    linearProbe { s with table := s.table.set ((start + d) % s.capacity) (id, b), size := size }
      start id = some ((start + d) % s.capacity) := by
  unfold linearProbe
  apply linearProbeLoop_first _ _ _ d s.capacity start hd hstart
  · intro d2 hd2
    obtain ⟨e2, he2, h1, h2⟩ := hmin d2 hd2
    refine ⟨e2, ?_, h1, h2⟩
    have hne : (start + d) % s.capacity ≠ (start + d2) % s.capacity := by
      intro heq
      rw [heq, he2] at he
      cases he
      exact h1 hempty
    simp only [List.getElem?_set, if_neg hne]
    exact he2
  · refine ⟨(id, b), ?_, Or.inr rfl⟩
    have hlt : (start + d) % s.capacity < s.table.length :=
      (List.getElem?_eq_some_iff.mp he).1
    simp [List.getElem?_set, hlt]

/-- C4 at the failing input: in a table of capacity 1 (every hash function selects slot 0)
holding "a" with balance 5, `addTransaction("a", -5-1)` leaves `getBalance("a")` at -1,
not at 5. -/
theorem C4_counterexample :
    (∀ hashFunc : String → Nat, ∃ s t,
      createAccount hashFunc (BankDatabase.init 1) "a" 5 = some s ∧
      accountExists hashFunc s "a" = some true ∧
      getBalance hashFunc s "a" = some 5 ∧
      addTransaction hashFunc s "a" (-5 - 1) = some t ∧
      getBalance hashFunc t "a" = some (-1)) ∧ (-1 : Int) ≠ 5 := by
  refine ⟨?_, by decide⟩
  intro hashFunc
  refine ⟨{ table := [("a", 5)], size := 1, capacity := 1 },
    { table := [("a", -1)], size := 1, capacity := 1 }, ?_, ?_, ?_, ?_, ?_⟩
  · rw [createAccount_of_probe hashFunc _ "a" 5 0 ("", 0)
      (by rw [hashFunction_capacity_one hashFunc _ "a" rfl]; decide) (by decide)]
    rfl
  · rw [accountExists_of_probe hashFunc _ "a" 0 ("a", 5)
      (by rw [hashFunction_capacity_one hashFunc _ "a" rfl]; decide) (by decide)]
    rfl
  · rw [getBalance_of_probe hashFunc _ "a" 0 ("a", 5)
      (by rw [hashFunction_capacity_one hashFunc _ "a" rfl]; decide) (by decide)]
    rfl
  · rw [addTransaction_of_probe hashFunc _ "a" (-5 - 1) 0 ("a", 5)
      (by rw [hashFunction_capacity_one hashFunc _ "a" rfl]; decide) (by decide)]
    rfl
  · rw [getBalance_of_probe hashFunc _ "a" 0 ("a", -1)
      (by rw [hashFunction_capacity_one hashFunc _ "a" rfl]; decide) (by decide)]
    rfl

/-- C4, as the code behaves. The linear-probing `addTransaction` has no overdraft test:
for a stored non-empty id `k` with balance `b`, `addTransaction(k, -b-1)` returns and
sets the balance of `k` to `-1` instead of leaving it at `b`; `k` stays stored and
`size` is unchanged. -/
theorem C4_overdraft_applied (hashFunc : String → Nat) (s : BankDatabase) (k : String)
    (b : Int) (hk : k ≠ "") (hex : accountExists hashFunc s k = some true)
    (hb : getBalance hashFunc s k = some b) :
    ∃ t, addTransaction hashFunc s k (-b - 1) = some t ∧
      getBalance hashFunc t k = some (-1) ∧
      accountExists hashFunc t k = some true ∧
      totalAccounts t = totalAccounts s := by
  obtain ⟨t, h1, h2, h3, h4⟩ := addTransaction_stored hashFunc s k b (-b - 1) hk hex hb
  refine ⟨t, h1, ?_, h3, h4⟩
  rw [h2]
  congr 1
  omega

/-- C4 at a concrete table: capacity 2, string length as hash, "a" stored with
balance 5. -/
theorem C4_overdraft_applied_witness :
    accountExists String.length
      { table := [("", 0), ("a", 5)], size := 1, capacity := 2 } "a" = some true ∧
    getBalance String.length
      { table := [("", 0), ("a", 5)], size := 1, capacity := 2 } "a" = some 5 ∧
    ∃ t, addTransaction String.length
        { table := [("", 0), ("a", 5)], size := 1, capacity := 2 } "a" (-5 - 1) = some t ∧
      getBalance String.length t "a" = some (-1) ∧
      accountExists String.length t "a" = some true ∧
      totalAccounts t
        = totalAccounts { table := [("", 0), ("a", 5)], size := 1, capacity := 2 } :=
  ⟨by decide, by decide,
    C4_overdraft_applied String.length
      { table := [("", 0), ("a", 5)], size := 1, capacity := 2 } "a" 5
      (by decide) (by decide) (by decide)⟩

/-- C5 at the failing input: in a fresh table of capacity 1, where "a" is not stored and
slot 0 is empty, `addTransaction("a", -5)` stores `("a", -5)`: the table changes, `size`
becomes 1 and `accountExists("a")` is true. -/
theorem C5_counterexample :
    (∃ e ∈ (BankDatabase.init 1).table, e.1 = "") ∧
    (∀ e ∈ (BankDatabase.init 1).table, e.1 ≠ "a") ∧
    ∀ hashFunc : String → Nat, ∃ t,
      addTransaction hashFunc (BankDatabase.init 1) "a" (-5) = some t ∧
      t.table = [("a", -5)] ∧ t.table ≠ (BankDatabase.init 1).table ∧
      totalAccounts t = 1 ∧ accountExists hashFunc t "a" = some true := by
  refine ⟨by decide, by decide, ?_⟩
  intro hashFunc
  refine ⟨{ table := [("a", -5)], size := 1, capacity := 1 }, ?_, rfl, by decide, rfl, ?_⟩
  · rw [addTransaction_of_probe hashFunc _ "a" (-5) 0 ("", 0)
      (by rw [hashFunction_capacity_one hashFunc _ "a" rfl]; decide) (by decide)]
    rfl
  · rw [accountExists_of_probe hashFunc _ "a" 0 ("a", -5)
      (by rw [hashFunction_capacity_one hashFunc _ "a" rfl]; decide) (by decide)]
    rfl

/-- C5, as the code behaves. The linear-probing `addTransaction` does not test the sign
of the amount: in a sized table with an empty slot, for an id `k` stored in no slot (so `k` is non-empty) and every
amount `b` (negative ones included), `addTransaction(k, b)` returns, writes `(k, b)`
into an empty slot, raises `size` by one, and afterwards `accountExists(k)` is true and
`getBalance(k)` is `b`. -/
theorem C5_negative_deposit_creates (hashFunc : String → Nat) (s : BankDatabase)
    (k : String) (b : Int) (hs : Sized s)
    (hns : ∀ e ∈ s.table, e.1 ≠ k) (hempty : ∃ e ∈ s.table, e.1 = "") :
    ∃ index t, (∃ e, s.table[index]? = some e ∧ e.1 = "") ∧
      addTransaction hashFunc s k b = some t ∧
      t.table = s.table.set index (k, b) ∧
      totalAccounts t = totalAccounts s + 1 ∧
      accountExists hashFunc t k = some true ∧
      getBalance hashFunc t k = some b := by
  have hstart : hashFunction hashFunc s k < s.capacity := Nat.mod_lt _ hs.2
  obtain ⟨e0, hmem, he0⟩ := hempty
  obtain ⟨d, e, hd, hp, he, hstop, hmin⟩ :=
    linearProbe_terminates s k (hashFunction hashFunc s k) hs hstart ⟨e0, hmem, Or.inl he0⟩
  have hse : e.1 = "" := by
    rcases hstop with h | h
    · exact h
    · exact absurd h (hns e (List.getElem?_mem he))
  have hp2 := linearProbe_after_insert s k (hashFunction hashFunc s k) d b (s.size + 1) e hd
    hstart he hse hmin
  have hlt : (hashFunction hashFunc s k + d) % s.capacity < s.table.length :=
    (List.getElem?_eq_some_iff.mp he).1
  have he2 : ({ s with
      table := s.table.set ((hashFunction hashFunc s k + d) % s.capacity) (k, b)
      size := s.size + 1 } : BankDatabase).table[(hashFunction hashFunc s k + d) % s.capacity]?
      = some (k, b) := by
    simp [List.getElem?_set, hlt]
  refine ⟨(hashFunction hashFunc s k + d) % s.capacity,
    { s with
      table := s.table.set ((hashFunction hashFunc s k + d) % s.capacity) (k, b)
      size := s.size + 1 }, ⟨e, he, hse⟩, ?_, rfl, rfl, ?_, ?_⟩
  · rw [addTransaction_of_probe hashFunc s k b _ e hp he, if_pos hse]
  · rw [accountExists_of_probe hashFunc _ k _ (k, b) hp2 he2]
    simp
  · rw [getBalance_of_probe hashFunc _ k _ (k, b) hp2 he2]
    simp

/-- C5 at a concrete table: capacity 2, string length as hash, "a" stored,
`addTransaction("bc", -4)`. -/
theorem C5_negative_deposit_creates_witness :
    Sized { table := [("", 0), ("a", 5)], size := 1, capacity := 2 } ∧
    ∃ index t,
      (∃ e, ({ table := [("", 0), ("a", 5)], size := 1, capacity := 2 } :
          BankDatabase).table[index]? = some e ∧ e.1 = "") ∧
      addTransaction String.length
        { table := [("", 0), ("a", 5)], size := 1, capacity := 2 } "bc" (-4) = some t ∧
      t.table = ({ table := [("", 0), ("a", 5)], size := 1, capacity := 2 } :
          BankDatabase).table.set index ("bc", -4) ∧
      totalAccounts t
        = totalAccounts { table := [("", 0), ("a", 5)], size := 1, capacity := 2 } + 1 ∧
      accountExists String.length t "bc" = some true ∧
      getBalance String.length t "bc" = some (-4) :=
  ⟨⟨by decide, by decide⟩,
    C5_negative_deposit_creates String.length
      { table := [("", 0), ("a", 5)], size := 1, capacity := 2 } "bc" (-4)
      ⟨by decide, by decide⟩ (by decide) (by decide)⟩

/-! ### Deleting inside a collision run -/

theorem succ_mod_cases (i cap : Nat) (hi : i < cap) :
    (i + 1 < cap ∧ (i + 1) % cap = i + 1) ∨ (i + 1 = cap ∧ (i + 1) % cap = 0) := by
  by_cases h : i + 1 < cap
  · exact Or.inl ⟨h, Nat.mod_eq_of_lt h⟩
  · have : i + 1 = cap := by omega
    exact Or.inr ⟨this, by rw [this, Nat.mod_self]⟩

theorem linearProbeLoop_second (table : List (String × Int)) (capacity : Nat) (id : String)
    (fuel i : Nat) (e0 e1 : String × Int) (h0 : table[i]? = some e0)
    (h01 : e0.1 ≠ "") (h02 : e0.1 ≠ id)
    (h1 : table[(i + 1) % capacity]? = some e1) (hstop : e1.1 = "" ∨ e1.1 = id) :
    linearProbeLoop table capacity id (fuel + 2) i = some ((i + 1) % capacity) := by
  rw [linearProbeLoop_step table capacity id (fuel + 1) i e0 h0 h01 h02]
  exact linearProbeLoop_stop table capacity id fuel _ e1 h1 hstop

theorem linearProbeLoop_third (table : List (String × Int)) (capacity : Nat) (id : String)
    (fuel i : Nat) (e0 e1 e2 : String × Int) (h0 : table[i]? = some e0)
    (h01 : e0.1 ≠ "") (h02 : e0.1 ≠ id)
    (h1 : table[(i + 1) % capacity]? = some e1) (h11 : e1.1 ≠ "") (h12 : e1.1 ≠ id)
    (h2 : table[((i + 1) % capacity + 1) % capacity]? = some e2)
    (hstop : e2.1 = "" ∨ e2.1 = id) :
    linearProbeLoop table capacity id (fuel + 3) i
      = some (((i + 1) % capacity + 1) % capacity) := by
  rw [linearProbeLoop_step table capacity id (fuel + 2) i e0 h0 h01 h02]
  exact linearProbeLoop_second table capacity id fuel _ e1 e2 h1 h11 h12 h2 hstop

/-- C6, as the code behaves. Three distinct non-empty ids `a`, `b`, `c` with the same
hash slot are created in this order in a fresh table of capacity at least 3 and `b` is
deleted. Every call returns; afterwards `(c, z)` is still in the table and `size` is 2,
yet `accountExists(c)` is false and `getBalance(c)` is `-1`: the probe for `c` stops at
the slot that `deleteAccount(b)` reset to empty. -/
theorem C6_delete_hides_later_key (hashFunc : String → Nat) (cap : Nat) (a b c : String)
    (x y z : Int) (hcap : 3 ≤ cap) (ha : a ≠ "") (hb : b ≠ "") (hc : c ≠ "")
    (hab : a ≠ b) (hac : a ≠ c) (hbc : b ≠ c)
    (h1 : hashFunc b % cap = hashFunc a % cap) (h2 : hashFunc c % cap = hashFunc a % cap) :
    ∃ s, collisionScenario hashFunc cap a b c x y z = some s ∧
      (c, z) ∈ s.table ∧ totalAccounts s = 2 ∧
      accountExists hashFunc s c = some false ∧ getBalance hashFunc s c = some (-1) := by
  obtain ⟨n, rfl⟩ : ∃ n, cap = n + 3 := ⟨cap - 3, by omega⟩
  obtain ⟨h, hh0⟩ : ∃ h, hashFunc a % (n + 3) = h := ⟨_, rfl⟩
  rw [hh0] at h1 h2
  have hh : h < n + 3 := by rw [← hh0]; exact Nat.mod_lt _ (by omega)
  have hi1lt : (h + 1) % (n + 3) < n + 3 := Nat.mod_lt _ (by omega)
  have hne1 : h ≠ (h + 1) % (n + 3) := by
    rcases succ_mod_cases h (n + 3) hh with ⟨_, e⟩ | ⟨_, e⟩ <;> omega
  generalize hi1 : (h + 1) % (n + 3) = i1 at hi1lt hne1
  have hi2lt : (i1 + 1) % (n + 3) < n + 3 := Nat.mod_lt _ (by omega)
  have hne2 : i1 ≠ (i1 + 1) % (n + 3) := by
    rcases succ_mod_cases i1 (n + 3) hi1lt with ⟨_, e⟩ | ⟨_, e⟩ <;> omega
  have hne3 : h ≠ (i1 + 1) % (n + 3) := by
    rcases succ_mod_cases h (n + 3) hh with ⟨_, e⟩ | ⟨_, e⟩ <;>
      rcases succ_mod_cases i1 (n + 3) hi1lt with ⟨_, e2⟩ | ⟨_, e2⟩ <;> omega
  generalize hi2 : (i1 + 1) % (n + 3) = i2 at hi2lt hne2 hne3
  have hfa : ∀ (T : List (String × Int)) (sz : Int),
      hashFunction hashFunc { table := T, size := sz, capacity := n + 3 } a = h :=
    fun _ _ => hh0
  have hfb : ∀ (T : List (String × Int)) (sz : Int),
      hashFunction hashFunc { table := T, size := sz, capacity := n + 3 } b = h :=
    fun _ _ => h1
  have hfc : ∀ (T : List (String × Int)) (sz : Int),
      hashFunction hashFunc { table := T, size := sz, capacity := n + 3 } c = h :=
    fun _ _ => h2
  -- createAccount(a, x): slot h is empty
  have hS1 : createAccount hashFunc (BankDatabase.init (n + 3)) a x
      = some { table := (List.replicate (n + 3) ("", 0)).set h (a, x), size := 0 + 1,
               capacity := n + 3 } := by
    have he : (BankDatabase.init (n + 3)).table[h]? = some ("", 0) := by
      simp [BankDatabase.init, List.getElem?_replicate, hh]
    have hp : linearProbe (BankDatabase.init (n + 3))
        (hashFunction hashFunc (BankDatabase.init (n + 3)) a) a = some h := by
      rw [show hashFunction hashFunc (BankDatabase.init (n + 3)) a = h from hh0]
      exact linearProbeLoop_stop _ (n + 3) a (n + 2) h ("", 0) he (Or.inl rfl)
    rw [createAccount_of_probe hashFunc _ a x h ("", 0) hp he, if_pos rfl]
    rfl
  -- createAccount(b, y): slot h holds a, slot i1 is empty
  have hS2 : createAccount hashFunc
      { table := (List.replicate (n + 3) ("", 0)).set h (a, x), size := 0 + 1,
        capacity := n + 3 } b y
      = some { table := ((List.replicate (n + 3) ("", 0)).set h (a, x)).set i1 (b, y),
               size := 0 + 1 + 1, capacity := n + 3 } := by
    have he0 : ((List.replicate (n + 3) (("", 0) : String × Int)).set h (a, x))[h]?
        = some (a, x) := by
      simp [List.getElem?_set, hh]
    have he1 : ((List.replicate (n + 3) (("", 0) : String × Int)).set h (a, x))[i1]?
        = some ("", 0) := by
      simp [List.getElem?_set, List.getElem?_replicate, hne1, hi1lt]
    have hp : linearProbe
        { table := (List.replicate (n + 3) ("", 0)).set h (a, x), size := 0 + 1,
          capacity := n + 3 }
        (hashFunction hashFunc
          { table := (List.replicate (n + 3) ("", 0)).set h (a, x), size := 0 + 1,
            capacity := n + 3 } b) b = some i1 := by
      rw [hfb]
      have key := linearProbeLoop_second _ (n + 3) b (n + 1) h (a, x) ("", 0) he0 ha hab
        (by rw [hi1]; exact he1) (Or.inl rfl)
      rw [hi1] at key
      exact key
    rw [createAccount_of_probe hashFunc _ b y i1 ("", 0) hp he1, if_pos rfl]
  -- createAccount(c, z): slots h and i1 hold a and b, slot i2 is empty
  have hS3 : createAccount hashFunc
      { table := ((List.replicate (n + 3) ("", 0)).set h (a, x)).set i1 (b, y),
        size := 0 + 1 + 1, capacity := n + 3 } c z
      = some { table := (((List.replicate (n + 3) ("", 0)).set h (a, x)).set i1 (b, y)).set
                 i2 (c, z),
               size := 0 + 1 + 1 + 1, capacity := n + 3 } := by
    have he0 : (((List.replicate (n + 3) (("", 0) : String × Int)).set h (a, x)).set
        i1 (b, y))[h]? = some (a, x) := by
      simp [List.getElem?_set, hh, hne1.symm]
    have he1 : (((List.replicate (n + 3) (("", 0) : String × Int)).set h (a, x)).set
        i1 (b, y))[i1]? = some (b, y) := by
      simp [List.getElem?_set, hi1lt]
    have he2 : (((List.replicate (n + 3) (("", 0) : String × Int)).set h (a, x)).set
        i1 (b, y))[i2]? = some ("", 0) := by
      simp [List.getElem?_set, List.getElem?_replicate, hne2, hne3, hi2lt]
    have hp : linearProbe
        { table := ((List.replicate (n + 3) ("", 0)).set h (a, x)).set i1 (b, y),
          size := 0 + 1 + 1, capacity := n + 3 }
        (hashFunction hashFunc
          { table := ((List.replicate (n + 3) ("", 0)).set h (a, x)).set i1 (b, y),
            size := 0 + 1 + 1, capacity := n + 3 } c) c = some i2 := by
      rw [hfc]
      have key := linearProbeLoop_third _ (n + 3) c n h (a, x) (b, y) ("", 0) he0 ha hac
        (by rw [hi1]; exact he1) hb hbc (by rw [hi1, hi2]; exact he2) (Or.inl rfl)
      rw [hi1, hi2] at key
      exact key
    rw [createAccount_of_probe hashFunc _ c z i2 ("", 0) hp he2, if_pos rfl]
  -- deleteAccount(b): found in slot i1, which is reset to empty
  have hS4 : deleteAccount hashFunc
      { table := (((List.replicate (n + 3) ("", 0)).set h (a, x)).set i1 (b, y)).set
          i2 (c, z),
        size := 0 + 1 + 1 + 1, capacity := n + 3 } b
      = some ({ table := ((((List.replicate (n + 3) ("", 0)).set h (a, x)).set i1 (b, y)).set
                  i2 (c, z)).set i1 ("", 0),
                size := 0 + 1 + 1 + 1 - 1, capacity := n + 3 }, true) := by
    have he0 : ((((List.replicate (n + 3) (("", 0) : String × Int)).set h (a, x)).set
        i1 (b, y)).set i2 (c, z))[h]? = some (a, x) := by
      simp [List.getElem?_set, hh, hne1.symm, hne3.symm]
    have he1 : ((((List.replicate (n + 3) (("", 0) : String × Int)).set h (a, x)).set
        i1 (b, y)).set i2 (c, z))[i1]? = some (b, y) := by
      simp [List.getElem?_set, hi1lt, hne2.symm]
    have hp : linearProbe
        { table := (((List.replicate (n + 3) ("", 0)).set h (a, x)).set i1 (b, y)).set
            i2 (c, z),
          size := 0 + 1 + 1 + 1, capacity := n + 3 }
        (hashFunction hashFunc
          { table := (((List.replicate (n + 3) ("", 0)).set h (a, x)).set i1 (b, y)).set
              i2 (c, z),
            size := 0 + 1 + 1 + 1, capacity := n + 3 } b) b = some i1 := by
      rw [hfb]
      have key := linearProbeLoop_second _ (n + 3) b (n + 1) h (a, x) (b, y) he0 ha hab
        (by rw [hi1]; exact he1) (Or.inr rfl)
      rw [hi1] at key
      exact key
    rw [deleteAccount_of_probe hashFunc _ b i1 (b, y) hp he1, if_pos rfl]
  -- afterwards the probe for c stops at the emptied slot i1
  have he0 : (((((List.replicate (n + 3) (("", 0) : String × Int)).set h (a, x)).set
      i1 (b, y)).set i2 (c, z)).set i1 ("", 0))[h]? = some (a, x) := by
    simp [List.getElem?_set, hh, hne1.symm, hne3.symm]
  have he1 : (((((List.replicate (n + 3) (("", 0) : String × Int)).set h (a, x)).set
      i1 (b, y)).set i2 (c, z)).set i1 ("", 0))[i1]? = some ("", 0) := by
    simp [List.getElem?_set, hi1lt]
  have he2 : (((((List.replicate (n + 3) (("", 0) : String × Int)).set h (a, x)).set
      i1 (b, y)).set i2 (c, z)).set i1 ("", 0))[i2]? = some (c, z) := by
    simp [List.getElem?_set, hi2lt, hne2]
  have hp : linearProbe
      { table := ((((List.replicate (n + 3) ("", 0)).set h (a, x)).set i1 (b, y)).set
          i2 (c, z)).set i1 ("", 0),
        size := 0 + 1 + 1 + 1 - 1, capacity := n + 3 }
      (hashFunction hashFunc
        { table := ((((List.replicate (n + 3) ("", 0)).set h (a, x)).set i1 (b, y)).set
            i2 (c, z)).set i1 ("", 0),
          size := 0 + 1 + 1 + 1 - 1, capacity := n + 3 } c) c = some i1 := by
    rw [hfc]
    have key := linearProbeLoop_second _ (n + 3) c (n + 1) h (a, x) ("", 0) he0 ha hac
      (by rw [hi1]; exact he1) (Or.inl rfl)
    rw [hi1] at key
    exact key
  refine ⟨{ table := ((((List.replicate (n + 3) ("", 0)).set h (a, x)).set i1 (b, y)).set
              i2 (c, z)).set i1 ("", 0),
            size := 0 + 1 + 1 + 1 - 1, capacity := n + 3 }, ?_, ?_, ?_, ?_, ?_⟩
  · unfold collisionScenario
    simp only [hS1, hS2, hS3, hS4, Option.bind_eq_bind, Option.some_bind]
  · exact List.getElem?_mem he2
  · show (0 + 1 + 1 + 1 - 1 : Int) = 2
    norm_num
  · rw [accountExists_of_probe hashFunc _ c i1 ("", 0) hp he1]
    simp [Ne.symm hc]
  · rw [getBalance_of_probe hashFunc _ c i1 ("", 0) hp he1]
    simp [Ne.symm hc]

/-- C6 at concrete inputs: capacity 3, string length as hash, ids "a", "b", "c" (all in
slot 1). -/
theorem C6_delete_hides_later_key_witness :
    ∃ s, collisionScenario String.length 3 "a" "b" "c" 10 20 30 = some s ∧
      ("c", 30) ∈ s.table ∧ totalAccounts s = 2 ∧
      accountExists String.length s "c" = some false ∧
      getBalance String.length s "c" = some (-1) :=
  C6_delete_hides_later_key String.length 3 "a" "b" "c" 10 20 30 (by decide) (by decide)
    (by decide) (by decide) (by decide) (by decide) (by decide) (by decide) (by decide)

end LinearProbing

namespace QuadraticProbing

/-! ### The probe loop on small indices -/

theorem wrap32_of_range (x : Int) (h1 : -2 ^ 31 ≤ x) (h2 : x < 2 ^ 31) : wrap32 x = x := by
  unfold wrap32
  omega

theorem slotAt_natCast (table : List BankAccount) (n : Nat) :
    slotAt table (n : Int) = table[n]? := by
  unfold slotAt
  rw [if_pos (Int.ofNat_nonneg n), Int.toNat_ofNat]

theorem findSlotLoop_stop (table : List BankAccount) (capacity : Int) (id : String)
    (fuel : Nat) (index i : Int) (account : BankAccount)
    (h : slotAt table index = some account)
    (hstop : ¬(account.active = true ∧ account.id ≠ id)) :
    findSlotLoop table capacity id (fuel + 1) index i = some index := by
  unfold findSlotLoop
  rw [h]
  simp only
  rw [if_neg hstop]

/-- The first round of the loop (`i` goes from 0 to 1): the probe moves from slot `h`
to slot `(h + 1) % cap`. -/
theorem findSlotLoop_first_round (table : List BankAccount) (cap : Nat) (id : String)
    (fuel h : Nat) (account : BankAccount) (hcap : 2 ≤ cap) (hcap2 : cap < 2 ^ 31)
    (hh : h < cap) (hs : table[h]? = some account)
    (hact : account.active = true) (hid : account.id ≠ id) :
    findSlotLoop table (cap : Int) id (fuel + 1) (h : Int) 0
      = findSlotLoop table (cap : Int) id fuel (((h + 1) % cap : Nat) : Int) 1 := by
  conv => lhs; unfold findSlotLoop
  rw [slotAt_natCast, hs]
  simp only
  rw [if_pos ⟨hact, hid⟩]
  have e1 : wrap32 (0 + 1) = 1 := by decide
  have e2 : wrap32 (1 * 1) = 1 := by decide
  have e3 : wrap32 ((h : Int) + 1) = (h : Int) + 1 := by
    apply wrap32_of_range <;> omega
  have e4 : Int.tmod ((h : Int) + 1) (cap : Int) = (((h + 1) % cap : Nat) : Int) := by
    rw [Int.ofNat_tmod]
    push_cast
    rfl
  rw [e1, e2, e3, e4, if_neg (by omega)]

/-! ### The fuel of `findSlot` -/

/-- At a loop head with `0 <= i < capacity < 2^31`, fuel `capacity - i` is enough: more
fuel does not change what the loop returns. -/
theorem findSlotLoop_more_fuel (table : List BankAccount) (cap : Nat) (id : String)
    (hcap : cap < 2 ^ 31) (extra : Nat) :
    ∀ (fuel : Nat) (index : Int) (i : Nat), i < cap → cap ≤ i + fuel →
      findSlotLoop table (cap : Int) id (fuel + extra) index (i : Int)
        = findSlotLoop table (cap : Int) id fuel index (i : Int) := by
  intro fuel
  induction fuel with
  | zero => intro index i hi hle; omega
  | succ f ih =>
    intro index i hi hle
    rw [Nat.add_right_comm]
    unfold findSlotLoop
    cases hs : slotAt table index with
    | none => rfl
    | some account =>
      simp only []
      split
      · have e1 : wrap32 ((i : Int) + 1) = ((i + 1 : Nat) : Int) := by
          rw [wrap32_of_range _ (by omega) (by omega)]
          push_cast
          rfl
        rw [e1]
        split
        · rfl
        · rename_i hlt
          exact ih _ (i + 1) (by omega) (by omega)
      · rfl

/-- The loop of `findSlot` never runs out of its fuel `capacity`. -/
theorem findSlot_more_fuel (hashFunc : String → Nat) (s : BankingSystem) (id : String)
    (hpos : 0 < s.capacity) (hcap : s.capacity < 2 ^ 31) (extra : Nat) :
    findSlotLoop s.table s.capacity id (s.capacity + extra) (hashFunction hashFunc s id) 0
      = findSlot hashFunc s id := by
  unfold findSlot
  exact findSlotLoop_more_fuel s.table s.capacity id hcap extra s.capacity _ 0 hpos (by omega)

/-! ### The operations in terms of the slot `findSlot` returned -/

theorem natCast_ne_neg_one (n : Nat) : (n : Int) ≠ -1 := by omega

theorem createAccount_of_slot (hashFunc : String → Nat) (s : BankingSystem) (id : String)
    (b : Int) (n : Nat) (account : BankAccount)
    (hf : findSlot hashFunc s id = some (n : Int)) (hs : s.table[n]? = some account) :
    createAccount hashFunc s id b
      = some (if account.active = false then
          { s with
            table := s.table.set n { id := id, balance := b, active := true }
            size := s.size + 1 }
        else s) := by
  unfold createAccount
  simp only [hf, Option.bind_eq_bind, Option.some_bind, if_pos (natCast_ne_neg_one n),
    slotAt_natCast, hs, Int.toNat_ofNat]
  split <;> rfl

theorem accountExists_of_slot (hashFunc : String → Nat) (s : BankingSystem) (id : String)
    (n : Nat) (account : BankAccount)
    (hf : findSlot hashFunc s id = some (n : Int)) (hs : s.table[n]? = some account) :
    accountExists hashFunc s id = some account.active := by
  unfold accountExists
  simp only [hf, Option.bind_eq_bind, Option.some_bind, if_pos (natCast_ne_neg_one n),
    slotAt_natCast, hs]

theorem getBalance_of_slot (hashFunc : String → Nat) (s : BankingSystem) (id : String)
    (n : Nat) (account : BankAccount)
    (hf : findSlot hashFunc s id = some (n : Int)) (hs : s.table[n]? = some account) :
    getBalance hashFunc s id
      = some (if account.active = true then account.balance else -1) := by
  unfold getBalance
  simp only [hf, Option.bind_eq_bind, Option.some_bind, if_pos (natCast_ne_neg_one n),
    slotAt_natCast, hs]
  split <;> rfl

theorem deleteAccount_of_slot (hashFunc : String → Nat) (s : BankingSystem) (id : String)
    (n : Nat) (account : BankAccount)
    (hf : findSlot hashFunc s id = some (n : Int)) (hs : s.table[n]? = some account) :
    deleteAccount hashFunc s id
      = some (if account.active = true then
          ({ s with
             table := s.table.set n { account with active := false }
             size := s.size - 1 }, true)
        else (s, false)) := by
  unfold deleteAccount
  simp only [hf, Option.bind_eq_bind, Option.some_bind, if_pos (natCast_ne_neg_one n),
    slotAt_natCast, hs, Int.toNat_ofNat]
  split <;> rfl

/-- C7, as the code behaves. Two distinct ids `d` and `j` with the same hash slot are
created in this order in a fresh table of capacity at least 2. Then `accountExists(j)`
is true and `getBalance(j)` is its balance `y`. `deleteAccount(d)` returns true, and
afterwards the active record of `j` is still in the table and `size` is 1, yet
`accountExists(j)` is false and `getBalance(j)` is `-1`: `findSlot(j)` stops at the
deactivated slot of `d` instead of skipping over it. -/
theorem C7_delete_hides_colliding_key (hashFunc : String → Nat) (cap : Nat) (d j : String)
    (x y : Int) (hcap : 2 ≤ cap) (hcap2 : cap < 2 ^ 31) (hdj : d ≠ j)
    (hcoll : hashFunc j % cap = hashFunc d % cap) :
    ∃ s r, twoCreates hashFunc cap d j x y = some s ∧
      accountExists hashFunc s j = some true ∧ getBalance hashFunc s j = some y ∧
      deleteAccount hashFunc s d = some (r, true) ∧
      { id := j, balance := y, active := true } ∈ r.table ∧ totalAccounts r = 1 ∧
      accountExists hashFunc r j = some false ∧ getBalance hashFunc r j = some (-1) := by
  obtain ⟨n, rfl⟩ : ∃ n, cap = n + 2 := ⟨cap - 2, by omega⟩
  obtain ⟨h, hh0⟩ : ∃ h, hashFunc d % (n + 2) = h := ⟨_, rfl⟩
  rw [hh0] at hcoll
  have hh : h < n + 2 := by rw [← hh0]; exact Nat.mod_lt _ (by omega)
  have hi1lt : (h + 1) % (n + 2) < n + 2 := Nat.mod_lt _ (by omega)
  have hne1 : h ≠ (h + 1) % (n + 2) := by
    by_cases hlt : h + 1 < n + 2
    · rw [Nat.mod_eq_of_lt hlt]; omega
    · have : h + 1 = n + 2 := by omega
      rw [this, Nat.mod_self]; omega
  generalize hi1 : (h + 1) % (n + 2) = i1 at hi1lt hne1
  have hfd : ∀ (T : List BankAccount) (sz : Int),
      hashFunction hashFunc { table := T, capacity := n + 2, size := sz } d = h :=
    fun _ _ => hh0
  have hfj : ∀ (T : List BankAccount) (sz : Int),
      hashFunction hashFunc { table := T, capacity := n + 2, size := sz } j = h :=
    fun _ _ => hcoll
  -- createAccount(d, x): slot h is inactive
  have hS1 : createAccount hashFunc (BankingSystem.init (n + 2)) d x
      = some { table := (List.replicate (n + 2) BankAccount.blank).set h
                 { id := d, balance := x, active := true },
               capacity := n + 2, size := 0 + 1 } := by
    have he : (BankingSystem.init (n + 2)).table[h]? = some BankAccount.blank := by
      simp [BankingSystem.init, List.getElem?_replicate, hh]
    have hp : findSlot hashFunc (BankingSystem.init (n + 2)) d = some (h : Int) := by
      unfold findSlot
      rw [show hashFunction hashFunc (BankingSystem.init (n + 2)) d = h from hh0]
      exact findSlotLoop_stop _ _ d (n + 1) _ 0 BankAccount.blank
        (by rw [slotAt_natCast]; exact he) (by simp [BankAccount.blank])
    rw [createAccount_of_slot hashFunc _ d x h BankAccount.blank hp he]
    rfl
  -- createAccount(j, y): slot h holds d, slot i1 is inactive
  have hS2 : createAccount hashFunc
      { table := (List.replicate (n + 2) BankAccount.blank).set h
          { id := d, balance := x, active := true },
        capacity := n + 2, size := 0 + 1 } j y
      = some { table := ((List.replicate (n + 2) BankAccount.blank).set h
                 { id := d, balance := x, active := true }).set i1
                 { id := j, balance := y, active := true },
               capacity := n + 2, size := 0 + 1 + 1 } := by
    have he0 : ((List.replicate (n + 2) BankAccount.blank).set h
        { id := d, balance := x, active := true })[h]?
        = some { id := d, balance := x, active := true } := by
      simp [List.getElem?_set, hh]
    have he1 : ((List.replicate (n + 2) BankAccount.blank).set h
        { id := d, balance := x, active := true })[i1]? = some BankAccount.blank := by
      simp [List.getElem?_set, List.getElem?_replicate, hne1, hi1lt]
    have hp : findSlot hashFunc
        { table := (List.replicate (n + 2) BankAccount.blank).set h
            { id := d, balance := x, active := true },
          capacity := n + 2, size := 0 + 1 } j = some (i1 : Int) := by
      unfold findSlot
      rw [hfj]
      have key := findSlotLoop_first_round
        ((List.replicate (n + 2) BankAccount.blank).set h
          { id := d, balance := x, active := true })
        (n + 2) j (n + 1) h _ hcap hcap2 hh he0 rfl hdj
      rw [hi1] at key
      refine key.trans ?_
      exact findSlotLoop_stop _ _ j n _ 1 BankAccount.blank
        (by rw [slotAt_natCast]; exact he1) (by simp [BankAccount.blank])
    rw [createAccount_of_slot hashFunc _ j y i1 BankAccount.blank hp he1]
    rfl
  -- the state after the two creates: j is found in slot i1
  have he0 : (((List.replicate (n + 2) BankAccount.blank).set h
      { id := d, balance := x, active := true }).set i1
      { id := j, balance := y, active := true })[h]?
      = some { id := d, balance := x, active := true } := by
    simp [List.getElem?_set, hh, hne1.symm]
  have he1 : (((List.replicate (n + 2) BankAccount.blank).set h
      { id := d, balance := x, active := true }).set i1
      { id := j, balance := y, active := true })[i1]?
      = some { id := j, balance := y, active := true } := by
    simp [List.getElem?_set, hi1lt]
  have hpj : findSlot hashFunc
      { table := ((List.replicate (n + 2) BankAccount.blank).set h
          { id := d, balance := x, active := true }).set i1
          { id := j, balance := y, active := true },
        capacity := n + 2, size := 0 + 1 + 1 } j = some (i1 : Int) := by
    unfold findSlot
    rw [hfj]
    have key := findSlotLoop_first_round
      (((List.replicate (n + 2) BankAccount.blank).set h
        { id := d, balance := x, active := true }).set i1
        { id := j, balance := y, active := true })
      (n + 2) j (n + 1) h _ hcap hcap2 hh he0 rfl hdj
    rw [hi1] at key
    refine key.trans ?_
    exact findSlotLoop_stop _ _ j n _ 1 { id := j, balance := y, active := true }
      (by rw [slotAt_natCast]; exact he1) (by simp)
  have hpd : findSlot hashFunc
      { table := ((List.replicate (n + 2) BankAccount.blank).set h
          { id := d, balance := x, active := true }).set i1
          { id := j, balance := y, active := true },
        capacity := n + 2, size := 0 + 1 + 1 } d = some (h : Int) := by
    unfold findSlot
    rw [hfd]
    exact findSlotLoop_stop _ _ d (n + 1) _ 0 { id := d, balance := x, active := true }
      (by rw [slotAt_natCast]; exact he0) (by simp)
  -- the state after deleteAccount(d): the probe for j stops in slot h
  have hf0 : ((((List.replicate (n + 2) BankAccount.blank).set h
      { id := d, balance := x, active := true }).set i1
      { id := j, balance := y, active := true }).set h
      { id := d, balance := x, active := false })[h]?
      = some { id := d, balance := x, active := false } := by
    simp [List.getElem?_set, hh]
  have hf1 : ((((List.replicate (n + 2) BankAccount.blank).set h
      { id := d, balance := x, active := true }).set i1
      { id := j, balance := y, active := true }).set h
      { id := d, balance := x, active := false })[i1]?
      = some { id := j, balance := y, active := true } := by
    simp [List.getElem?_set, hi1lt, hne1]
  have hpj2 : findSlot hashFunc
      { table := (((List.replicate (n + 2) BankAccount.blank).set h
          { id := d, balance := x, active := true }).set i1
          { id := j, balance := y, active := true }).set h
          { id := d, balance := x, active := false },
        capacity := n + 2, size := 0 + 1 + 1 - 1 } j = some (h : Int) := by
    unfold findSlot
    rw [hfj]
    exact findSlotLoop_stop _ _ j (n + 1) _ 0 { id := d, balance := x, active := false }
      (by rw [slotAt_natCast]; exact hf0) (by simp)
  refine ⟨{ table := ((List.replicate (n + 2) BankAccount.blank).set h
              { id := d, balance := x, active := true }).set i1
              { id := j, balance := y, active := true },
            capacity := n + 2, size := 0 + 1 + 1 },
    { table := (((List.replicate (n + 2) BankAccount.blank).set h
          { id := d, balance := x, active := true }).set i1
          { id := j, balance := y, active := true }).set h
          { id := d, balance := x, active := false },
      capacity := n + 2, size := 0 + 1 + 1 - 1 }, ?_, ?_, ?_, ?_, ?_, ?_, ?_, ?_⟩
  · unfold twoCreates
    simp only [hS1, hS2, Option.bind_eq_bind, Option.some_bind]
  · rw [accountExists_of_slot hashFunc _ j i1 _ hpj he1]
  · rw [getBalance_of_slot hashFunc _ j i1 _ hpj he1]
    rfl
  · rw [deleteAccount_of_slot hashFunc _ d h _ hpd he0]
    rfl
  · exact List.getElem?_mem hf1
  · show (0 + 1 + 1 - 1 : Int) = 1
    norm_num
  · rw [accountExists_of_slot hashFunc _ j h _ hpj2 hf0]
  · rw [getBalance_of_slot hashFunc _ j h _ hpj2 hf0]
    rfl

/-- C7 at concrete inputs: capacity 2, string length as hash, ids "d" and "j". -/
theorem C7_delete_hides_colliding_key_witness :
    ∃ s r, twoCreates String.length 2 "d" "j" 10 20 = some s ∧
      accountExists String.length s "j" = some true ∧
      getBalance String.length s "j" = some 20 ∧
      deleteAccount String.length s "d" = some (r, true) ∧
      { id := "j", balance := 20, active := true } ∈ r.table ∧ totalAccounts r = 1 ∧
      accountExists String.length r "j" = some false ∧
      getBalance String.length r "j" = some (-1) :=
  C7_delete_hides_colliding_key String.length 2 "d" "j" 10 20 (by decide) (by decide)
    (by decide) (by decide)

end QuadraticProbing

/-! ## Top-K -/

theorem toSizeT_of_nonneg (k : Int) (h0 : 0 ≤ k) (h1 : k < 2 ^ 31) : toSizeT k = k.toNat := by
  unfold toSizeT
  congr 1
  omega

theorem toSizeT_of_neg (k : Int) (h0 : k < 0) (h1 : -2 ^ 31 ≤ k) :
    2 ^ 63 ≤ toSizeT k := by
  unfold toSizeT
  omega

theorem truncateTo_of_nonneg (l : List Int) (k : Int) (h0 : 0 ≤ k) (h1 : k < 2 ^ 31) :
    truncateTo l k = l.take k.toNat := by
  unfold truncateTo
  rw [toSizeT_of_nonneg k h0 h1]
  split
  · rfl
  · rw [List.take_of_length_le (by omega)]

theorem truncateTo_of_neg (l : List Int) (k : Int) (h0 : k < 0) (h1 : -2 ^ 31 ≤ k)
    (hl : l.length < 2 ^ 63) : truncateTo l k = l := by
  unfold truncateTo
  have := toSizeT_of_neg k h0 h1
  rw [if_neg (by omega)]

theorem truncateTo_zero (l : List Int) : truncateTo l 0 = [] := by
  unfold truncateTo
  have : toSizeT 0 = 0 := by decide
  rw [this]
  split <;> simp_all

theorem sortDescending_sorted (l : List Int) :
    (sortDescending l).Sorted (fun a b => b ≤ a) := by
  unfold sortDescending
  haveI : IsTotal Int (fun a b => b ≤ a) := ⟨fun a b => le_total b a⟩
  haveI : IsTrans Int (fun a b => b ≤ a) := ⟨fun a b c hab hbc => le_trans hbc hab⟩
  exact List.sorted_insertionSort _ l

theorem sortDescending_perm (l : List Int) : (sortDescending l).Perm l :=
  List.perm_insertionSort _ l

theorem sorted_desc_unique (l1 l2 : List Int) (hp : l1.Perm l2)
    (h1 : l1.Sorted (fun a b => b ≤ a)) (h2 : l2.Sorted (fun a b => b ≤ a)) : l1 = l2 := by
  haveI : IsAntisymm Int (fun a b => b ≤ a) := ⟨fun a b hab hba => le_antisymm hba hab⟩
  exact List.eq_of_perm_of_sorted hp h1 h2

/-- Sorting in non-increasing order and keeping the first `k` meets `TopKSpec`. -/
theorem topKSpec_take_sort (live : List Int) (k : Nat) :
    TopKSpec live ((sortDescending live).take k) k := by
  have hs := sortDescending_sorted live
  have hp := sortDescending_perm live
  refine ⟨?_, ?_, ⟨_, hp, hs⟩, ?_, ?_, ?_⟩
  · rw [List.length_take, hp.length_eq]
  · exact List.Pairwise.sublist (List.take_sublist _ _) hs
  · intro L hL hLs
    rw [sorted_desc_unique L (sortDescending live) (hL.trans hp.symm) hLs hs]
    rcases le_total k live.length with h | h
    · rw [min_eq_left h]
    · rw [min_eq_right h, List.take_of_length_le (by rw [hp.length_eq]; exact h),
        List.take_of_length_le (by rw [hp.length_eq])]
  · rw [Multiset.coe_le]
    exact (List.take_sublist _ _).subperm.trans hp.subperm
  · intro x hx y hy
    have hsplit : (live : Multiset Int)
        = ((sortDescending live).take k : Multiset Int)
          + ((sortDescending live).drop k : Multiset Int) := by
      rw [Multiset.coe_add, List.take_append_drop]
      exact (Multiset.coe_eq_coe.mpr hp).symm
    rw [hsplit, add_tsub_cancel_left, Multiset.mem_coe] at hx
    have hpw : (List.take k (sortDescending live) ++ List.drop k (sortDescending live)).Pairwise
        (fun a b => b ≤ a) := by
      rw [List.take_append_drop]
      exact hs
    exact (List.pairwise_append.mp hpw).2.2 y hy x hx

namespace Chaining

theorem foldl_push_balances (chain : List BankAccount) (acc : List Int) :
    chain.foldl (fun bs account => bs ++ [account.balance]) acc
      = acc ++ chain.map (fun account => account.balance) := by
  induction chain generalizing acc with
  | nil => simp
  | cons a chain ih => simp [ih]

theorem foldl_chains (table : List (List BankAccount)) (acc : List Int) :
    table.foldl
        (fun balances chain =>
          chain.foldl (fun bs account => bs ++ [account.balance]) balances) acc
      = acc ++ table.flatten.map (fun account => account.balance) := by
  induction table generalizing acc with
  | nil => simp
  | cons c table ih =>
    rw [List.foldl_cons, foldl_push_balances, ih, List.flatten_cons, List.map_append,
      List.append_assoc]

theorem collectBalances_eq_chain (s : BankingSystem) : collectBalances s = liveBalances s := by
  unfold collectBalances liveBalances
  rw [foldl_chains]
  simp

theorem length_liveBalances_chain (s : BankingSystem) :
    (liveBalances s).length = (s.table.map List.length).sum := by
  unfold liveBalances
  rw [List.length_map, List.length_flatten]

end Chaining

namespace LinearProbing

theorem foldl_slots_linear (table : List (String × Int)) (acc : List Int) :
    table.foldl
        (fun balances entry => if entry.1 ≠ "" then balances ++ [entry.2] else balances) acc
      = acc ++ (table.filter (fun entry => entry.1 ≠ "")).map (fun entry => entry.2) := by
  induction table generalizing acc with
  | nil => simp
  | cons e table ih =>
    by_cases h : e.1 = ""
    · rw [List.foldl_cons, if_neg (not_not.mpr h), ih,
        List.filter_cons_of_neg (by simpa using h)]
    · rw [List.foldl_cons, if_pos h, ih, List.filter_cons_of_pos (by simpa using h),
        List.map_cons, List.append_assoc, List.singleton_append]

theorem collectBalances_eq_linear (s : BankDatabase) : collectBalances s = liveBalances s := by
  unfold collectBalances liveBalances
  rw [foldl_slots_linear]
  simp

theorem length_liveBalances_linear (s : BankDatabase) :
    (liveBalances s).length = s.table.countP (fun entry => entry.1 ≠ "") := by
  unfold liveBalances
  rw [List.length_map, List.countP_eq_length_filter]

end LinearProbing

namespace QuadraticProbing

theorem foldl_slots_quad (table : List BankAccount) (acc : List Int) :
    table.foldl
        (fun balances account =>
          if account.active = true then balances ++ [account.balance] else balances) acc
      = acc ++ (table.filter (fun account => account.active)).map
          (fun account => account.balance) := by
  induction table generalizing acc with
  | nil => simp
  | cons e table ih =>
    by_cases h : e.active = true
    · rw [List.foldl_cons, if_pos h, ih, List.filter_cons_of_pos h,
        List.map_cons, List.append_assoc, List.singleton_append]
    · rw [List.foldl_cons, if_neg h, ih, List.filter_cons_of_neg h]

theorem collectBalances_eq_quad (s : BankingSystem) : collectBalances s = liveBalances s := by
  unfold collectBalances liveBalances
  rw [foldl_slots_quad]
  simp

theorem length_liveBalances_quad (s : BankingSystem) :
    (liveBalances s).length = s.table.countP (fun account => account.active) := by
  unfold liveBalances
  rw [List.length_map, List.countP_eq_length_filter]

end QuadraticProbing

/-- C9. Top-K in the three variants, for `0 <= k` (an `int`): the result meets
`TopKSpec` over the live balances: it has `min(k, n)` elements, is in non-increasing
order, is the first `min(k, n)` elements of the live balances sorted descending, is
contained in them as a multiset, and every omitted live balance is at most every
returned one. The live balances are those of the records in the chains (chaining, `n`
the total chain length), of the slots with a non-empty id (linear), of the slots with
`active == true` (quadratic). -/
theorem C9_topK (c : Chaining.BankingSystem) (l : LinearProbing.BankDatabase)
    (q : QuadraticProbing.BankingSystem) (k : Int) (h0 : 0 ≤ k) (h1 : k < 2 ^ 31) :
    (TopKSpec (Chaining.liveBalances c) (Chaining.getTopBalances c k) k.toNat ∧
      (Chaining.liveBalances c).length = (c.table.map List.length).sum) ∧
    (TopKSpec (LinearProbing.liveBalances l) (LinearProbing.getTopKBalances l k) k.toNat ∧
      (LinearProbing.liveBalances l).length
        = l.table.countP (fun entry => entry.1 ≠ "")) ∧
    (TopKSpec (QuadraticProbing.liveBalances q) (QuadraticProbing.getTopBalances q k)
        k.toNat ∧
      (QuadraticProbing.liveBalances q).length
        = q.table.countP (fun account => account.active)) := by
  refine ⟨⟨?_, Chaining.length_liveBalances_chain c⟩,
    ⟨?_, LinearProbing.length_liveBalances_linear l⟩,
    ⟨?_, QuadraticProbing.length_liveBalances_quad q⟩⟩
  · unfold Chaining.getTopBalances
    rw [Chaining.collectBalances_eq_chain, truncateTo_of_nonneg _ k h0 h1]
    exact topKSpec_take_sort _ _
  · unfold LinearProbing.getTopKBalances
    rw [LinearProbing.collectBalances_eq_linear, truncateTo_of_nonneg _ k h0 h1]
    exact topKSpec_take_sort _ _
  · unfold QuadraticProbing.getTopBalances
    rw [QuadraticProbing.collectBalances_eq_quad, truncateTo_of_nonneg _ k h0 h1]
    exact topKSpec_take_sort _ _

/-- C9 at concrete tables and `k = 2`: three live balances in each variant, the two
largest are returned in descending order. -/
theorem C9_topK_witness :
    ((0 : Int) ≤ 2 ∧ (2 : Int) < 2 ^ 31) ∧
    TopKSpec [500, -100, 1000] [1000, 500] 2 ∧
    Chaining.getTopBalances
      { table := [[⟨"a", 500⟩, ⟨"c", -100⟩], [⟨"b", 1000⟩]], capacity := 2, size := 3 } 2
      = [1000, 500] ∧
    LinearProbing.getTopKBalances
      { table := [("a", 500), ("", 7), ("c", -100), ("b", 1000)], size := 3, capacity := 4 } 2
      = [1000, 500] ∧
    QuadraticProbing.getTopBalances
      { table := [⟨"a", 500, true⟩, ⟨"x", 7, false⟩, ⟨"c", -100, true⟩, ⟨"b", 1000, true⟩],
        capacity := 4, size := 3 } 2
      = [1000, 500] :=
  ⟨⟨by decide, by decide⟩,
    (C9_topK
      { table := [[⟨"a", 500⟩, ⟨"c", -100⟩], [⟨"b", 1000⟩]], capacity := 2, size := 3 }
      { table := [("a", 500), ("", 7), ("c", -100), ("b", 1000)], size := 3, capacity := 4 }
      { table := [⟨"a", 500, true⟩, ⟨"x", 7, false⟩, ⟨"c", -100, true⟩, ⟨"b", 1000, true⟩],
        capacity := 4, size := 3 } 2 (by decide) (by decide)).2.1.1,
    by decide, by decide, by decide⟩

/-- C10, as the code behaves. For a negative `int k` the comparison
`balances.size() > k` converts `k` to `size_t`, a value of at least `2^63`, so nothing is
truncated: `getTopBalances(k)` returns all live balances in descending order (chaining
and quadratic probing; vectors hold fewer than `2^63` elements). For `k = 0` the result
is empty. -/
theorem C10_negative_k_returns_all (c : Chaining.BankingSystem)
    (q : QuadraticProbing.BankingSystem) (k : Int) (hk : k < 0) (hk2 : -2 ^ 31 ≤ k)
    (hc : (Chaining.liveBalances c).length < 2 ^ 63)
    (hq : (QuadraticProbing.liveBalances q).length < 2 ^ 63) :
    Chaining.getTopBalances c k = sortDescending (Chaining.liveBalances c) ∧
    QuadraticProbing.getTopBalances q k = sortDescending (QuadraticProbing.liveBalances q) ∧
    Chaining.getTopBalances c 0 = [] ∧ QuadraticProbing.getTopBalances q 0 = [] := by
  refine ⟨?_, ?_, truncateTo_zero _, truncateTo_zero _⟩
  · unfold Chaining.getTopBalances
    rw [Chaining.collectBalances_eq_chain, truncateTo_of_neg _ k hk hk2]
    rw [(sortDescending_perm _).length_eq]
    exact hc
  · unfold QuadraticProbing.getTopBalances
    rw [QuadraticProbing.collectBalances_eq_quad, truncateTo_of_neg _ k hk hk2]
    rw [(sortDescending_perm _).length_eq]
    exact hq

/-- C10 at the failing input: one live record with balance 100 and `k = -1`; the
result is `[100]`, not the empty sequence. -/
theorem C10_negative_k_returns_all_witness :
    Chaining.getTopBalances
      { table := [[⟨"a", 100⟩]], capacity := 1, size := 1 } (-1) = [100] ∧
    QuadraticProbing.getTopBalances
      { table := [⟨"a", 100, true⟩], capacity := 1, size := 1 } (-1) = [100] ∧
    ([100] : List Int) ≠ [] :=
  ⟨(C10_negative_k_returns_all
      { table := [[⟨"a", 100⟩]], capacity := 1, size := 1 }
      { table := [⟨"a", 100, true⟩], capacity := 1, size := 1 } (-1)
      (by decide) (by decide) (by decide) (by decide)).1,
   (C10_negative_k_returns_all
      { table := [[⟨"a", 100⟩]], capacity := 1, size := 1 }
      { table := [⟨"a", 100, true⟩], capacity := 1, size := 1 } (-1)
      (by decide) (by decide) (by decide) (by decide)).2.1,
   by decide⟩

/-! ## Invariants, full tables and probe sequences -/

namespace Chaining

/-! ### Size consistency -/

theorem sum_map_set (l : List α) (f : α → Nat) (i : Nat) (a : α) (hi : i < l.length) :
    ((l.set i a).map f).sum + f l[i] = (l.map f).sum + f a := by
  induction l generalizing i with
  | nil => simp at hi
  | cons x l ih =>
    cases i with
    | zero => simp; omega
    | succ i =>
      have := ih i (by simpa using hi)
      simp only [List.set_cons_succ, List.map_cons, List.sum_cons, List.getElem_cons_succ]
      omega

theorem chainAt_eq_getElem (s : BankingSystem) (i : Nat) (hi : i < s.table.length) :
    chainAt s i = s.table[i] := by
  unfold chainAt
  simp [List.getD_eq_getElem?_getD, hi]

theorem SizeOK_set (s : BankingSystem) (i : Nat) (c : List BankAccount) (size : Int)
    (hi : i < s.table.length) (hok : SizeOK s)
    (hsz : size + ((chainAt s i).length : Nat) = s.size + (c.length : Nat)) :
    SizeOK { s with table := s.table.set i c, size := size } := by
  unfold SizeOK at hok ⊢
  have h := sum_map_set s.table List.length i c hi
  rw [chainAt_eq_getElem s i hi] at hsz
  simp only
  omega

theorem SizeOK_init (cap : Nat) : SizeOK (BankingSystem.init cap) := by
  unfold SizeOK BankingSystem.init
  simp

theorem SizeOK_createAccount (hashFunc : String → Nat) (s : BankingSystem) (id : String)
    (b : Int) (hs : Sized s) (hok : SizeOK s) : SizeOK (createAccount hashFunc s id b) := by
  by_cases h : lookup hashFunc s id = none
  · rw [createAccount_of_absent hashFunc s id b h]
    apply SizeOK_set s _ _ _ (hashFunction_lt hashFunc s id hs) hok
    rw [List.length_append, List.length_singleton]
    push_cast
    omega
  · rw [createAccount_of_present hashFunc s id b h]
    exact hok

theorem SizeOK_addTransaction (hashFunc : String → Nat) (s : BankingSystem) (id : String)
    (amount : Int) (hs : Sized s) (hok : SizeOK s) :
    SizeOK (addTransaction hashFunc s id amount) := by
  cases h : lookup hashFunc s id with
  | none =>
    rw [addTransaction_of_absent hashFunc s id amount h]
    split
    · exact SizeOK_createAccount hashFunc s id amount hs hok
    · exact hok
  | some a =>
    rw [addTransaction_of_present hashFunc s id amount a h]
    split
    · apply SizeOK_set s _ _ s.size (hashFunction_lt hashFunc s id hs) hok
      rw [List.length_set]
    · exact hok

theorem SizeOK_deleteAccount (hashFunc : String → Nat) (s : BankingSystem) (id : String)
    (hs : Sized s) (hok : SizeOK s) : SizeOK (deleteAccount hashFunc s id).1 := by
  by_cases h : lookup hashFunc s id = none
  · rw [deleteAccount_of_absent hashFunc s id h]
    exact hok
  · rw [deleteAccount_of_present hashFunc s id h]
    apply SizeOK_set s _ _ _ (hashFunction_lt hashFunc s id hs) hok
    have hne := mt (lookup_eq_none_iff hashFunc s id).mpr h
    have hlt : findAccount s id (hashFunction hashFunc s id)
        < (chainAt s (hashFunction hashFunc s id)).length :=
      lt_of_le_of_ne (List.findIdx_le_length _) hne
    have := List.length_eraseIdx_add_one hlt
    omega

theorem reachable_SizeOK (hashFunc : String → Nat) (cap : Nat) (s : BankingSystem)
    (hcap : 0 < cap) (h : Reachable hashFunc cap s) : SizeOK s := by
  induction h with
  | fresh => exact SizeOK_init cap
  | create s id b hr ih =>
    exact SizeOK_createAccount hashFunc s id b (reachable_WF hashFunc cap s hcap hr).1 ih
  | transact s id amount hr ih =>
    exact SizeOK_addTransaction hashFunc s id amount (reachable_WF hashFunc cap s hcap hr).1 ih
  | delete s id hr ih =>
    exact SizeOK_deleteAccount hashFunc s id (reachable_WF hashFunc cap s hcap hr).1 ih

/-- In a well-formed table no id occurs in two records. -/
theorem allIds_nodup (hashFunc : String → Nat) (s : BankingSystem) (hwf : WF hashFunc s) :
    (allIds s).Nodup := by
  unfold allIds
  rw [List.map_flatten, List.nodup_flatten]
  constructor
  · intro l hl
    obtain ⟨chain, hmem, rfl⟩ := List.mem_map.mp hl
    exact hwf.2.2 chain hmem
  · rw [List.pairwise_iff_getElem]
    intro i j hi hj hij
    rw [List.length_map] at hi hj
    simp only [List.getElem_map]
    rw [List.disjoint_left]
    intro x hx1 hx2
    obtain ⟨a1, ha1, rfl⟩ := List.mem_map.mp hx1
    obtain ⟨a2, ha2, he⟩ := List.mem_map.mp hx2
    have h1 := hwf.2.1 i s.table[i] (List.getElem?_eq_getElem hi) a1 ha1
    have h2 := hwf.2.1 j s.table[j] (List.getElem?_eq_getElem hj) a2 ha2
    rw [he] at h2
    omega

theorem accountExists_iff_mem_allIds (hashFunc : String → Nat) (s : BankingSystem)
    (hwf : WF hashFunc s) (id : String) :
    accountExists hashFunc s id = true ↔ id ∈ allIds s := by
  rw [accountExists_eq]
  unfold lookup allIds
  rw [List.find?_isSome, List.mem_map]
  constructor
  · rintro ⟨a, ha, hid⟩
    refine ⟨a, ?_, by simpa using hid⟩
    cases hc : s.table[hashFunction hashFunc s id]? with
    | none =>
      unfold chainAt at ha
      simp [List.getD_eq_getElem?_getD, hc] at ha
    | some c =>
      rw [chainAt_eq_of_getElem? s _ c hc] at ha
      exact List.mem_flatten.mpr ⟨c, List.getElem?_mem hc, ha⟩
  · rintro ⟨a, ha, hid⟩
    obtain ⟨c, hc, hac⟩ := List.mem_flatten.mp ha
    obtain ⟨i, hi⟩ := List.getElem?_of_mem hc
    have hplace := hwf.2.1 i c hi a hac
    rw [hid] at hplace
    refine ⟨a, ?_, by simpa using hid⟩
    have : hashFunction hashFunc s id = i := hplace
    rw [this, chainAt_eq_of_getElem? s i c hi]
    exact hac

/-- C13. Chaining size consistency: in every state reachable from a freshly constructed
table of positive capacity by `createAccount` / `addTransaction` / `deleteAccount`
calls, `totalAccounts()` is the total length of the chains, no id occurs in more than
one record, every record lies in the bucket `hashFunction(id)`, and `totalAccounts()`
is the number of distinct ids for which `accountExists` is true. -/
theorem C13_size_consistency (hashFunc : String → Nat) (cap : Nat) (s : BankingSystem)
    (hcap : 0 < cap) (hr : Reachable hashFunc cap s) :
    totalAccounts s = ((s.table.map List.length).sum : Nat) ∧
    (allIds s).Nodup ∧
    (∀ i chain, s.table[i]? = some chain → ∀ account ∈ chain,
      hashFunction hashFunc s account.id = i) ∧
    (∃ ids : Finset String,
      (∀ id, id ∈ ids ↔ accountExists hashFunc s id = true) ∧
      totalAccounts s = (ids.card : Nat)) := by
  have hwf := reachable_WF hashFunc cap s hcap hr
  have hsz := reachable_SizeOK hashFunc cap s hcap hr
  have hnd := allIds_nodup hashFunc s hwf
  refine ⟨hsz, hnd, hwf.2.1, (allIds s).toFinset, ?_, ?_⟩
  · intro id
    rw [List.mem_toFinset, accountExists_iff_mem_allIds hashFunc s hwf id]
  · rw [List.toFinset_card_of_nodup hnd]
    unfold allIds
    rw [List.length_map, List.length_flatten]
    exact hsz

/-- C13 at a concrete reachable state: capacity 2, string length as hash; "a" and "bb"
created, 5 added to "a", "bb" deleted, 3 deposited to the new id "ccc". -/
theorem C13_size_consistency_witness :
    Reachable String.length 2
      (addTransaction String.length
        (deleteAccount String.length
          (addTransaction String.length
            (createAccount String.length
              (createAccount String.length (BankingSystem.init 2) "a" 1) "bb" 2) "a" 5)
          "bb").1 "ccc" 3) ∧
    totalAccounts
      (addTransaction String.length
        (deleteAccount String.length
          (addTransaction String.length
            (createAccount String.length
              (createAccount String.length (BankingSystem.init 2) "a" 1) "bb" 2) "a" 5)
          "bb").1 "ccc" 3) = 2 :=
  ⟨Reachable.transact _ _ _ (Reachable.delete _ _ (Reachable.transact _ _ _
      (Reachable.create _ _ _ (Reachable.create _ _ _ Reachable.fresh)))),
    (C13_size_consistency String.length 2 _ (by decide)
      (Reachable.transact _ _ _ (Reachable.delete _ _ (Reachable.transact _ _ _
        (Reachable.create _ _ _ (Reachable.create _ _ _ Reachable.fresh)))))).1⟩

end Chaining

namespace LinearProbing

/-! ### Full tables, first match, the empty id -/

theorem bind_of_probe_none (s : BankDatabase) (start : Nat) (id : String)
    (f : Nat → Option β) (h : linearProbe s start id = none) :
    (linearProbe s start id >>= f) = none := by
  rw [h]
  rfl

/-- C12, as the code behaves. In a sized table whose slots all hold non-empty ids, for an
id stored in no slot, the loop of `linearProbe` finds no exit whatever the number of
steps allowed: `createAccount(id, b)` and `accountExists(id)` do not return. -/
theorem C12_full_table_probe_diverges (hashFunc : String → Nat) (s : BankDatabase)
    (id : String) (b : Int) (hs : Sized s) (hfull : ∀ e ∈ s.table, e.1 ≠ "")
    (hns : ∀ e ∈ s.table, e.1 ≠ id) :
    (∀ fuel, linearProbeLoop s.table s.capacity id fuel (hashFunction hashFunc s id) = none) ∧
    createAccount hashFunc s id b = none ∧
    accountExists hashFunc s id = none := by
  have hall : ∀ fuel, linearProbeLoop s.table s.capacity id fuel (hashFunction hashFunc s id)
      = none := fun fuel =>
    linearProbeLoop_all_busy s.table s.capacity id hs.1 (fun e he => ⟨hfull e he, hns e he⟩)
      fuel _ (Nat.mod_lt _ hs.2)
  have hp : linearProbe s (hashFunction hashFunc s id) id = none := hall s.capacity
  refine ⟨hall, ?_, ?_⟩
  · unfold createAccount
    exact bind_of_probe_none s _ id _ hp
  · unfold accountExists
    exact bind_of_probe_none s _ id _ hp

/-- C12 at the failing input: the full table of capacity 1 holding "a" (every hash
function selects slot 0, and `createAccount("a", 1)` on a fresh table produces it);
`createAccount("b", 2)` and `accountExists("b")` do not return. -/
theorem C12_full_table_probe_diverges_witness :
    (∀ hashFunc : String → Nat,
      createAccount hashFunc (BankDatabase.init 1) "a" 1
        = some { table := [("a", 1)], size := 1, capacity := 1 }) ∧
    (∀ hashFunc : String → Nat,
      (∀ fuel, linearProbeLoop [("a", 1)] 1 "b" fuel (hashFunc "b" % 1) = none) ∧
      createAccount hashFunc { table := [("a", 1)], size := 1, capacity := 1 } "b" 2 = none ∧
      accountExists hashFunc { table := [("a", 1)], size := 1, capacity := 1 } "b" = none) :=
  ⟨fun hashFunc => by
      rw [createAccount_of_probe hashFunc _ "a" 1 0 ("", 0)
        (by rw [hashFunction_capacity_one hashFunc _ "a" rfl]; decide) (by decide)]
      rfl,
    fun hashFunc =>
      C12_full_table_probe_diverges hashFunc
        { table := [("a", 1)], size := 1, capacity := 1 } "b" 2
        ⟨by decide, by decide⟩ (by decide) (by decide)⟩

/-- C19. In a sized table, for every start `h < capacity` and every id such that some
slot is empty or holds the id, `linearProbe(h, id)` returns within `capacity` tests of
its loop condition, and it returns the first index in the cyclic order `h, h+1, ...`
(mod `capacity`) whose slot is empty or holds the id: `d + 1 <= capacity` tests suffice
when that slot is `d` steps after `h`. Consequently, for an id stored in
no slot of a table with an empty slot, `createAccount(id, b)` returns and `getBalance(id)`
is `b` afterwards. -/
theorem C19_linearProbe_first_match (hashFunc : String → Nat) (s : BankDatabase)
    (id : String) (start : Nat) (b : Int) (hs : Sized s) (hstart : start < s.capacity)
    (hex : ∃ e ∈ s.table, e.1 = "" ∨ e.1 = id) :
    (∃ d e, d < s.capacity ∧
      linearProbe s start id = some ((start + d) % s.capacity) ∧
      linearProbeLoop s.table s.capacity id (d + 1) start
        = some ((start + d) % s.capacity) ∧
      s.table[(start + d) % s.capacity]? = some e ∧ (e.1 = "" ∨ e.1 = id) ∧
      ∀ d2, d2 < d → ∃ e2, s.table[(start + d2) % s.capacity]? = some e2 ∧
        e2.1 ≠ "" ∧ e2.1 ≠ id) ∧
    ((∀ e ∈ s.table, e.1 ≠ id) → (∃ e ∈ s.table, e.1 = "") →
      ∃ t, createAccount hashFunc s id b = some t ∧ getBalance hashFunc t id = some b) := by
  refine ⟨?_, ?_⟩
  · obtain ⟨d, e, hd, hp, he, hstop, hmin⟩ := linearProbe_terminates s id start hs hstart hex
    exact ⟨d, e, hd, hp,
      linearProbeLoop_first s.table s.capacity id d (d + 1) start (Nat.lt_succ_self d) hstart
        hmin ⟨e, he, hstop⟩,
      he, hstop, hmin⟩
  intro hns hempty
  have hh : hashFunction hashFunc s id < s.capacity := Nat.mod_lt _ hs.2
  obtain ⟨e0, hmem, he0⟩ := hempty
  obtain ⟨d, e, hd, hp, he, hstop, hmin⟩ :=
    linearProbe_terminates s id (hashFunction hashFunc s id) hs hh ⟨e0, hmem, Or.inl he0⟩
  have hse : e.1 = "" := by
    rcases hstop with h | h
    · exact h
    · exact absurd h (hns e (List.getElem?_mem he))
  have hp2 := linearProbe_after_insert s id (hashFunction hashFunc s id) d b (s.size + 1) e hd
    hh he hse hmin
  have hlt : (hashFunction hashFunc s id + d) % s.capacity < s.table.length :=
    (List.getElem?_eq_some_iff.mp he).1
  have he2 : ({ s with
      table := s.table.set ((hashFunction hashFunc s id + d) % s.capacity) (id, b)
      size := s.size + 1 } : BankDatabase).table[(hashFunction hashFunc s id + d) % s.capacity]?
      = some (id, b) := by
    simp [List.getElem?_set, hlt]
  refine ⟨{ s with
      table := s.table.set ((hashFunction hashFunc s id + d) % s.capacity) (id, b)
      size := s.size + 1 }, ?_, ?_⟩
  · rw [createAccount_of_probe hashFunc s id b _ e hp he, if_pos hse]
  · rw [getBalance_of_probe hashFunc _ id _ (id, b) hp2 he2]
    simp

/-- C19 at a concrete table: capacity 3, string length as hash; the probe for "bbbb"
starts at slot 1, passes "a" and stops at the empty slot 2. -/
theorem C19_linearProbe_first_match_witness :
    Sized { table := [("ccc", 7), ("a", 5), ("", 0)], size := 2, capacity := 3 } ∧
    linearProbe { table := [("ccc", 7), ("a", 5), ("", 0)], size := 2, capacity := 3 }
      1 "bbbb" = some 2 ∧
    ∃ t, createAccount String.length
        { table := [("ccc", 7), ("a", 5), ("", 0)], size := 2, capacity := 3 } "bbbb" 9
        = some t ∧
      getBalance String.length t "bbbb" = some 9 :=
  ⟨⟨by decide, by decide⟩, by decide,
    (C19_linearProbe_first_match String.length
      { table := [("ccc", 7), ("a", 5), ("", 0)], size := 2, capacity := 3 } "bbbb" 1 9
      ⟨by decide, by decide⟩ (by decide) (by decide)).2 (by decide) (by decide)⟩

theorem linearProbe_init (cap : Nat) (start : Nat) (id : String) (hstart : start < cap) :
    linearProbe (BankDatabase.init cap) start id = some start ∧
      (BankDatabase.init cap).table[start]? = some ("", 0) := by
  have he : (BankDatabase.init cap).table[start]? = some ("", 0) := by
    simp [BankDatabase.init, List.getElem?_replicate, hstart]
  refine ⟨?_, he⟩
  obtain ⟨n, rfl⟩ : ∃ n, cap = n + 1 := ⟨cap - 1, by omega⟩
  exact linearProbeLoop_stop _ (n + 1) id n start ("", 0) he (Or.inl rfl)

/-- C20, as the code behaves. On a freshly constructed table of any capacity `C > 0`,
every non-empty id is reported absent (`accountExists` false, `getBalance` -1,
`deleteAccount` false with the state unchanged). The empty string is not: the probe
stops at an empty slot, whose id `""` equals the searched id, so `accountExists("")` is
true, `getBalance("")` is 0, and `deleteAccount("")` returns true and leaves
`totalAccounts()` at -1. -/
theorem C20_empty_id_on_fresh_table (hashFunc : String → Nat) (cap : Nat) (hcap : 0 < cap) :
    (∀ id, id ≠ "" →
      accountExists hashFunc (BankDatabase.init cap) id = some false ∧
      getBalance hashFunc (BankDatabase.init cap) id = some (-1) ∧
      deleteAccount hashFunc (BankDatabase.init cap) id
        = some (BankDatabase.init cap, false)) ∧
    accountExists hashFunc (BankDatabase.init cap) "" = some true ∧
    getBalance hashFunc (BankDatabase.init cap) "" = some 0 ∧
    (∃ t, deleteAccount hashFunc (BankDatabase.init cap) "" = some (t, true) ∧
      totalAccounts t = -1) := by
  have hh : ∀ id, hashFunction hashFunc (BankDatabase.init cap) id < cap :=
    fun id => Nat.mod_lt _ hcap
  refine ⟨?_, ?_, ?_, ?_⟩
  · intro id hid
    obtain ⟨hp, he⟩ := linearProbe_init cap _ id (hh id)
    have hne : ¬ (("", 0) : String × Int).1 = id := fun h => hid h.symm
    refine ⟨?_, ?_, ?_⟩
    · rw [accountExists_of_probe hashFunc _ id _ ("", 0) hp he]
      simp [Ne.symm hid]
    · rw [getBalance_of_probe hashFunc _ id _ ("", 0) hp he, if_neg hne]
    · rw [deleteAccount_of_probe hashFunc _ id _ ("", 0) hp he, if_neg hne]
  · obtain ⟨hp, he⟩ := linearProbe_init cap _ "" (hh "")
    rw [accountExists_of_probe hashFunc _ "" _ ("", 0) hp he]
    rfl
  · obtain ⟨hp, he⟩ := linearProbe_init cap _ "" (hh "")
    rw [getBalance_of_probe hashFunc _ "" _ ("", 0) hp he]
    rfl
  · obtain ⟨hp, he⟩ := linearProbe_init cap _ "" (hh "")
    rw [deleteAccount_of_probe hashFunc _ "" _ ("", 0) hp he, if_pos rfl]
    exact ⟨_, rfl, rfl⟩

/-- C20 at the failing input: a fresh table of capacity 1 and the empty string. -/
theorem C20_empty_id_on_fresh_table_witness :
    0 < 1 ∧
    ∀ hashFunc : String → Nat,
      accountExists hashFunc (BankDatabase.init 1) "" = some true ∧
      getBalance hashFunc (BankDatabase.init 1) "" = some 0 ∧
      ∃ t, deleteAccount hashFunc (BankDatabase.init 1) "" = some (t, true) ∧
        totalAccounts t = -1 :=
  ⟨by decide, fun hashFunc => (C20_empty_id_on_fresh_table hashFunc 1 (by decide)).2⟩

end LinearProbing

namespace QuadraticProbing

/-! ### One round of the loop without overflow -/

/-- The arithmetic of one round while `i + 1 <= 46340` and `index < 88048`: nothing
wraps, and the new index is `(index + (i+1)^2) % capacity`. -/
theorem round_arith (n i cap : Nat) (hi : i + 1 ≤ 46340) (hn : n < 88048) :
    wrap32 ((i : Int) + 1) = ((i + 1 : Nat) : Int) ∧
    Int.tmod (wrap32 ((n : Int) + wrap32 (wrap32 ((i : Int) + 1) * wrap32 ((i : Int) + 1))))
        (cap : Int)
      = (((n + (i + 1) * (i + 1)) % cap : Nat) : Int) := by
  have e1 : wrap32 ((i : Int) + 1) = ((i + 1 : Nat) : Int) := by
    rw [wrap32_of_range _ (by omega) (by omega)]
    push_cast
    rfl
  have hsq : (i + 1) * (i + 1) ≤ 46340 * 46340 := Nat.mul_le_mul hi hi
  have e2 : wrap32 (((i + 1 : Nat) : Int) * ((i + 1 : Nat) : Int))
      = (((i + 1) * (i + 1) : Nat) : Int) := by
    rw [← Int.ofNat_mul]
    apply wrap32_of_range <;> omega
  have e3 : wrap32 ((n : Int) + (((i + 1) * (i + 1) : Nat) : Int))
      = ((n + (i + 1) * (i + 1) : Nat) : Int) := by
    rw [← Int.ofNat_add]
    apply wrap32_of_range <;> omega
  refine ⟨e1, ?_⟩
  rw [e1, e2, e3, Int.ofNat_tmod]

theorem findSlotLoop_round (table : List BankAccount) (cap : Nat) (id : String)
    (fuel n i : Nat) (account : BankAccount) (hi : i + 1 ≤ 46340) (hn : n < 88048)
    (hs : table[n]? = some account) (hact : account.active = true) (hid : account.id ≠ id) :
    findSlotLoop table (cap : Int) id (fuel + 1) (n : Int) (i : Int)
      = if cap ≤ i + 1 then some (-1)
        else findSlotLoop table (cap : Int) id fuel
          (((n + (i + 1) * (i + 1)) % cap : Nat) : Int) ((i + 1 : Nat) : Int) := by
  conv => lhs; unfold findSlotLoop
  rw [slotAt_natCast, hs]
  simp only
  obtain ⟨e1, e2⟩ := round_arith n i cap hi hn
  rw [if_pos ⟨hact, hid⟩, e2, e1]
  by_cases hc : cap ≤ i + 1
  · rw [if_pos hc, if_pos (by omega)]
  · rw [if_neg hc, if_neg (by omega)]

theorem findSlotReads_round (table : List BankAccount) (cap : Nat) (id : String)
    (fuel n i : Nat) (account : BankAccount) (hi : i + 1 ≤ 46340) (hn : n < 88048)
    (hs : table[n]? = some account) (hact : account.active = true) (hid : account.id ≠ id) :
    findSlotReads table (cap : Int) id (fuel + 1) (n : Int) (i : Int)
      = (n : Int) :: (if cap ≤ i + 1 then []
        else findSlotReads table (cap : Int) id fuel
          (((n + (i + 1) * (i + 1)) % cap : Nat) : Int) ((i + 1 : Nat) : Int)) := by
  conv => lhs; unfold findSlotReads
  rw [slotAt_natCast, hs]
  simp only
  obtain ⟨e1, e2⟩ := round_arith n i cap hi hn
  rw [if_pos ⟨hact, hid⟩, e2, e1]
  by_cases hc : cap ≤ i + 1
  · rw [if_pos hc, if_pos (by omega)]
  · rw [if_neg hc, if_neg (by omega)]

theorem findSlotReads_stop (table : List BankAccount) (capacity : Int) (id : String)
    (fuel : Nat) (index i : Int) (account : BankAccount)
    (h : slotAt table index = some account)
    (hstop : ¬(account.active = true ∧ account.id ≠ id)) :
    findSlotReads table capacity id (fuel + 1) index i = [index] := by
  unfold findSlotReads
  rw [h]
  simp only
  rw [if_neg hstop]


/-! ### Capacities up to 46340: the loop stays inside the table -/

/-- For a table of `cap <= 46340` slots, from every loop head `(n, i)` with `n < cap`
and `i < cap`: the loop returns `-1` or an in-range index whose slot is inactive or
holds `id`; every index it reads is in `[0, cap)`; it reads at most `cap - i` slots. -/
theorem findSlotLoop_safe (table : List BankAccount) (cap : Nat) (id : String)
    (hlen : table.length = cap) (hcap : cap ≤ 46340) :
    ∀ (fuel n i : Nat), n < cap → i < cap → cap ≤ i + fuel →
      (∃ r, findSlotLoop table (cap : Int) id fuel (n : Int) (i : Int) = some r ∧
        (r = -1 ∨ ∃ (m : Nat) (account : BankAccount), r = (m : Int) ∧ m < cap ∧
          table[m]? = some account ∧ ¬(account.active = true ∧ account.id ≠ id))) ∧
      (∀ idx ∈ findSlotReads table (cap : Int) id fuel (n : Int) (i : Int),
        0 ≤ idx ∧ idx < (cap : Int)) ∧
      (findSlotReads table (cap : Int) id fuel (n : Int) (i : Int)).length + i ≤ cap := by
  intro fuel
  induction fuel with
  | zero => intro n i _ hi hle; omega
  | succ f ih =>
    intro n i hn hi hle
    have hlt : n < table.length := by rw [hlen]; exact hn
    have hs : table[n]? = some table[n] := List.getElem?_eq_getElem hlt
    by_cases hgo : table[n].active = true ∧ table[n].id ≠ id
    · rw [findSlotLoop_round table cap id f n i table[n] (by omega) (by omega) hs hgo.1 hgo.2,
        findSlotReads_round table cap id f n i table[n] (by omega) (by omega) hs hgo.1 hgo.2]
      by_cases hc : cap ≤ i + 1
      · rw [if_pos hc, if_pos hc]
        refine ⟨⟨-1, rfl, Or.inl rfl⟩, ?_, ?_⟩
        · intro idx hidx
          rw [List.mem_singleton] at hidx
          subst hidx
          omega
        · simp only [List.length_singleton]
          omega
      · rw [if_neg hc, if_neg hc]
        obtain ⟨h1, h2, h3⟩ := ih ((n + (i + 1) * (i + 1)) % cap) (i + 1)
          (Nat.mod_lt _ (by omega)) (by omega) (by omega)
        refine ⟨h1, ?_, ?_⟩
        · intro idx hidx
          rcases List.mem_cons.mp hidx with h | h
          · subst h
            omega
          · exact h2 idx h
        · rw [List.length_cons]
          omega
    · rw [findSlotLoop_stop table _ id f _ _ table[n] (by rw [slotAt_natCast]; exact hs) hgo,
        findSlotReads_stop table _ id f _ _ table[n] (by rw [slotAt_natCast]; exact hs) hgo]
      refine ⟨⟨n, rfl, Or.inr ⟨n, table[n], rfl, hn, hs, hgo⟩⟩, ?_, ?_⟩
      · intro idx hidx
        rw [List.mem_singleton] at hidx
        subst hidx
        omega
      · simp only [List.length_singleton]
        omega

/-- `findSlot` in a sized table of capacity at most 46340 is bounded and index-safe. -/
theorem findSlot_safe (hashFunc : String → Nat) (s : BankingSystem) (id : String)
    (hs : Sized s) (hcap : s.capacity ≤ 46340) :
    (∃ r, findSlot hashFunc s id = some r ∧
      (r = -1 ∨ ∃ (m : Nat) (account : BankAccount), r = (m : Int) ∧ m < s.capacity ∧
        s.table[m]? = some account ∧ ¬(account.active = true ∧ account.id ≠ id))) ∧
    (∀ idx ∈ findSlotTrace hashFunc s id, 0 ≤ idx ∧ idx < (s.capacity : Int)) ∧
    (findSlotTrace hashFunc s id).length ≤ s.capacity := by
  have h := findSlotLoop_safe s.table s.capacity id hs.1 hcap s.capacity
    (hashFunction hashFunc s id) 0 (Nat.mod_lt _ hs.2) hs.2 (by omega)
  exact ⟨h.1, h.2.1, by simpa using h.2.2⟩

/-- In a table of `cap <= 46340` slots that are all active and none of which holds
`id`, the loop reports the table full. -/
theorem findSlotLoop_full (table : List BankAccount) (cap : Nat) (id : String)
    (hlen : table.length = cap) (hcap : cap ≤ 46340)
    (hbusy : ∀ account ∈ table, account.active = true ∧ account.id ≠ id) :
    ∀ (fuel n i : Nat), n < cap → i < cap → cap ≤ i + fuel →
      findSlotLoop table (cap : Int) id fuel (n : Int) (i : Int) = some (-1) := by
  intro fuel
  induction fuel with
  | zero => intro n i _ hi hle; omega
  | succ f ih =>
    intro n i hn hi hle
    have hlt : n < table.length := by rw [hlen]; exact hn
    have hs : table[n]? = some table[n] := List.getElem?_eq_getElem hlt
    obtain ⟨hact, hid⟩ := hbusy table[n] (List.getElem_mem hlt)
    rw [findSlotLoop_round table cap id f n i table[n] (by omega) (by omega) hs hact hid]
    by_cases hc : cap ≤ i + 1
    · rw [if_pos hc]
    · rw [if_neg hc]
      exact ih _ (i + 1) (Nat.mod_lt _ (by omega)) (by omega) (by omega)

theorem createAccount_of_full (hashFunc : String → Nat) (s : BankingSystem) (id : String)
    (b : Int) (h : findSlot hashFunc s id = some (-1)) :
    createAccount hashFunc s id b = some s ∧ accountExists hashFunc s id = some false := by
  unfold createAccount accountExists
  simp [h]

/-- In a sized table of capacity at most 46340 whose slots are all active and none of
which holds `id`, `createAccount(id, b)` returns and changes nothing, and
`accountExists(id)` is false. -/
theorem createAccount_full_small (hashFunc : String → Nat) (s : BankingSystem)
    (id : String) (b : Int) (hs : Sized s) (hcap : s.capacity ≤ 46340)
    (hact : ∀ account ∈ s.table, account.active = true)
    (hns : ∀ account ∈ s.table, account.id ≠ id) :
    createAccount hashFunc s id b = some s ∧ accountExists hashFunc s id = some false := by
  apply createAccount_of_full
  exact findSlotLoop_full s.table s.capacity id hs.1 hcap
    (fun account h => ⟨hact account h, hns account h⟩) s.capacity
    (hashFunction hashFunc s id) 0 (Nat.mod_lt _ hs.2) hs.2 (by omega)

/-! ### Capacity 46343: `i * i` overflows and the index leaves the table -/

theorem findSlotLoop_busy_step (table : List BankAccount) (capacity : Int) (id : String)
    (fuel : Nat) (index i : Int) (account : BankAccount)
    (hs : slotAt table index = some account)
    (hact : account.active = true) (hid : account.id ≠ id) :
    findSlotLoop table capacity id (fuel + 1) index i
      = if wrap32 (i + 1) ≥ capacity then some (-1)
        else findSlotLoop table capacity id fuel
          (Int.tmod (wrap32 (index + wrap32 (wrap32 (i + 1) * wrap32 (i + 1)))) capacity)
          (wrap32 (i + 1)) := by
  conv => lhs; unfold findSlotLoop
  rw [hs]
  simp only
  rw [if_pos ⟨hact, hid⟩]

theorem findSlotReads_busy_step (table : List BankAccount) (capacity : Int) (id : String)
    (fuel : Nat) (index i : Int) (account : BankAccount)
    (hs : slotAt table index = some account)
    (hact : account.active = true) (hid : account.id ≠ id) :
    findSlotReads table capacity id (fuel + 1) index i
      = index :: (if wrap32 (i + 1) ≥ capacity then []
        else findSlotReads table capacity id fuel
          (Int.tmod (wrap32 (index + wrap32 (wrap32 (i + 1) * wrap32 (i + 1)))) capacity)
          (wrap32 (i + 1))) := by
  conv => lhs; unfold findSlotReads
  rw [hs]
  simp only
  rw [if_pos ⟨hact, hid⟩]

theorem slotAt_neg (table : List BankAccount) (index : Int) (h : index < 0) :
    slotAt table index = none := by
  unfold slotAt
  rw [if_neg (by omega)]

theorem findSlotLoop_outside (table : List BankAccount) (capacity : Int) (id : String)
    (fuel : Nat) (index i : Int) (h : slotAt table index = none) :
    findSlotLoop table capacity id (fuel + 1) index i = none ∧
      findSlotReads table capacity id (fuel + 1) index i = [index] := by
  constructor
  · unfold findSlotLoop
    rw [h]
  · unfold findSlotReads
    rw [h]

theorem tmod_neg_natCast (a c : Nat) :
    Int.tmod (-(a : Int)) (c : Int) = -((a % c : Nat) : Int) := by
  cases a with
  | zero => simp
  | succ m => rfl

/-- While `i + k <= 46340` nothing overflows: `k` rounds over busy slots lead from the
loop head `(n, i)` to a loop head `(n2, i + k)` with `n2` in range. -/
theorem busy_run (table : List BankAccount) (cap : Nat) (id : String)
    (hlen : table.length = cap) (hcap : cap ≤ 88048)
    (hbusy : ∀ account ∈ table, account.active = true ∧ account.id ≠ id) (fuel : Nat) :
    ∀ (k n i : Nat), n < cap → i + k ≤ 46340 → i + k < cap →
      ∃ n2, n2 < cap ∧
        findSlotLoop table (cap : Int) id (k + fuel) (n : Int) (i : Int)
          = findSlotLoop table (cap : Int) id fuel (n2 : Int) ((i + k : Nat) : Int) ∧
        ∀ idx ∈ findSlotReads table (cap : Int) id fuel (n2 : Int) ((i + k : Nat) : Int),
          idx ∈ findSlotReads table (cap : Int) id (k + fuel) (n : Int) (i : Int) := by
  intro k
  induction k with
  | zero =>
    intro n i hn _ _
    refine ⟨n, hn, ?_, ?_⟩
    · rw [Nat.zero_add, Nat.add_zero]
    · intro idx h
      rw [Nat.zero_add]
      rw [Nat.add_zero] at h
      exact h
  | succ k ih =>
    intro n i hn hik hik2
    have hlt : n < table.length := by rw [hlen]; exact hn
    have hs : table[n]? = some table[n] := List.getElem?_eq_getElem hlt
    obtain ⟨hact, hid⟩ := hbusy table[n] (List.getElem_mem hlt)
    obtain ⟨n2, hn2, h1, h2⟩ := ih ((n + (i + 1) * (i + 1)) % cap) (i + 1)
      (Nat.mod_lt _ (by omega)) (by omega) (by omega)
    have hfuel : k + 1 + fuel = (k + fuel) + 1 := by omega
    have hidx : i + 1 + k = i + (k + 1) := by omega
    rw [hidx] at h1 h2
    refine ⟨n2, hn2, ?_, ?_⟩
    · rw [hfuel, findSlotLoop_round table cap id (k + fuel) n i table[n] (by omega) (by omega)
        hs hact hid, if_neg (by omega)]
      exact h1
    · intro idx h
      rw [hfuel, findSlotReads_round table cap id (k + fuel) n i table[n] (by omega)
        (by omega) hs hact hid, if_neg (by omega)]
      exact List.mem_cons_of_mem _ (h2 idx h)

/-- The three rounds after `i = 46340` in a busy table of 46343 slots: `46341 * 46341`
wraps to a negative `int`, the index becomes non-positive, and at the latest one round
later a slot with a negative index is read. -/
theorem overflow_tail (table : List BankAccount) (id : String)
    (hlen : table.length = 46343)
    (hbusy : ∀ account ∈ table, account.active = true ∧ account.id ≠ id)
    (n : Nat) (hn : n < 46343) :
    findSlotLoop table (46343 : Int) id 3 (n : Int) (46340 : Int) = none ∧
      ∃ idx ∈ findSlotReads table (46343 : Int) id 3 (n : Int) (46340 : Int), idx < 0 := by
  have hslot : ∀ m : Nat, m < 46343 → ∃ account, slotAt table (m : Int) = some account ∧
      account.active = true ∧ account.id ≠ id := by
    intro m hm
    have hlt : m < table.length := by rw [hlen]; exact hm
    exact ⟨table[m], by rw [slotAt_natCast]; exact List.getElem?_eq_getElem hlt,
      hbusy table[m] (List.getElem_mem hlt)⟩
  have w1 : wrap32 ((46340 : Int) + 1) = 46341 := by decide
  have w2 : wrap32 ((46341 : Int) * 46341) = -2147479015 := by decide
  have w3 : wrap32 ((46341 : Int) + 1) = 46342 := by decide
  have w4 : wrap32 ((46342 : Int) * 46342) = -2147386332 := by decide
  have w5 : Int.tmod (wrap32 ((0 : Int) + -2147386332)) 46343 = -37084 := by decide
  have w6 : wrap32 ((n : Int) + -2147479015) = -((2147479015 - n : Nat) : Int) := by
    rw [wrap32_of_range _ (by omega) (by omega)]
    omega
  have w7 : Int.tmod (-((2147479015 - n : Nat) : Int)) (46343 : Int)
      = -(((2147479015 - n) % 46343 : Nat) : Int) :=
    tmod_neg_natCast (2147479015 - n) 46343
  obtain ⟨a0, hs0, hact0, hid0⟩ := hslot n hn
  have step1 := findSlotLoop_busy_step table 46343 id 2 n 46340 a0 hs0 hact0 hid0
  have read1 := findSlotReads_busy_step table 46343 id 2 n 46340 a0 hs0 hact0 hid0
  rw [w1, w2, w6, w7, if_neg (by decide)] at step1 read1
  rw [step1, read1]
  by_cases hr : (2147479015 - n) % 46343 = 0
  · -- the index is 0: one more round, then a negative index
    rw [hr]
    obtain ⟨b0, hsb, hactb, hidb⟩ := hslot 0 (by omega)
    have hz : (-((0 : Nat) : Int)) = ((0 : Nat) : Int) := by simp
    rw [hz]
    have step2 := findSlotLoop_busy_step table 46343 id 1 ((0 : Nat) : Int) 46341 b0 hsb
      hactb hidb
    have read2 := findSlotReads_busy_step table 46343 id 1 ((0 : Nat) : Int) 46341 b0 hsb
      hactb hidb
    have hz2 : (((0 : Nat) : Int)) = (0 : Int) := by simp
    rw [w3, w4, hz2, w5, if_neg (by decide)] at step2 read2
    rw [hz2]
    have hout := findSlotLoop_outside table 46343 id 0 (-37084) 46342
      (slotAt_neg table _ (by decide))
    rw [step2, read2, hout.1, hout.2]
    exact ⟨rfl, -37084, by simp, by decide⟩
  · -- the index is negative at once
    have hneg : -(((2147479015 - n) % 46343 : Nat) : Int) < 0 := by omega
    have hout := findSlotLoop_outside table 46343 id 1
      (-(((2147479015 - n) % 46343 : Nat) : Int)) 46341 (slotAt_neg table _ hneg)
    rw [hout.1, hout.2]
    exact ⟨rfl, _, by simp, hneg⟩

/-- In a table of 46343 slots that are all active and none of which holds `id`,
`findSlot(id)` reads a slot with a negative index, whatever the hash of `id`. -/
theorem findSlot_overflow (hashFunc : String → Nat) (s : BankingSystem) (id : String)
    (hcap : s.capacity = 46343) (hlen : s.table.length = 46343)
    (hbusy : ∀ account ∈ s.table, account.active = true ∧ account.id ≠ id) :
    findSlot hashFunc s id = none ∧ ∃ idx ∈ findSlotTrace hashFunc s id, idx < 0 := by
  unfold findSlot findSlotTrace
  rw [hcap]
  have hh : hashFunction hashFunc s id < 46343 := by
    unfold hashFunction
    rw [hcap]
    exact Nat.mod_lt _ (by decide)
  obtain ⟨n2, hn2, h1, h2⟩ := busy_run s.table 46343 id hlen (by decide) hbusy 3 46340
    (hashFunction hashFunc s id) 0 hh (by decide) (by decide)
  obtain ⟨t1, idx, hidx, hneg⟩ := overflow_tail s.table id hlen hbusy n2 hn2
  constructor
  · exact h1.trans t1
  · exact ⟨idx, h2 idx hidx, hneg⟩


theorem fullTable_busy (cap : Nat) (id : String) (hid : id ≠ "x") :
    ∀ account ∈ (fullTable cap).table, account.active = true ∧ account.id ≠ id := by
  intro account h
  rw [List.eq_of_mem_replicate h]
  exact ⟨rfl, fun e => hid e.symm⟩

theorem ops_of_findSlot_none (hashFunc : String → Nat) (s : BankingSystem) (id : String)
    (b : Int) (h : findSlot hashFunc s id = none) :
    createAccount hashFunc s id b = none ∧ accountExists hashFunc s id = none := by
  unfold createAccount accountExists
  rw [h]
  exact ⟨rfl, rfl⟩

/-- C11 at the failing input: in the table of capacity 46343 whose slots are all active
and hold "x", for the id "y" (stored in no slot) and every hash function, `createAccount`
and `accountExists` read a slot with a negative index instead of returning: at
`i = 46341` the product `i * i` exceeds the `int` range. -/
theorem C11_counterexample :
    (∀ account ∈ (fullTable 46343).table, account.active = true ∧ account.id ≠ "y") ∧
    ∀ hashFunc : String → Nat,
      createAccount hashFunc (fullTable 46343) "y" 1 = none ∧
      accountExists hashFunc (fullTable 46343) "y" = none ∧
      ∃ idx ∈ findSlotTrace hashFunc (fullTable 46343) "y", idx < 0 := by
  refine ⟨fullTable_busy 46343 "y" (by decide), ?_⟩
  intro hashFunc
  have h := findSlot_overflow hashFunc (fullTable 46343) "y" rfl
    (List.length_replicate _ _) (fullTable_busy 46343 "y" (by decide))
  have h2 := ops_of_findSlot_none hashFunc (fullTable 46343) "y" 1 h.1
  exact ⟨h2.1, h2.2, h.2⟩

/-- C11, as the code behaves (`int` arithmetic wrapping at 32 bits). In a sized table
whose slots are all active and none of which holds `id`: for capacity at most 46340,
`createAccount(id, b)` returns, leaves every slot and `size` unchanged, and
`accountExists(id)` is false; for capacity 46343 neither call fails cleanly: `findSlot`
never reaches its `return -1`, it reads a slot with a negative index. -/
theorem C11_full_table_create (hashFunc : String → Nat) (s : BankingSystem)
    (id : String) (b : Int) (hs : Sized s)
    (hact : ∀ account ∈ s.table, account.active = true)
    (hns : ∀ account ∈ s.table, account.id ≠ id) :
    (s.capacity ≤ 46340 →
      createAccount hashFunc s id b = some s ∧ accountExists hashFunc s id = some false) ∧
    (s.capacity = 46343 →
      createAccount hashFunc s id b = none ∧ accountExists hashFunc s id = none ∧
      ∃ idx ∈ findSlotTrace hashFunc s id, idx < 0) := by
  constructor
  · intro hcap
    exact createAccount_full_small hashFunc s id b hs hcap hact hns
  · intro hcap
    have h := findSlot_overflow hashFunc s id hcap (by rw [hs.1, hcap])
      (fun account hmem => ⟨hact account hmem, hns account hmem⟩)
    have h2 := ops_of_findSlot_none hashFunc s id b h.1
    exact ⟨h2.1, h2.2, h.2⟩

/-- C11 at concrete inputs: a full table of capacity 3 (the create fails cleanly), and
the failing input, the full table of capacity 46343 probed for "y". -/
theorem C11_full_table_create_witness :
    (Sized { table := [⟨"a", 1, true⟩, ⟨"b", 2, true⟩, ⟨"c", 3, true⟩],
             capacity := 3, size := 3 } ∧
      createAccount String.length
        { table := [⟨"a", 1, true⟩, ⟨"b", 2, true⟩, ⟨"c", 3, true⟩],
          capacity := 3, size := 3 }
        "dd" 4
        = some { table := [⟨"a", 1, true⟩, ⟨"b", 2, true⟩, ⟨"c", 3, true⟩],
                 capacity := 3, size := 3 } ∧
      accountExists String.length
        { table := [⟨"a", 1, true⟩, ⟨"b", 2, true⟩, ⟨"c", 3, true⟩],
          capacity := 3, size := 3 }
        "dd" = some false) ∧
    (Sized (fullTable 46343) ∧
      createAccount String.length (fullTable 46343) "y" 1 = none ∧
      accountExists String.length (fullTable 46343) "y" = none ∧
      ∃ idx ∈ findSlotTrace String.length (fullTable 46343) "y", idx < 0) :=
  ⟨⟨⟨by decide, by decide⟩,
      (C11_full_table_create String.length
        { table := [⟨"a", 1, true⟩, ⟨"b", 2, true⟩, ⟨"c", 3, true⟩],
          capacity := 3, size := 3 }
        "dd" 4 ⟨by decide, by decide⟩ (by decide) (by decide)).1 (by decide)⟩,
    ⟨⟨List.length_replicate _ _, by decide⟩,
      (C11_full_table_create String.length (fullTable 46343) "y" 1
        ⟨List.length_replicate _ _, by decide⟩
        (fun account hmem => (fullTable_busy 46343 "y" (by decide) account hmem).1)
        (fun account hmem => (fullTable_busy 46343 "y" (by decide) account hmem).2)).2 rfl⟩⟩

/-! ### The recorded reads and the result of the loop -/

/-- The list of reads belongs to the same run as `findSlotLoop`: an index the loop
returns is the last slot it read. -/
theorem findSlotLoop_last_read (table : List BankAccount) (capacity : Int) (id : String) :
    ∀ (fuel : Nat) (index i r : Int),
      findSlotLoop table capacity id fuel index i = some r →
      r = -1 ∨ (findSlotReads table capacity id fuel index i).getLast? = some r := by
  intro fuel
  induction fuel with
  | zero =>
    intro index i r h
    simp [findSlotLoop] at h
  | succ f ih =>
    intro index i r h
    cases hs : slotAt table index with
    | none =>
      rw [(findSlotLoop_outside table capacity id f index i hs).1] at h
      cases h
    | some account =>
      by_cases hgo : account.active = true ∧ account.id ≠ id
      · rw [findSlotLoop_busy_step table capacity id f index i account hs hgo.1 hgo.2] at h
        rw [findSlotReads_busy_step table capacity id f index i account hs hgo.1 hgo.2]
        by_cases hc : wrap32 (i + 1) ≥ capacity
        · rw [if_pos hc] at h
          left
          exact (Option.some.inj h).symm
        · rw [if_neg hc] at h ⊢
          rcases ih _ _ r h with h1 | h1
          · exact Or.inl h1
          · right
            rw [List.getLast?_cons, h1]
            rfl
      · rw [findSlotLoop_stop table capacity id f index i account hs hgo] at h
        rw [findSlotReads_stop table capacity id f index i account hs hgo]
        right
        rw [List.getLast?_singleton]
        exact h

/-! ### The probe sequence -/

theorem six_sumSquares (n : Nat) : 6 * sumSquares n = n * (n + 1) * (2 * n + 1) := by
  induction n with
  | zero => rfl
  | succ n ih =>
    unfold sumSquares
    rw [Nat.mul_add, ih]
    ring

/-- From a loop head whose index is `(h + sumSquares i) % cap`, the `j`-th read of the
loop is at `(h + sumSquares (i + j)) % cap` (capacities up to 46340, no overflow). -/
theorem findSlotReads_sumSquares (table : List BankAccount) (cap : Nat) (id : String)
    (h : Nat) (hlen : table.length = cap) (hcap : cap ≤ 46340) :
    ∀ (fuel i j : Nat), i < cap →
      j < (findSlotReads table (cap : Int) id fuel
        (((h + sumSquares i) % cap : Nat) : Int) (i : Int)).length →
      (findSlotReads table (cap : Int) id fuel
        (((h + sumSquares i) % cap : Nat) : Int) (i : Int))[j]?
        = some (((h + sumSquares (i + j)) % cap : Nat) : Int) := by
  intro fuel
  induction fuel with
  | zero =>
    intro i j _ hj
    simp [findSlotReads] at hj
  | succ f ih =>
    intro i j hi hj
    have hn : (h + sumSquares i) % cap < cap := Nat.mod_lt _ (by omega)
    have hlt : (h + sumSquares i) % cap < table.length := by rw [hlen]; exact hn
    have hs : table[(h + sumSquares i) % cap]? = some table[(h + sumSquares i) % cap] :=
      List.getElem?_eq_getElem hlt
    by_cases hgo : table[(h + sumSquares i) % cap].active = true ∧
        table[(h + sumSquares i) % cap].id ≠ id
    · have hround := findSlotReads_round table cap id f ((h + sumSquares i) % cap) i _
        (by omega) (by omega) hs hgo.1 hgo.2
      rw [hround] at hj ⊢
      cases j with
      | zero => simp
      | succ j =>
        by_cases hc : cap ≤ i + 1
        · rw [if_pos hc] at hj
          simp at hj
        · rw [if_neg hc] at hj ⊢
          have hnext : ((h + sumSquares i) % cap + (i + 1) * (i + 1)) % cap
              = (h + sumSquares (i + 1)) % cap := by
            rw [Nat.mod_add_mod, Nat.add_assoc]
            rfl
          rw [hnext] at hj ⊢
          rw [List.getElem?_cons_succ]
          have := ih (i + 1) j (by omega) (by simpa using hj)
          rw [this, show i + 1 + j = i + (j + 1) by omega]
    · have hstop := findSlotReads_stop table (cap : Int) id f _ (i : Int) _
        (by rw [slotAt_natCast]; exact hs) hgo
      rw [hstop] at hj ⊢
      have hj0 : j = 0 := by simpa using hj
      subst hj0
      simp

/-- C15 at the failing input: in the table of capacity 7 whose slots are all active and hold
"x", for the id "y" and every hash function with `h = hash("y") % 7`, the slot examined
at `i = 2` is `(h + 5) % 7`, not `(h + 2*2) % 7`. -/
theorem C15_counterexample :
    (∀ account ∈ (fullTable 7).table, account.active = true ∧ account.id ≠ "y") ∧
    ∀ hashFunc : String → Nat,
      (findSlotTrace hashFunc (fullTable 7) "y")[2]?
        = some (((hashFunc "y" % 7 + 5) % 7 : Nat) : Int) ∧
      (((hashFunc "y" % 7 + 5) % 7 : Nat) : Int)
        ≠ (((hashFunc "y" % 7 + 2 * 2) % 7 : Nat) : Int) := by
  refine ⟨fullTable_busy 7 "y" (by decide), ?_⟩
  intro hashFunc
  have hh : hashFunc "y" % 7 < 7 := Nat.mod_lt _ (by decide)
  have key : ∀ h : Nat, h < 7 →
      (findSlotReads (fullTable 7).table (7 : Nat) "y" 7 (h : Nat) 0)[2]?
        = some (((h + 5) % 7 : Nat) : Int) ∧
      (((h + 5) % 7 : Nat) : Int) ≠ (((h + 2 * 2) % 7 : Nat) : Int) := by
    decide
  exact key _ hh

/-- C15, as the code behaves. In a sized table of capacity `C <= 46340` (no `int`
overflow), for a key with hash slot `h`, the `i`-th slot examined by `findSlot`
(`i = 0, 1, 2, ...` while the loop continues) is `(h + 1^2 + 2^2 + ... + i^2) mod C`, that
is `(h + i(i+1)(2i+1)/6) mod C`: `h, h+1, h+5, h+14, ...`, not `(h + i*i) mod C`. The
offsets accumulate because the loop adds `i*i` to the previous index instead of to the
hash. -/
theorem C15_probe_sequence_cumulative (hashFunc : String → Nat) (s : BankingSystem)
    (id : String) (i : Nat) (hs : Sized s) (hcap : s.capacity ≤ 46340)
    (hi : i < (findSlotTrace hashFunc s id).length) :
    (findSlotTrace hashFunc s id)[i]?
        = some (((hashFunction hashFunc s id + sumSquares i) % s.capacity : Nat) : Int) ∧
      6 * sumSquares i = i * (i + 1) * (2 * i + 1) := by
  refine ⟨?_, six_sumSquares i⟩
  have h0 : (hashFunction hashFunc s id + sumSquares 0) % s.capacity
      = hashFunction hashFunc s id := by
    show (hashFunction hashFunc s id + 0) % s.capacity = _
    rw [Nat.add_zero]
    exact Nat.mod_eq_of_lt (Nat.mod_lt _ hs.2)
  have key := findSlotReads_sumSquares s.table s.capacity id (hashFunction hashFunc s id)
    hs.1 hcap s.capacity 0 i hs.2
  rw [h0, Nat.zero_add] at key
  exact key hi

/-- C15 at a concrete table: capacity 7, all slots active, string length as
hash (so `h = 1` for "y"); the third slot examined is `(1 + 5) % 7 = 6`. -/
theorem C15_probe_sequence_cumulative_witness :
    Sized (fullTable 7) ∧ 2 < (findSlotTrace String.length (fullTable 7) "y").length ∧
    (findSlotTrace String.length (fullTable 7) "y")[2]? = some 6 :=
  ⟨⟨by decide, by decide⟩, by decide,
    (C15_probe_sequence_cumulative String.length (fullTable 7) "y" 2
      ⟨by decide, by decide⟩ (by decide) (by decide)).1⟩

/-- C16, as the code behaves (`int` arithmetic wrapping at 32 bits). In a sized table of
capacity `C <= 46340`, `findSlot` is bounded and index-safe: it reads at most `C` slots,
every index it reads lies in `[0, C)`, and it returns `-1` or an index in `[0, C)` whose
slot is inactive or holds exactly `id`. For `C = 46343` it is not: when every slot is
active and none holds `id`, `findSlot` reads a slot with a negative index. -/
theorem C16_findSlot_index_safety (hashFunc : String → Nat) (s : BankingSystem)
    (id : String) (hs : Sized s) :
    (s.capacity ≤ 46340 →
      (∃ r, findSlot hashFunc s id = some r ∧
        (r = -1 ∨ ∃ (m : Nat) (account : BankAccount), r = (m : Int) ∧ m < s.capacity ∧
          s.table[m]? = some account ∧ ¬(account.active = true ∧ account.id ≠ id))) ∧
      (∀ idx ∈ findSlotTrace hashFunc s id, 0 ≤ idx ∧ idx < (s.capacity : Int)) ∧
      (findSlotTrace hashFunc s id).length ≤ s.capacity) ∧
    (s.capacity = 46343 →
      (∀ account ∈ s.table, account.active = true ∧ account.id ≠ id) →
      findSlot hashFunc s id = none ∧ ∃ idx ∈ findSlotTrace hashFunc s id, idx < 0) := by
  constructor
  · intro hcap
    exact findSlot_safe hashFunc s id hs hcap
  · intro hcap hbusy
    exact findSlot_overflow hashFunc s id hcap (by rw [hs.1, hcap]) hbusy

/-- C16 at concrete inputs: a table of capacity 3 (safe), and the failing input, the
table of capacity 46343 whose slots are all active and hold "x", probed for "y". -/
theorem C16_findSlot_index_safety_witness :
    (Sized (fullTable 3) ∧
      ∀ idx ∈ findSlotTrace String.length (fullTable 3) "y", 0 ≤ idx ∧ idx < 3) ∧
    (Sized (fullTable 46343) ∧
      findSlot String.length (fullTable 46343) "y" = none ∧
      ∃ idx ∈ findSlotTrace String.length (fullTable 46343) "y", idx < 0) :=
  ⟨⟨⟨by decide, by decide⟩,
      ((C16_findSlot_index_safety String.length (fullTable 3) "y"
        ⟨by decide, by decide⟩).1 (by decide)).2.1⟩,
    ⟨⟨List.length_replicate _ _, by decide⟩,
      (C16_findSlot_index_safety String.length (fullTable 46343) "y"
        ⟨List.length_replicate _ _, by decide⟩).2 rfl
        (fullTable_busy 46343 "y" (by decide))⟩⟩


/-! ### Deleting the record `findSlot` found -/

theorem slotAt_some (table : List BankAccount) (index : Int) (account : BankAccount)
    (h : slotAt table index = some account) :
    0 ≤ index ∧ index.toNat < table.length ∧ table[index.toNat]? = some account := by
  unfold slotAt at h
  by_cases h0 : 0 ≤ index
  · rw [if_pos h0] at h
    exact ⟨h0, (List.getElem?_eq_some_iff.mp h).1, h⟩
  · rw [if_neg h0] at h
    cases h

theorem slotAt_set_ne (table : List BankAccount) (r : Nat) (a : BankAccount) (index : Int)
    (hne : index ≠ (r : Int)) : slotAt (table.set r a) index = slotAt table index := by
  unfold slotAt
  by_cases h0 : 0 ≤ index
  · rw [if_pos h0, if_pos h0, List.getElem?_set, if_neg (by omega)]
  · rw [if_neg h0, if_neg h0]

theorem slotAt_set_self (table : List BankAccount) (r : Nat) (a : BankAccount)
    (hr : r < table.length) : slotAt (table.set r a) (r : Int) = some a := by
  rw [slotAt_natCast]
  simp [List.getElem?_set, hr]

/-- When the loop returned slot `r`, it returns `r` again after slot `r` is replaced by
an inactive record. -/
theorem findSlotLoop_deactivated (table : List BankAccount) (capacity : Int) (id : String)
    (r : Nat) (a : BankAccount) (ha : a.active = false) :
    ∀ (fuel : Nat) (index i : Int),
      findSlotLoop table capacity id fuel index i = some (r : Int) →
      findSlotLoop (table.set r a) capacity id fuel index i = some (r : Int) := by
  intro fuel
  induction fuel with
  | zero =>
    intro index i h
    simp [findSlotLoop] at h
  | succ f ih =>
    intro index i h
    cases hs : slotAt table index with
    | none =>
      rw [(findSlotLoop_outside table capacity id f index i hs).1] at h
      cases h
    | some account =>
      by_cases hidx : index = (r : Int)
      · subst hidx
        have hr := (slotAt_some table _ account hs).2.1
        rw [Int.toNat_ofNat] at hr
        exact findSlotLoop_stop _ capacity id f _ i a (slotAt_set_self table r a hr)
          (by simp [ha])
      · have hs2 : slotAt (table.set r a) index = some account := by
          rw [slotAt_set_ne table r a index hidx]
          exact hs
        by_cases hgo : account.active = true ∧ account.id ≠ id
        · rw [findSlotLoop_busy_step table capacity id f index i account hs hgo.1 hgo.2] at h
          rw [findSlotLoop_busy_step _ capacity id f index i account hs2 hgo.1 hgo.2]
          split
          · rename_i hc
            rw [if_pos hc] at h
            exact h
          · rename_i hc
            rw [if_neg hc] at h
            exact ih _ _ h
        · rw [findSlotLoop_stop table capacity id f index i account hs hgo] at h
          have : index = (r : Int) := by simpa using h
          exact absurd this hidx

theorem deleteAccount_of_exists (hashFunc : String → Nat) (s : BankingSystem)
    (id : String) (found : Bool) (hdef : accountExists hashFunc s id = some found) :
    ∃ t, deleteAccount hashFunc s id = some (t, found) ∧
      (found = true →
        totalAccounts t = totalAccounts s - 1 ∧
        accountExists hashFunc t id = some false ∧
        getBalance hashFunc t id = some (-1)) ∧
      (found = false → t = s) := by
  cases hf : findSlot hashFunc s id with
  | none =>
    unfold accountExists at hdef
    simp [hf] at hdef
  | some index =>
    by_cases hm : index = -1
    · subst hm
      have hfound : found = false := by
        unfold accountExists at hdef
        simpa [hf] using hdef.symm
      subst hfound
      refine ⟨s, ?_, by simp, fun _ => rfl⟩
      unfold deleteAccount
      simp [hf]
    · cases hs : slotAt s.table index with
      | none =>
        unfold accountExists at hdef
        simp [hf, hm, hs] at hdef
      | some account =>
        obtain ⟨h0, hlt, hget⟩ := slotAt_some s.table index account hs
        obtain ⟨r, rfl⟩ : ∃ r : Nat, index = (r : Int) := ⟨index.toNat, by omega⟩
        rw [Int.toNat_ofNat] at hlt hget
        rw [accountExists_of_slot hashFunc s id r account hf hget] at hdef
        have hfound : account.active = found := by simpa using hdef
        rw [deleteAccount_of_slot hashFunc s id r account hf hget]
        cases hact : account.active with
        | false =>
          rw [hact] at hfound
          subst hfound
          exact ⟨s, by simp, by simp, fun _ => rfl⟩
        | true =>
          rw [hact] at hfound
          subst hfound
          refine ⟨{ s with
              table := s.table.set r { account with active := false }
              size := s.size - 1 }, by simp, ?_, by simp⟩
          intro _
          have hf2 : findSlot hashFunc { s with
              table := s.table.set r { account with active := false }
              size := s.size - 1 } id = some (r : Int) :=
            findSlotLoop_deactivated s.table s.capacity id r { account with active := false }
              rfl s.capacity _ 0 hf
          have hget2 : ({ s with
              table := s.table.set r { account with active := false }
              size := s.size - 1 } : BankingSystem).table[r]?
              = some { account with active := false } := by
            simp [List.getElem?_set, hlt]
          refine ⟨rfl, ?_, ?_⟩
          · rw [accountExists_of_slot hashFunc _ id r _ hf2 hget2]
          · rw [getBalance_of_slot hashFunc _ id r _ hf2 hget2]
            rfl

/-- In a sized table of capacity at most 46340 every lookup returns. -/
theorem accountExists_defined (hashFunc : String → Nat) (s : BankingSystem) (id : String)
    (hs : Sized s) (hcap : s.capacity ≤ 46340) :
    ∃ found, accountExists hashFunc s id = some found := by
  obtain ⟨⟨r, hr, hcase⟩, _⟩ := findSlot_safe hashFunc s id hs hcap
  rcases hcase with rfl | ⟨m, account, rfl, _, hget, _⟩
  · refine ⟨false, ?_⟩
    unfold accountExists
    simp [hr]
  · exact ⟨account.active, accountExists_of_slot hashFunc s id m account hr hget⟩

/-- C14. Quadratic `deleteAccount(id)`, for every table state. The call returns exactly
when the lookup `accountExists(id)` before it does (both use `findSlot`; in a sized table
of capacity at most 46340 they always do), and then: it returns the value
`accountExists(id)` had before the call; when that is true, `size` goes down by exactly
one and afterwards `accountExists(id)` is false and `getBalance(id)` is the sentinel
`-1`, not the stale balance of the deactivated slot; when it is false, the table and
`size` are unchanged. -/
theorem C14_deleteAccount_quadratic (hashFunc : String → Nat) (s : BankingSystem)
    (id : String) :
    (Sized s → s.capacity ≤ 46340 → ∃ found, accountExists hashFunc s id = some found) ∧
    (accountExists hashFunc s id = none → deleteAccount hashFunc s id = none) ∧
    (∀ found, accountExists hashFunc s id = some found →
      ∃ t, deleteAccount hashFunc s id = some (t, found) ∧
        (found = true →
          totalAccounts t = totalAccounts s - 1 ∧
          accountExists hashFunc t id = some false ∧
          getBalance hashFunc t id = some (-1)) ∧
        (found = false → t = s)) := by
  refine ⟨accountExists_defined hashFunc s id, ?_, deleteAccount_of_exists hashFunc s id⟩
  intro hnone
  cases hf : findSlot hashFunc s id with
  | none =>
    unfold deleteAccount
    simp [hf]
  | some index =>
    by_cases hm : index = -1
    · unfold accountExists at hnone
      simp [hf, hm] at hnone
    · cases hs : slotAt s.table index with
      | none =>
        unfold deleteAccount
        simp [hf, hm, hs]
      | some account =>
        unfold accountExists at hnone
        simp [hf, hm, hs] at hnone

/-- C14 at a concrete table: capacity 2, string length as hash, "a" stored with balance
7; `deleteAccount("a")` returns true and the stale balance 7 is not reported. -/
theorem C14_deleteAccount_quadratic_witness :
    accountExists String.length
      { table := [⟨"", 0, false⟩, ⟨"a", 7, true⟩], capacity := 2, size := 1 } "a"
      = some true ∧
    ∃ t, deleteAccount String.length
        { table := [⟨"", 0, false⟩, ⟨"a", 7, true⟩], capacity := 2, size := 1 } "a"
        = some (t, true) ∧
      (true = true →
        totalAccounts t
          = totalAccounts
              { table := [⟨"", 0, false⟩, ⟨"a", 7, true⟩], capacity := 2, size := 1 }
            - 1 ∧
        accountExists String.length t "a" = some false ∧
        getBalance String.length t "a" = some (-1)) ∧
      (true = false →
        t = { table := [⟨"", 0, false⟩, ⟨"a", 7, true⟩], capacity := 2, size := 1 }) :=
  ⟨by decide,
    (C14_deleteAccount_quadratic String.length
      { table := [⟨"", 0, false⟩, ⟨"a", 7, true⟩], capacity := 2, size := 1 } "a").2.2 true
      (by decide)⟩


/-! ### The size invariant -/

theorem countP_set (l : List α) (p : α → Bool) (i : Nat) (a : α) (hi : i < l.length) :
    (l.set i a).countP p + (if p l[i] = true then 1 else 0)
      = l.countP p + (if p a = true then 1 else 0) := by
  induction l generalizing i with
  | nil => simp at hi
  | cons x l ih =>
    cases i with
    | zero =>
      simp only [List.set_cons_zero, List.countP_cons, List.getElem_cons_zero]
      omega
    | succ i =>
      have := ih i (by simpa using hi)
      simp only [List.set_cons_succ, List.countP_cons, List.getElem_cons_succ]
      omega

theorem SizeInv_set (s : BankingSystem) (m : Nat) (account new : BankAccount) (size : Int)
    (hinv : SizeInv s) (hget : s.table[m]? = some account)
    (hsz : size + (if account.active = true then 1 else 0)
      = s.size + (if new.active = true then 1 else 0)) :
    SizeInv { s with table := s.table.set m new, size := size } := by
  obtain ⟨hlt, hval⟩ := List.getElem?_eq_some_iff.mp hget
  have hc := countP_set s.table (fun account => account.active) m new hlt
  rw [hval] at hc
  refine ⟨by simpa using hinv.1, ?_⟩
  have hsize := hinv.2
  unfold activeCount at hsize ⊢
  simp only at hc ⊢
  cases hA : account.active <;> cases hN : new.active <;>
    simp only [hA, hN, Bool.false_eq_true, if_true, if_false] at hc hsz <;> omega

theorem SizeInv_init (cap : Nat) : SizeInv (BankingSystem.init cap) := by
  refine ⟨by simp [BankingSystem.init], ?_⟩
  unfold activeCount BankingSystem.init
  simp [List.countP_replicate, BankAccount.blank]

theorem createAccount_cases (hashFunc : String → Nat) (s t : BankingSystem) (id : String)
    (b : Int) (h : createAccount hashFunc s id b = some t) :
    t = s ∨ ∃ (m : Nat) (account : BankAccount), s.table[m]? = some account ∧
      account.active = false ∧
      t = { s with
            table := s.table.set m { id := id, balance := b, active := true }
            size := s.size + 1 } := by
  unfold createAccount at h
  cases hf : findSlot hashFunc s id with
  | none => simp [hf] at h
  | some index =>
    by_cases hm : index = -1
    · left
      simpa [hf, hm] using h.symm
    · cases hs : slotAt s.table index with
      | none => simp [hf, hm, hs] at h
      | some account =>
        obtain ⟨_, _, hget⟩ := slotAt_some s.table index account hs
        cases hact : account.active with
        | true =>
          left
          simpa [hf, hm, hs, hact] using h.symm
        | false =>
          right
          refine ⟨index.toNat, account, hget, hact, ?_⟩
          simpa [hf, hm, hs, hact] using h.symm

theorem addTransaction_cases (hashFunc : String → Nat) (s t : BankingSystem) (id : String)
    (amount : Int) (h : addTransaction hashFunc s id amount = some t) :
    t = s ∨
    (∃ (m : Nat) (account : BankAccount), s.table[m]? = some account ∧
      account.active = false ∧
      t = { s with
            table := s.table.set m { id := id, balance := amount, active := true }
            size := s.size + 1 }) ∨
    (∃ (m : Nat) (account : BankAccount), s.table[m]? = some account ∧
      account.active = true ∧
      t = { s with
            table := s.table.set m { account with balance := account.balance + amount } }) := by
  unfold addTransaction at h
  cases hf : findSlot hashFunc s id with
  | none => simp [hf] at h
  | some index =>
    by_cases hm : index = -1
    · left
      simpa [hf, hm] using h.symm
    · cases hs : slotAt s.table index with
      | none => simp [hf, hm, hs] at h
      | some account =>
        obtain ⟨_, _, hget⟩ := slotAt_some s.table index account hs
        cases hact : account.active with
        | true =>
          by_cases hb : account.balance + amount ≥ 0
          · right; right
            refine ⟨index.toNat, account, hget, hact, ?_⟩
            simpa [hf, hm, hs, hact, hb] using h.symm
          · left
            simpa [hf, hm, hs, hact, hb] using h.symm
        | false =>
          by_cases hb : amount ≥ 0
          · right; left
            refine ⟨index.toNat, account, hget, hact, ?_⟩
            simpa [hf, hm, hs, hact, hb] using h.symm
          · left
            simpa [hf, hm, hs, hact, hb] using h.symm

theorem deleteAccount_cases (hashFunc : String → Nat) (s t : BankingSystem) (id : String)
    (found : Bool) (h : deleteAccount hashFunc s id = some (t, found)) :
    t = s ∨ ∃ (m : Nat) (account : BankAccount), s.table[m]? = some account ∧
      account.active = true ∧
      t = { s with
            table := s.table.set m { account with active := false }
            size := s.size - 1 } := by
  unfold deleteAccount at h
  cases hf : findSlot hashFunc s id with
  | none => simp [hf] at h
  | some index =>
    by_cases hm : index = -1
    · left
      have := h
      simp [hf, hm] at this
      exact this.1.symm
    · cases hs : slotAt s.table index with
      | none => simp [hf, hm, hs] at h
      | some account =>
        obtain ⟨_, _, hget⟩ := slotAt_some s.table index account hs
        cases hact : account.active with
        | true =>
          right
          refine ⟨index.toNat, account, hget, hact, ?_⟩
          have := h
          simp [hf, hm, hs, hact] at this
          exact this.1.symm
        | false =>
          left
          have := h
          simp [hf, hm, hs, hact] at this
          exact this.1.symm

theorem reachable_SizeInv (hashFunc : String → Nat) (cap : Nat) (s : BankingSystem)
    (h : Reachable hashFunc cap s) : SizeInv s := by
  induction h with
  | fresh => exact SizeInv_init cap
  | create s t id b _ hop ih =>
    rcases createAccount_cases hashFunc s t id b hop with rfl | ⟨m, account, hget, hact, rfl⟩
    · exact ih
    · exact SizeInv_set s m account _ _ ih hget (by simp [hact])
  | transact s t id amount _ hop ih =>
    rcases addTransaction_cases hashFunc s t id amount hop with
      rfl | ⟨m, account, hget, hact, rfl⟩ | ⟨m, account, hget, hact, rfl⟩
    · exact ih
    · exact SizeInv_set s m account _ _ ih hget (by simp [hact])
    · exact SizeInv_set s m account _ s.size ih hget (by simp [hact])
  | delete s t id found _ hop ih =>
    rcases deleteAccount_cases hashFunc s t id found hop with
      rfl | ⟨m, account, hget, hact, rfl⟩
    · exact ih
    · exact SizeInv_set s m account _ _ ih hget (by simp [hact])

/-- C18. Quadratic size invariant: in every state reachable from the freshly constructed
table by `createAccount` / `addTransaction` / `deleteAccount` calls, `totalAccounts()`
is the number of slots with `active == true`, and so `0 <= totalAccounts() <= capacity`. -/
theorem C18_size_invariant (hashFunc : String → Nat) (cap : Nat) (s : BankingSystem)
    (hr : Reachable hashFunc cap s) :
    totalAccounts s = (activeCount s : Nat) ∧
    0 ≤ totalAccounts s ∧ totalAccounts s ≤ (s.capacity : Nat) := by
  obtain ⟨hlen, hsize⟩ := reachable_SizeInv hashFunc cap s hr
  have hle : activeCount s ≤ s.table.length := List.countP_le_length _
  unfold totalAccounts
  refine ⟨hsize, ?_, ?_⟩ <;> omega


/-- C18 at a concrete reachable state: capacity 2, string length as hash, "a" created. -/
theorem C18_size_invariant_witness :
    Reachable String.length 2
      { table := [⟨"", 0, false⟩, ⟨"a", 1, true⟩], capacity := 2, size := 1 } ∧
    totalAccounts { table := [⟨"", 0, false⟩, ⟨"a", 1, true⟩], capacity := 2, size := 1 }
      = 1 :=
  ⟨Reachable.create (BankingSystem.init 2) _ "a" 1 Reachable.fresh (by decide),
    (C18_size_invariant String.length 2
      { table := [⟨"", 0, false⟩, ⟨"a", 1, true⟩], capacity := 2, size := 1 }
      (Reachable.create (BankingSystem.init 2) _ "a" 1 Reachable.fresh (by decide))).1⟩

/-! ### Creating an id again after a colliding delete -/

/-- The four states of: create `d`, create `j` (same hash slot `h`), delete `d`, create
`j` again, in a fresh table of capacity `n + 2`; `i1 = (h + 1) % (n + 2)`. -/
theorem recreate_states (hashFunc : String → Nat) (n : Nat) (d j : String) (x y z : Int)
    (h i1 : Nat) (hcap2 : n + 2 < 2 ^ 31) (hdj : d ≠ j)
    (hh0 : hashFunc d % (n + 2) = h) (hcoll : hashFunc j % (n + 2) = h)
    (hi1 : (h + 1) % (n + 2) = i1) :
    h < n + 2 ∧ i1 < n + 2 ∧ h ≠ i1 ∧
    createAccount hashFunc (BankingSystem.init (n + 2)) d x
      = some { table := (List.replicate (n + 2) BankAccount.blank).set h
                 { id := d, balance := x, active := true },
               capacity := n + 2, size := 0 + 1 } ∧
    createAccount hashFunc
      { table := (List.replicate (n + 2) BankAccount.blank).set h
          { id := d, balance := x, active := true },
        capacity := n + 2, size := 0 + 1 } j y
      = some { table := ((List.replicate (n + 2) BankAccount.blank).set h
                 { id := d, balance := x, active := true }).set i1
                 { id := j, balance := y, active := true },
               capacity := n + 2, size := 0 + 1 + 1 } ∧
    deleteAccount hashFunc
      { table := ((List.replicate (n + 2) BankAccount.blank).set h
          { id := d, balance := x, active := true }).set i1
          { id := j, balance := y, active := true },
        capacity := n + 2, size := 0 + 1 + 1 } d
      = some ({ table := (((List.replicate (n + 2) BankAccount.blank).set h
                  { id := d, balance := x, active := true }).set i1
                  { id := j, balance := y, active := true }).set h
                  { id := d, balance := x, active := false },
                capacity := n + 2, size := 0 + 1 + 1 - 1 }, true) ∧
    createAccount hashFunc
      { table := (((List.replicate (n + 2) BankAccount.blank).set h
          { id := d, balance := x, active := true }).set i1
          { id := j, balance := y, active := true }).set h
          { id := d, balance := x, active := false },
        capacity := n + 2, size := 0 + 1 + 1 - 1 } j z
      = some { table := ((((List.replicate (n + 2) BankAccount.blank).set h
                 { id := d, balance := x, active := true }).set i1
                 { id := j, balance := y, active := true }).set h
                 { id := d, balance := x, active := false }).set h
                 { id := j, balance := z, active := true },
               capacity := n + 2, size := 0 + 1 + 1 - 1 + 1 } := by
  have hcap : 2 ≤ n + 2 := by omega
  have hh : h < n + 2 := by rw [← hh0]; exact Nat.mod_lt _ (by omega)
  have hi1lt : i1 < n + 2 := by rw [← hi1]; exact Nat.mod_lt _ (by omega)
  have hne1 : h ≠ i1 := by
    rw [← hi1]
    by_cases hlt : h + 1 < n + 2
    · rw [Nat.mod_eq_of_lt hlt]; omega
    · have : h + 1 = n + 2 := by omega
      rw [this, Nat.mod_self]; omega
  have hfd : ∀ (T : List BankAccount) (sz : Int),
      hashFunction hashFunc { table := T, capacity := n + 2, size := sz } d = h :=
    fun _ _ => hh0
  have hfj : ∀ (T : List BankAccount) (sz : Int),
      hashFunction hashFunc { table := T, capacity := n + 2, size := sz } j = h :=
    fun _ _ => hcoll
  refine ⟨hh, hi1lt, hne1, ?_, ?_, ?_, ?_⟩
  · have he : (BankingSystem.init (n + 2)).table[h]? = some BankAccount.blank := by
      simp [BankingSystem.init, List.getElem?_replicate, hh]
    have hp : findSlot hashFunc (BankingSystem.init (n + 2)) d = some (h : Int) := by
      unfold findSlot
      rw [show hashFunction hashFunc (BankingSystem.init (n + 2)) d = h from hh0]
      exact findSlotLoop_stop _ _ d (n + 1) _ 0 BankAccount.blank
        (by rw [slotAt_natCast]; exact he) (by simp [BankAccount.blank])
    rw [createAccount_of_slot hashFunc _ d x h BankAccount.blank hp he]
    rfl
  · have he0 : ((List.replicate (n + 2) BankAccount.blank).set h
        { id := d, balance := x, active := true })[h]?
        = some { id := d, balance := x, active := true } := by
      simp [List.getElem?_set, hh]
    have he1 : ((List.replicate (n + 2) BankAccount.blank).set h
        { id := d, balance := x, active := true })[i1]? = some BankAccount.blank := by
      simp [List.getElem?_set, List.getElem?_replicate, hne1, hi1lt]
    have hp : findSlot hashFunc
        { table := (List.replicate (n + 2) BankAccount.blank).set h
            { id := d, balance := x, active := true },
          capacity := n + 2, size := 0 + 1 } j = some (i1 : Int) := by
      unfold findSlot
      rw [hfj]
      have key := findSlotLoop_first_round
        ((List.replicate (n + 2) BankAccount.blank).set h
          { id := d, balance := x, active := true })
        (n + 2) j (n + 1) h _ hcap hcap2 hh he0 rfl hdj
      rw [hi1] at key
      refine key.trans ?_
      exact findSlotLoop_stop _ _ j n _ 1 BankAccount.blank
        (by rw [slotAt_natCast]; exact he1) (by simp [BankAccount.blank])
    rw [createAccount_of_slot hashFunc _ j y i1 BankAccount.blank hp he1]
    rfl
  · have he0 : (((List.replicate (n + 2) BankAccount.blank).set h
        { id := d, balance := x, active := true }).set i1
        { id := j, balance := y, active := true })[h]?
        = some { id := d, balance := x, active := true } := by
      simp [List.getElem?_set, hh, hne1.symm]
    have hpd : findSlot hashFunc
        { table := ((List.replicate (n + 2) BankAccount.blank).set h
            { id := d, balance := x, active := true }).set i1
            { id := j, balance := y, active := true },
          capacity := n + 2, size := 0 + 1 + 1 } d = some (h : Int) := by
      unfold findSlot
      rw [hfd]
      exact findSlotLoop_stop _ _ d (n + 1) _ 0 { id := d, balance := x, active := true }
        (by rw [slotAt_natCast]; exact he0) (by simp)
    rw [deleteAccount_of_slot hashFunc _ d h _ hpd he0]
    rfl
  · have hf0 : ((((List.replicate (n + 2) BankAccount.blank).set h
        { id := d, balance := x, active := true }).set i1
        { id := j, balance := y, active := true }).set h
        { id := d, balance := x, active := false })[h]?
        = some { id := d, balance := x, active := false } := by
      simp [List.getElem?_set, hh]
    have hpj2 : findSlot hashFunc
        { table := (((List.replicate (n + 2) BankAccount.blank).set h
            { id := d, balance := x, active := true }).set i1
            { id := j, balance := y, active := true }).set h
            { id := d, balance := x, active := false },
          capacity := n + 2, size := 0 + 1 + 1 - 1 } j = some (h : Int) := by
      unfold findSlot
      rw [hfj]
      exact findSlotLoop_stop _ _ j (n + 1) _ 0 { id := d, balance := x, active := false }
        (by rw [slotAt_natCast]; exact hf0) (by simp)
    rw [createAccount_of_slot hashFunc _ j z h _ hpj2 hf0]
    rfl

/-- C17, as the code behaves. Two distinct ids `d` and `j` with the same hash slot, in a
fresh table of capacity at least 2: after `createAccount(d)`, `createAccount(j)`,
`deleteAccount(d)`, `createAccount(j)` the state is reachable, and two different active
slots hold the id `j` (with balances `z` and `y`); `totalAccounts()` is 2. The second
`createAccount(j)` stops at the deactivated slot of `d` and never sees the live record
of `j` behind it. -/
theorem C17_duplicate_active_id (hashFunc : String → Nat) (cap : Nat) (d j : String)
    (x y z : Int) (hcap : 2 ≤ cap) (hcap2 : cap < 2 ^ 31) (hdj : d ≠ j)
    (hcoll : hashFunc j % cap = hashFunc d % cap) :
    ∃ (t : BankingSystem) (m1 m2 : Nat),
      recreateScenario hashFunc cap d j x y z = some t ∧ Reachable hashFunc cap t ∧
      m1 ≠ m2 ∧
      t.table[m1]? = some { id := j, balance := z, active := true } ∧
      t.table[m2]? = some { id := j, balance := y, active := true } ∧
      totalAccounts t = 2 := by
  obtain ⟨n, rfl⟩ : ∃ n, cap = n + 2 := ⟨cap - 2, by omega⟩
  obtain ⟨h, hh0⟩ : ∃ h, hashFunc d % (n + 2) = h := ⟨_, rfl⟩
  obtain ⟨i1, hi1⟩ : ∃ i1, (h + 1) % (n + 2) = i1 := ⟨_, rfl⟩
  rw [hh0] at hcoll
  obtain ⟨hh, hi1lt, hne, hS1, hS2, hS3, hS4⟩ :=
    recreate_states hashFunc n d j x y z h i1 hcap2 hdj hh0 hcoll hi1
  refine ⟨{ table := ((((List.replicate (n + 2) BankAccount.blank).set h
                { id := d, balance := x, active := true }).set i1
                { id := j, balance := y, active := true }).set h
                { id := d, balance := x, active := false }).set h
                { id := j, balance := z, active := true },
            capacity := n + 2, size := 0 + 1 + 1 - 1 + 1 },
    h, i1, ?_, ?_, hne, ?_, ?_, ?_⟩
  · unfold recreateScenario twoCreates
    simp only [hS1, hS2, hS3, Option.bind_eq_bind, Option.some_bind]
    exact hS4
  · exact Reachable.create _ _ j z
      (Reachable.delete _ _ d true
        (Reachable.create _ _ j y
          (Reachable.create _ _ d x Reachable.fresh hS1) hS2) hS3) hS4
  · simp [List.getElem?_set, hh]
  · simp [List.getElem?_set, hh, hi1lt, hne]
  · show (0 + 1 + 1 - 1 + 1 : Int) = 2
    norm_num

/-- C17 at concrete inputs: capacity 2, string length as hash, ids "d" and "j". -/
theorem C17_duplicate_active_id_witness :
    ∃ (t : BankingSystem) (m1 m2 : Nat),
      recreateScenario String.length 2 "d" "j" 10 20 30 = some t ∧
      Reachable String.length 2 t ∧ m1 ≠ m2 ∧
      t.table[m1]? = some { id := "j", balance := 30, active := true } ∧
      t.table[m2]? = some { id := "j", balance := 20, active := true } ∧
      totalAccounts t = 2 :=
  C17_duplicate_active_id String.length 2 "d" "j" 10 20 30 (by decide) (by decide)
    (by decide) (by decide)

end QuadraticProbing
